import Mathlib

/-!
# regressionapitest: a smoke-test runner for HTTP APIs

A shallow embedding of `regressionapitest.go` and of the parts of the Go
standard library its behaviour depends on (`strings`, `bufio`, `strconv`,
`encoding/json`, `log`), followed by the properties of the program.

Go strings are byte sequences; a byte is written as its numeric value, with
the character it stands for in a comment.
-/

namespace RegressionApiTest

/-! ## Go strings -/

/-- A Go string: a sequence of bytes. -/
abbrev GoString := List Nat

/-- The bytes of an ASCII string literal of the source. -/
def ascii (s : String) : GoString := s.data.map Char.toNat

/-! ## package strings -/

/-- The pieces of `strings.Split(s, sep)` for a one-byte separator: the
substrings between successive occurrences of `sep`. -/
def Split (sep : Nat) : GoString → List GoString
  | [] => [[]]
  | c :: cs =>
    if c = sep then [] :: Split sep cs
    else match Split sep cs with
      | [] => [[c]]
      | p :: ps => (c :: p) :: ps

/-- The UTF-8 encodings of the runes for which `unicode.IsSpace` holds:
U+0009..U+000D, U+0020, U+0085, U+00A0, U+1680, U+2000..U+200A, U+2028,
U+2029, U+202F, U+205F and U+3000. -/
def spaceEncodings : List GoString :=
  [[0x09], [0x0A], [0x0B], [0x0C], [0x0D], [0x20], [0xC2, 0x85], [0xC2, 0xA0],
   [0xE1, 0x9A, 0x80],
   [0xE2, 0x80, 0x80], [0xE2, 0x80, 0x81], [0xE2, 0x80, 0x82], [0xE2, 0x80, 0x83],
   [0xE2, 0x80, 0x84], [0xE2, 0x80, 0x85], [0xE2, 0x80, 0x86], [0xE2, 0x80, 0x87],
   [0xE2, 0x80, 0x88], [0xE2, 0x80, 0x89], [0xE2, 0x80, 0x8A],
   [0xE2, 0x80, 0xA8], [0xE2, 0x80, 0xA9], [0xE2, 0x80, 0xAF], [0xE2, 0x81, 0x9F],
   [0xE3, 0x80, 0x80]]

/-- The encoding of the white-space rune that `s` starts with, if any: what
`utf8.DecodeRuneInString` followed by `unicode.IsSpace` detects (an invalid
or truncated encoding decodes to `RuneError`, which is not white space). -/
def leadingSpace (table : List GoString) (s : GoString) : Option GoString :=
  table.find? (fun e => e.isPrefixOf s)

/-- The loop of `strings.TrimLeftFunc(s, unicode.IsSpace)`: drop white-space
runes from the front; every round drops at least one byte, so `s.length`
rounds are enough. -/
def trimLeftLoop (table : List GoString) : Nat → GoString → GoString
  | 0, s => s
  | n + 1, s =>
    match leadingSpace table s with
    | none => s
    | some e => trimLeftLoop table n (s.drop e.length)

/-- The result of `strings.TrimLeftFunc(s, unicode.IsSpace)`. -/
def TrimLeftSpace (s : GoString) : GoString :=
  trimLeftLoop spaceEncodings s.length s

/-- The result of `strings.TrimRightFunc(s, unicode.IsSpace)`: the same
loop from the back (`utf8.DecodeLastRuneInString` finds a white-space rune
exactly when the string ends with its encoding), written on the reversed
string. -/
def TrimRightSpace (s : GoString) : GoString :=
  (trimLeftLoop (spaceEncodings.map List.reverse) s.length s.reverse).reverse

/-- The result of `strings.TrimSpace(s)`: `s` without leading and trailing
white space, as defined by Unicode. -/
def TrimSpace (s : GoString) : GoString :=
  TrimRightSpace (TrimLeftSpace s)

/-- Whether `s` starts with a white-space rune. -/
def hasLeadingSpace (s : GoString) : Bool :=
  (leadingSpace spaceEncodings s).isSome

/-- Whether `s` ends with a white-space rune. -/
def hasTrailingSpace (s : GoString) : Bool :=
  (leadingSpace (spaceEncodings.map List.reverse) s.reverse).isSome

/-- The result of `strings.ToLower(s)`. For an ASCII-only string every byte
`A..Z` is replaced by `a..z`; any other string goes through
`strings.Map(unicode.ToLower, s)`, whose Unicode case tables are not part of
the program and are taken as the parameter `unicodeLower`. -/
def ToLower (unicodeLower : GoString → GoString) (s : GoString) : GoString :=
  if s.all (fun c => decide (c < 128)) then
    s.map (fun c => if 65 ≤ c ∧ c ≤ 90 then c + 32 else c)
  else unicodeLower s

/-! ## package bufio -/

/-- The result of `reader.ReadString(delim)` on an input of which `input`
is still unread: the bytes up to and including the first `delim` (all of
them when there is none, where Go also reports `io.EOF`), and what stays
unread. -/
def ReadString (delim : Nat) : GoString → GoString × GoString
  | [] => ([], [])
  | c :: cs =>
    if c = delim then ([c], cs)
    else ((c :: (ReadString delim cs).1), (ReadString delim cs).2)

/-- The size of the buffer of `bufio.NewReader`: the constant
`defaultBufSize`. -/
def defaultBufSize : Nat := 4096

/-- The number of bytes a new `bufio.Reader` has taken from a source of
`total` bytes when its `ReadString` returns a line of `n` bytes: the reader
fills its buffer by reads of up to `defaultBufSize` bytes until the delimiter
is in the buffer or the source is at its end, and every read is taken to
return all the bytes that are there and fit. -/
def bufferedBytes (n total : Nat) : Nat :=
  min total ((n + defaultBufSize - 1) / defaultBufSize * defaultBufSize)

/-! ## package strconv -/

/-- Whether `c` is one of `0..9`. -/
def isDigit (c : Nat) : Bool := decide (48 ≤ c ∧ c ≤ 57)

/-- The type `decimal` of decimal.go without its sign, which plays no part
in the range check: the digits `d[0:nd]` as the bytes `0..9` (the array of the
source holds 800 of them, and `nd` is the length of the list), the position
`dp` of the decimal point, and `trunc`, whether non-zero digits beyond
`d[0:nd]` were discarded. The value is `0.d[0]d[1]... * 10^dp`. -/
structure Decimal where
  d : List Nat
  dp : Int
  trunc : Bool
  deriving DecidableEq, Repr

/-- The number of digits a `decimal` holds: `len(b.d)`. -/
def decimalDigits : Nat := 800

/-- The digit loop of `decimal.set`, from the byte it is at: the decimal,
`sawdot`, `sawdigits` and the bytes from the one that ended the loop on, or
`none` where `set` returns `false` (a second point). Leading zeros only move
the point, a digit beyond the 800th is dropped, and noted in `trunc` when it
is not `0`; the point is put at `b.nd`, the number of digits kept so far. -/
def setDigits : List Nat → Decimal → Bool → Bool → Option (Decimal × Bool × Bool × List Nat)
  | [], b, sawdot, sawdigits => some (b, sawdot, sawdigits, [])
  | c :: cs, b, sawdot, sawdigits =>
    if c = 95 then setDigits cs b sawdot sawdigits   -- '_'
    else if c = 46 then   -- '.'
      if sawdot then none
      else setDigits cs { b with dp := b.d.length } true sawdigits
    else if 48 ≤ c ∧ c ≤ 57 then
      if c = 48 ∧ b.d.length = 0 then setDigits cs { b with dp := b.dp - 1 } sawdot true
      else if b.d.length < decimalDigits then setDigits cs { b with d := b.d ++ [c] } sawdot true
      else if c ≠ 48 then setDigits cs { b with trunc := true } sawdot true
      else setDigits cs b sawdot true
    else some (b, sawdot, sawdigits, c :: cs)

/-- The exponent as `decimal.set` accumulates it from the digits (and
underscores) that follow the sign: once it has reached 10000 further digits
are read but no longer added. -/
def setExponentValue (ds : List Nat) : Nat :=
  ds.foldl (fun e c => if c = 95 then e else if e < 10000 then e * 10 + (c - 48) else e) 0

/-- The method `decimal.set`: the decimal a number literal denotes for the
conversion, or `none` for text that is not a number. Without a point in the
text the point is put behind the digits kept, `b.dp = b.nd`, also when digits
were dropped. -/
def decimalSet (s : GoString) : Option Decimal :=
  match s with
  | [] => none
  | c :: cs =>
    match setDigits (if c = 43 ∨ c = 45 then cs else c :: cs)   -- '+', '-'
        { d := [], dp := 0, trunc := false } false false with
    | none => none
    | some (b, sawdot, sawdigits, rest) =>
      if sawdigits = false then none
      else
        let b1 : Decimal := if sawdot then b else { b with dp := b.d.length }
        match rest with
        | [] => some b1
        | e :: es =>
          if e = 101 ∨ e = 69 then   -- lower(s[i]) == 'e'
            match es with
            | [] => none
            | f :: fs =>
              let esign : Int := if f = 45 then -1 else 1   -- '-'
              let ds := if f = 43 ∨ f = 45 then fs else f :: fs
              if (ds.head?.map isDigit) ≠ some true then none
              else if ds.dropWhile (fun x => isDigit x || x == 95) ≠ [] then none
              else
                some { b1 with
                  dp := b1.dp +
                    (setExponentValue (ds.takeWhile (fun x => isDigit x || x == 95)) : Int) * esign }
          else none

/-- The function `trim` of decimal.go: trailing zeros are dropped, and a
decimal without digits has its point at 0. -/
def trim (a : Decimal) : Decimal :=
  let d := (a.d.reverse.dropWhile (fun c => c == 48)).reverse
  { a with d := d, dp := if d.isEmpty then 0 else a.dp }

/-- The constant `maxShift` of decimal.go on a platform with 64-bit words:
`uintSize - 4`. -/
def maxShift : Nat := 60

/-- The inner loop of the first loop of `rightShift`, entered when the
digits are used up: `n` is multiplied by 10 until `n >> k` is not 0, which it
is after at most 19 rounds for `k ≤ 60`. -/
def padZeros (k : Nat) : Nat → Nat → Nat → Nat × Nat
  | 0, n, r => (n, r)
  | fuel + 1, n, r => if n >>> k = 0 then padZeros k fuel (n * 10) (r + 1) else (n, r)

/-- The first loop of `rightShift`: pick up enough leading digits to cover
the first shift. The result is `n`, the read pointer `r` and the digits not
read yet, or `none` for the decimal 0. -/
def pickUp (k : Nat) : List Nat → Nat → Nat → Option (Nat × Nat × List Nat)
  | [], n, r =>
    if n >>> k ≠ 0 then some (n, r, [])
    else if n = 0 then none
    else some ((padZeros k 64 n r).1, (padZeros k 64 n r).2, [])
  | c :: cs, n, r =>
    if n >>> k ≠ 0 then some (n, r, c :: cs)
    else pickUp k cs (n * 10 + (c - 48)) (r + 1)

/-- The second loop of `rightShift`: pick up a digit, put down a digit. The
result is the digits put down and `n`. -/
def putDown (k : Nat) : List Nat → Nat → List Nat × Nat
  | [], n => ([], n)
  | c :: cs, n =>
    (((n >>> k) + 48) :: (putDown k cs ((n &&& ((1 <<< k) - 1)) * 10 + (c - 48))).1,
      (putDown k cs ((n &&& ((1 <<< k) - 1)) * 10 + (c - 48))).2)

/-- The third loop of `rightShift`: put down extra digits while `n > 0`,
from the write pointer `w` on; a digit that does not fit the array is dropped
and noted when it is not 0. Every round adds a factor 2 to `n`, so the loop
ends after at most `k + 1` rounds. The result is the digits put down and
whether `trunc` was set. -/
def putDownExtra (k : Nat) : Nat → Nat → Nat → List Nat × Bool
  | 0, _, _ => ([], false)
  | fuel + 1, n, w =>
    if n = 0 then ([], false)
    else if w < decimalDigits then
      (((n >>> k) + 48) :: (putDownExtra k fuel ((n &&& ((1 <<< k) - 1)) * 10) (w + 1)).1,
        (putDownExtra k fuel ((n &&& ((1 <<< k) - 1)) * 10) (w + 1)).2)
    else
      ((putDownExtra k fuel ((n &&& ((1 <<< k) - 1)) * 10) w).1,
        decide (n >>> k > 0) || (putDownExtra k fuel ((n &&& ((1 <<< k) - 1)) * 10) w).2)

/-- The function `rightShift`: the decimal divided by `2^k`, for
`k ≤ maxShift`. -/
def rightShift (a : Decimal) (k : Nat) : Decimal :=
  match pickUp k a.d 0 0 with
  | none => { a with d := [] }
  | some (n, r, rest) =>
    let low := putDown k rest n
    let extra := putDownExtra k 64 low.2 low.1.length
    trim { d := low.1 ++ extra.1, dp := a.dp - ((r : Int) - 1), trunc := a.trunc || extra.2 }

/-- The field `delta` of the entry `leftcheats[k]`: the number of digits of
`2^k`, and 0 for `k = 0`. The source writes the table out for `k` up to 60;
the comment above it says how it was computed. -/
def leftCheatDelta (k : Nat) : Nat :=
  if k = 0 then 0 else (Nat.toDigits 10 (2 ^ k)).length

/-- The field `cutoff` of the entry `leftcheats[k]`: the digits of `5^k`,
and the empty string for `k = 0`. -/
def leftCheatCutoff (k : Nat) : List Nat :=
  if k = 0 then [] else (Nat.toDigits 10 (5 ^ k)).map Char.toNat

/-- The function `prefixIsLessThan`: whether the leading prefix of `b` is
lexicographically less than `s`. -/
def prefixIsLessThan : List Nat → List Nat → Bool
  | _, [] => false
  | [], _ :: _ => true
  | b :: bs, s :: ss => if b ≠ s then decide (b < s) else prefixIsLessThan bs ss

/-- The first loop of `leftShift`, over the digits from the last to the
first: pick up a digit, put down a digit at the write pointer `w`, from the
back. A digit whose place is beyond the array is dropped and noted when it is
not 0. The result is `n`, `w`, the digits put down and `trunc`. -/
def leftShiftLoop (k : Nat) : List Nat → Nat → Nat → List Nat → Bool →
    Nat × Nat × List Nat × Bool
  | [], n, w, acc, t => (n, w, acc, t)
  | c :: cs, n, w, acc, t =>
    if w - 1 < decimalDigits then
      leftShiftLoop k cs ((n + ((c - 48) <<< k)) / 10) (w - 1)
        (((n + ((c - 48) <<< k)) % 10 + 48) :: acc) t
    else
      leftShiftLoop k cs ((n + ((c - 48) <<< k)) / 10) (w - 1) acc
        (t || decide ((n + ((c - 48) <<< k)) % 10 ≠ 0))

/-- The second loop of `leftShift`: put down the digits of what is left in
`n`, at most 20 of them. -/
def leftShiftExtra : Nat → Nat → Nat → List Nat → Bool → List Nat × Bool
  | 0, _, _, acc, t => (acc, t)
  | fuel + 1, n, w, acc, t =>
    if n = 0 then (acc, t)
    else if w - 1 < decimalDigits then
      leftShiftExtra fuel (n / 10) (w - 1) ((n % 10 + 48) :: acc) t
    else leftShiftExtra fuel (n / 10) (w - 1) acc (t || decide (n % 10 ≠ 0))

/-- The function `leftShift`: the decimal multiplied by `2^k`, for
`k ≤ maxShift`. The table gives the number `delta` of digits the product has
more than the operand, so that the digits written from the back end at the
first place of the array. -/
def leftShift (a : Decimal) (k : Nat) : Decimal :=
  let delta :=
    if prefixIsLessThan a.d (leftCheatCutoff k) then leftCheatDelta k - 1 else leftCheatDelta k
  let first := leftShiftLoop k a.d.reverse 0 (a.d.length + delta) [] a.trunc
  let all := leftShiftExtra 64 first.1 first.2.1 first.2.2.1 first.2.2.2
  trim { d := all.1.take (min (a.d.length + delta) decimalDigits), dp := a.dp + delta,
         trunc := all.2 }

/-- The loop of `Shift` for a left shift by `k > 0`: steps of `maxShift`
while `k` is larger, then the rest. -/
def shiftLeftLoop : Nat → Decimal → Nat → Decimal
  | 0, a, k => leftShift a k
  | fuel + 1, a, k =>
    if k > maxShift then shiftLeftLoop fuel (leftShift a maxShift) (k - maxShift)
    else leftShift a k

/-- The loop of `Shift` for a right shift by `k > 0`. -/
def shiftRightLoop : Nat → Decimal → Nat → Decimal
  | 0, a, k => rightShift a k
  | fuel + 1, a, k =>
    if k > maxShift then shiftRightLoop fuel (rightShift a maxShift) (k - maxShift)
    else rightShift a k

/-- The method `Shift`: binary shift left (`k > 0`) or right (`k < 0`). -/
def Decimal.Shift (a : Decimal) (k : Int) : Decimal :=
  if a.d.length = 0 then a
  else if k > 0 then shiftLeftLoop k.toNat a k.toNat
  else if k < 0 then shiftRightLoop (-k).toNat a (-k).toNat
  else a

/-- The function `shouldRoundUp`: if we chop `a` at `nd` digits, should we
round up? -/
def shouldRoundUp (a : Decimal) (nd : Int) : Bool :=
  if nd < 0 ∨ nd ≥ a.d.length then false
  else if a.d.getD nd.toNat 0 = 53 ∧ nd + 1 = a.d.length then   -- exactly halfway
    if a.trunc then true
    else decide (nd > 0 ∧ (a.d.getD (nd.toNat - 1) 48 - 48) % 2 ≠ 0)
  else decide (a.d.getD nd.toNat 0 ≥ 53)

/-- The method `RoundedInteger`: the integer part, rounded, as a `uint64`. -/
def Decimal.RoundedInteger (a : Decimal) : Nat :=
  if a.dp > 20 then 0xFFFFFFFFFFFFFFFF
  else
    let n := (a.d.take a.dp.toNat).foldl (fun n c => n * 10 + (c - 48)) 0 *
      10 ^ (a.dp.toNat - a.d.length)
    (if shouldRoundUp a a.dp then n + 1 else n) % 2 ^ 64

/-- The table `powtab` of atof.go. -/
def powtab : List Nat := [1, 3, 6, 9, 13, 16, 19, 23, 26]

/-- The first scaling loop of `floatBits`: while the decimal is 1 or more
it is shifted right, by 27 bits or by what `powtab` gives for `d.dp`. The
value is at least halved in each round. -/
def scaleDown : Nat → Decimal → Int → Decimal × Int
  | 0, d, exp => (d, exp)
  | fuel + 1, d, exp =>
    if d.dp > 0 then
      scaleDown fuel
        (d.Shift (-((if d.dp.toNat ≥ powtab.length then 27 else powtab.getD d.dp.toNat 0 : Nat) : Int)))
        (exp + ((if d.dp.toNat ≥ powtab.length then 27 else powtab.getD d.dp.toNat 0 : Nat) : Int))
    else (d, exp)

/-- The second scaling loop of `floatBits`: while the decimal is below one
half it is shifted left. -/
def scaleUp : Nat → Decimal → Int → Decimal × Int
  | 0, d, exp => (d, exp)
  | fuel + 1, d, exp =>
    if d.dp < 0 ∨ (d.dp = 0 ∧ d.d.headD 0 < 53) then   -- d.d[0] < '5'
      scaleUp fuel
        (d.Shift ((if (-d.dp).toNat ≥ powtab.length then 27 else powtab.getD (-d.dp).toNat 0 : Nat) : Int))
        (exp - ((if (-d.dp).toNat ≥ powtab.length then 27 else powtab.getD (-d.dp).toNat 0 : Nat) : Int))
    else (d, exp)

/-- The result `overflow` of `d.floatBits(&float64info)`: whether the
decimal rounds to a value beyond the largest float64. The constants of
`float64info` are written out: 52 mantissa bits, 11 exponent bits, bias
-1023. The scaling loops end within some 40 rounds each, for `d.dp` between
-330 and 310. -/
def floatBitsOverflow (d : Decimal) : Bool :=
  if d.d.length = 0 then false   -- zero
  else if d.dp > 310 then true   -- obvious overflow
  else if d.dp < -330 then false   -- zero
  else
    let s1 := scaleDown 2048 d 0
    let s2 := scaleUp 2048 s1.1 s1.2
    -- our range is [0.5,1) but floating point range is [1,2)
    let exp1 := s2.2 - 1
    -- the minimum representable exponent is bias + 1
    let d3 := if exp1 < -1023 + 1 then s2.1.Shift (-(-1023 + 1 - exp1)) else s2.1
    let exp3 := if exp1 < -1023 + 1 then exp1 + (-1023 + 1 - exp1) else exp1
    if exp3 - -1023 ≥ 2 ^ 11 - 1 then true
    else
      -- extract 1 + 52 bits; rounding might have added a bit
      let mant := (d3.Shift (1 + 52)).RoundedInteger
      if mant = 2 * 2 ^ 52 then decide (exp3 + 1 - -1023 ≥ 2 ^ 11 - 1) else false

/-- Whether `strconv.ParseFloat(lit, 64)` reports a range error for a number
literal `lit`. `ParseFloat` first tries two fast conversions, exact floating
point arithmetic and the Eisel-Lemire algorithm; they return a finite float64
and no error, and decline every number that does not round to a finite
float64, for which the conversion falls back to `decimal.set` and
`floatBits`, whose overflow is the range error. A number a fast conversion
accepts is below the overflow threshold, and so is what `decimal.set` keeps of
it, so that the error is the overflow of this fallback for every literal. -/
def parseFloatErrRange (lit : GoString) : Bool :=
  match decimalSet lit with
  | none => false
  | some d => floatBitsOverflow d

/-! ## package encoding/json: the scanner (scanner.go) -/

/-- The values the scanner's step functions return. -/
inductive Op
  | scanContinue | scanBeginLiteral | scanBeginObject | scanObjectKey | scanObjectValue
  | scanEndObject | scanBeginArray | scanArrayValue | scanEndArray | scanSkipSpace
  | scanEnd | scanError
  deriving DecidableEq, Repr

/-- The entries of the scanner's parse-state stack. -/
inductive ParseState
  | parseObjectKey | parseObjectValue | parseArrayValue
  deriving DecidableEq, Repr

/-- The step functions a scanner can be in, by name. -/
inductive Step
  | stateBeginValueOrEmpty | stateBeginValue | stateBeginStringOrEmpty | stateBeginString
  | stateEndValue | stateEndTop
  | stateInString | stateInStringEsc | stateInStringEscU | stateInStringEscU1
  | stateInStringEscU12 | stateInStringEscU123
  | stateNeg | state1 | state0 | stateDot | stateDot0 | stateE | stateESign | stateE0
  | stateT | stateTr | stateTru | stateF | stateFa | stateFal | stateFals
  | stateN | stateNu | stateNul
  | stateError
  deriving DecidableEq, Repr

/-- The scanner: the current step function, whether the top-level value has
ended, the parse-state stack (innermost entry first) and whether an error
has been recorded. The byte counter, used only in error messages, is left
out. -/
structure Scanner where
  step : Step
  endTop : Bool
  parseState : List ParseState
  err : Bool
  deriving DecidableEq, Repr

/-- The nesting limit of the scanner. -/
def maxNestingDepth : Nat := 10000

/-- The scanner after `reset`. -/
def Scanner.reset : Scanner :=
  { step := .stateBeginValue, endTop := false, parseState := [], err := false }

/-- Whether `c` is a JSON white-space byte: space, tab, carriage return, line feed. -/
def isSpace (c : Nat) : Bool := decide (c = 32 ∨ c = 9 ∨ c = 13 ∨ c = 10)

/-- Whether `c` is a hexadecimal digit. -/
def isHex (c : Nat) : Bool :=
  decide ((48 ≤ c ∧ c ≤ 57) ∨ (97 ≤ c ∧ c ≤ 102) ∨ (65 ≤ c ∧ c ≤ 70))

/-- The method `s.error`: record the error and make every later step fail. -/
def Scanner.error (s : Scanner) : Scanner × Op :=
  ({ s with step := .stateError, err := true }, .scanError)

/-- The method `s.pushParseState`. -/
def pushParseState (s : Scanner) (newParseState : ParseState) (successState : Op) :
    Scanner × Op :=
  if (newParseState :: s.parseState).length ≤ maxNestingDepth then
    ({ s with parseState := newParseState :: s.parseState }, successState)
  else Scanner.error { s with parseState := newParseState :: s.parseState }

/-- The method `s.popParseState`. -/
def popParseState (s : Scanner) : Scanner :=
  if s.parseState.tail.length = 0 then
    { s with parseState := s.parseState.tail, step := .stateEndTop, endTop := true }
  else
    { s with parseState := s.parseState.tail, step := .stateEndValue }

/-- The step function `stateEndTop`: only white space may follow the
top-level value; the error it records is reported by the next step or by
`eof`. -/
def stateEndTop (s : Scanner) (c : Nat) : Scanner × Op :=
  if !isSpace c then ((Scanner.error s).1, .scanEnd) else (s, .scanEnd)

/-- The step function `stateEndValue`. -/
def stateEndValue (s : Scanner) (c : Nat) : Scanner × Op :=
  match s.parseState with
  | [] => stateEndTop { s with step := .stateEndTop, endTop := true } c
  | ps :: rest =>
    if isSpace c then ({ s with step := .stateEndValue }, .scanSkipSpace)
    else match ps with
      | .parseObjectKey =>
        if c = 58 then   -- ':'
          ({ s with parseState := .parseObjectValue :: rest, step := .stateBeginValue },
            .scanObjectKey)
        else Scanner.error s
      | .parseObjectValue =>
        if c = 44 then   -- ','
          ({ s with parseState := .parseObjectKey :: rest, step := .stateBeginString },
            .scanObjectValue)
        else if c = 125 then (popParseState s, .scanEndObject)   -- '}'
        else Scanner.error s
      | .parseArrayValue =>
        if c = 44 then ({ s with step := .stateBeginValue }, .scanArrayValue)   -- ','
        else if c = 93 then (popParseState s, .scanEndArray)   -- ']'
        else Scanner.error s

/-- The step function `stateBeginValue`. -/
def stateBeginValue (s : Scanner) (c : Nat) : Scanner × Op :=
  if isSpace c then (s, .scanSkipSpace)
  else if c = 123 then   -- '{'
    pushParseState { s with step := .stateBeginStringOrEmpty } .parseObjectKey .scanBeginObject
  else if c = 91 then   -- '['
    pushParseState { s with step := .stateBeginValueOrEmpty } .parseArrayValue .scanBeginArray
  else if c = 34 then ({ s with step := .stateInString }, .scanBeginLiteral)   -- '"'
  else if c = 45 then ({ s with step := .stateNeg }, .scanBeginLiteral)   -- '-'
  else if c = 48 then ({ s with step := .state0 }, .scanBeginLiteral)   -- '0'
  else if c = 116 then ({ s with step := .stateT }, .scanBeginLiteral)   -- 't'
  else if c = 102 then ({ s with step := .stateF }, .scanBeginLiteral)   -- 'f'
  else if c = 110 then ({ s with step := .stateN }, .scanBeginLiteral)   -- 'n'
  else if 49 ≤ c ∧ c ≤ 57 then ({ s with step := .state1 }, .scanBeginLiteral)   -- '1'..'9'
  else Scanner.error s

/-- The step function `stateBeginValueOrEmpty`. -/
def stateBeginValueOrEmpty (s : Scanner) (c : Nat) : Scanner × Op :=
  if isSpace c then (s, .scanSkipSpace)
  else if c = 93 then stateEndValue s c   -- ']'
  else stateBeginValue s c

/-- The step function `stateBeginString`. -/
def stateBeginString (s : Scanner) (c : Nat) : Scanner × Op :=
  if isSpace c then (s, .scanSkipSpace)
  else if c = 34 then ({ s with step := .stateInString }, .scanBeginLiteral)   -- '"'
  else Scanner.error s

/-- The step function `stateBeginStringOrEmpty`; on `}` the innermost
parse state becomes `parseObjectValue`. -/
def stateBeginStringOrEmpty (s : Scanner) (c : Nat) : Scanner × Op :=
  if isSpace c then (s, .scanSkipSpace)
  else if c = 125 then   -- '}'
    stateEndValue { s with parseState := .parseObjectValue :: s.parseState.tail } c
  else stateBeginString s c

/-- The step function `stateInString`. -/
def stateInString (s : Scanner) (c : Nat) : Scanner × Op :=
  if c = 34 then ({ s with step := .stateEndValue }, .scanContinue)   -- '"'
  else if c = 92 then ({ s with step := .stateInStringEsc }, .scanContinue)   -- backslash
  else if c < 32 then Scanner.error s
  else (s, .scanContinue)

/-- The step function `stateInStringEsc`. -/
def stateInStringEsc (s : Scanner) (c : Nat) : Scanner × Op :=
  if c = 98 ∨ c = 102 ∨ c = 110 ∨ c = 114 ∨ c = 116 ∨ c = 92 ∨ c = 47 ∨ c = 34 then
    ({ s with step := .stateInString }, .scanContinue)   -- b f n r t backslash / "
  else if c = 117 then ({ s with step := .stateInStringEscU }, .scanContinue)   -- 'u'
  else Scanner.error s

/-- The step functions `stateInStringEscU`, `...U1`, `...U12`, `...U123`:
one hexadecimal digit each, `next` being the step function that follows. -/
def stateInStringEscHex (next : Step) (s : Scanner) (c : Nat) : Scanner × Op :=
  if isHex c then ({ s with step := next }, .scanContinue) else Scanner.error s

/-- The step function `stateNeg`. -/
def stateNeg (s : Scanner) (c : Nat) : Scanner × Op :=
  if c = 48 then ({ s with step := .state0 }, .scanContinue)
  else if 49 ≤ c ∧ c ≤ 57 then ({ s with step := .state1 }, .scanContinue)
  else Scanner.error s

/-- The step function `state0`. -/
def state0 (s : Scanner) (c : Nat) : Scanner × Op :=
  if c = 46 then ({ s with step := .stateDot }, .scanContinue)   -- '.'
  else if c = 101 ∨ c = 69 then ({ s with step := .stateE }, .scanContinue)   -- 'e', 'E'
  else stateEndValue s c

/-- The step function `state1`. -/
def state1 (s : Scanner) (c : Nat) : Scanner × Op :=
  if 48 ≤ c ∧ c ≤ 57 then ({ s with step := .state1 }, .scanContinue)
  else state0 s c

/-- The step function `stateDot`. -/
def stateDot (s : Scanner) (c : Nat) : Scanner × Op :=
  if 48 ≤ c ∧ c ≤ 57 then ({ s with step := .stateDot0 }, .scanContinue)
  else Scanner.error s

/-- The step function `stateDot0`. -/
def stateDot0 (s : Scanner) (c : Nat) : Scanner × Op :=
  if 48 ≤ c ∧ c ≤ 57 then (s, .scanContinue)
  else if c = 101 ∨ c = 69 then ({ s with step := .stateE }, .scanContinue)
  else stateEndValue s c

/-- The step function `stateESign`. -/
def stateESign (s : Scanner) (c : Nat) : Scanner × Op :=
  if 48 ≤ c ∧ c ≤ 57 then ({ s with step := .stateE0 }, .scanContinue)
  else Scanner.error s

/-- The step function `stateE`. -/
def stateE (s : Scanner) (c : Nat) : Scanner × Op :=
  if c = 43 ∨ c = 45 then ({ s with step := .stateESign }, .scanContinue)   -- '+', '-'
  else stateESign s c

/-- The step function `stateE0`. -/
def stateE0 (s : Scanner) (c : Nat) : Scanner × Op :=
  if 48 ≤ c ∧ c ≤ 57 then (s, .scanContinue)
  else stateEndValue s c

/-- The step functions inside `true`, `false` and `null` (`stateT`,
`stateTr`, ...): the byte `expected` leads to the step function `next`. -/
def stateWord (expected : Nat) (next : Step) (s : Scanner) (c : Nat) : Scanner × Op :=
  if c = expected then ({ s with step := next }, .scanContinue) else Scanner.error s

/-- A call `s.step(s, c)`: the current step function applied to `c`. -/
def Scanner.next (s : Scanner) (c : Nat) : Scanner × Op :=
  match s.step with
  | .stateBeginValueOrEmpty => stateBeginValueOrEmpty s c
  | .stateBeginValue => stateBeginValue s c
  | .stateBeginStringOrEmpty => stateBeginStringOrEmpty s c
  | .stateBeginString => stateBeginString s c
  | .stateEndValue => stateEndValue s c
  | .stateEndTop => stateEndTop s c
  | .stateInString => stateInString s c
  | .stateInStringEsc => stateInStringEsc s c
  | .stateInStringEscU => stateInStringEscHex .stateInStringEscU1 s c
  | .stateInStringEscU1 => stateInStringEscHex .stateInStringEscU12 s c
  | .stateInStringEscU12 => stateInStringEscHex .stateInStringEscU123 s c
  | .stateInStringEscU123 => stateInStringEscHex .stateInString s c
  | .stateNeg => stateNeg s c
  | .state1 => state1 s c
  | .state0 => state0 s c
  | .stateDot => stateDot s c
  | .stateDot0 => stateDot0 s c
  | .stateE => stateE s c
  | .stateESign => stateESign s c
  | .stateE0 => stateE0 s c
  | .stateT => stateWord 114 .stateTr s c   -- 'r'
  | .stateTr => stateWord 117 .stateTru s c   -- 'u'
  | .stateTru => stateWord 101 .stateEndValue s c   -- 'e'
  | .stateF => stateWord 97 .stateFa s c   -- 'a'
  | .stateFa => stateWord 108 .stateFal s c   -- 'l'
  | .stateFal => stateWord 115 .stateFals s c   -- 's'
  | .stateFals => stateWord 101 .stateEndValue s c   -- 'e'
  | .stateN => stateWord 117 .stateNu s c   -- 'u'
  | .stateNu => stateWord 108 .stateNul s c   -- 'l'
  | .stateNul => stateWord 108 .stateEndValue s c   -- 'l'
  | .stateError => (s, .scanError)

/-- The method `s.eof`: whether the input may end here. -/
def Scanner.eof (s : Scanner) : Op :=
  if s.err then .scanError
  else if s.endTop then .scanEnd
  else if (s.next 32).1.endTop then .scanEnd
  else .scanError

/-- The loop of `checkValid`: feed the bytes to the scanner, giving up at
the first step that returns `scanError`. -/
def scanBytes : Scanner → List Nat → Option Scanner
  | s, [] => some s
  | s, c :: cs =>
    if (s.next c).2 = .scanError then none else scanBytes (s.next c).1 cs

/-- Whether `checkValid(data, scan)` returns no error. -/
def checkValid (data : List Nat) : Bool :=
  match scanBytes Scanner.reset data with
  | none => false
  | some s => decide (s.eof ≠ .scanError)

/-! ## package encoding/json: the decoder (decode.go) -/

/-- Whether `c` is a byte `rescanLiteral` keeps inside a number literal:
a digit or one of `. e E + -`. -/
def isNumberByte (c : Nat) : Bool :=
  isDigit c || decide (c = 46 ∨ c = 101 ∨ c = 69 ∨ c = 43 ∨ c = 45)

/-- Where the decoder is in the text while it walks over it: between
literals, inside a number literal (with the bytes of the literal read so
far), inside a string literal, or right after a backslash in one. -/
inductive Lexing
  | outside
  | inNumber (lit : List Nat)
  | inString
  | inStringEsc
  deriving DecidableEq, Repr

/-- Whether decoding validated data into an `interface{}` saves no error.
The decoder walks over the text once; `rescanLiteral` delimits each literal
(a string ends at the first quote not preceded by a backslash, a number is
the longest run of number bytes) and `literalInterface` hands each literal
that starts with `-` or a digit to `convertNumber`, whose `strconv.ParseFloat`
range error is the only error this path can save. -/
def numbersConvert : Lexing → List Nat → Bool
  | .outside, [] => true
  | .outside, c :: cs =>
    if c = 34 then numbersConvert .inString cs   -- '"'
    else if c = 45 ∨ isDigit c = true then numbersConvert (.inNumber [c]) cs   -- '-'
    else numbersConvert .outside cs
  | .inNumber lit, [] => !parseFloatErrRange lit
  | .inNumber lit, c :: cs =>
    if isNumberByte c = true then numbersConvert (.inNumber (lit ++ [c])) cs
    else if c = 34 then !parseFloatErrRange lit && numbersConvert .inString cs
    else !parseFloatErrRange lit && numbersConvert .outside cs
  | .inString, [] => true
  | .inString, c :: cs =>
    if c = 92 then numbersConvert .inStringEsc cs   -- backslash
    else if c = 34 then numbersConvert .outside cs   -- '"'
    else numbersConvert .inString cs
  | .inStringEsc, [] => true
  | .inStringEsc, _ :: cs => numbersConvert .inString cs

/-- Whether `json.Unmarshal(data, &v)` returns `nil` for `var v interface{}`:
the text passes `checkValid` and no number in it is out of range. -/
def unmarshalInterface (data : List Nat) : Bool :=
  checkValid data && numbersConvert .outside data

/-- Whether `json.Unmarshal(data, &v)` returns `nil` for `var v string`: the
text passes `checkValid` and its top-level value, found by skipping white
space, is a string, which is stored, or `null`, which is ignored for a
string target; an object, an array, a boolean or a number saves an
`UnmarshalTypeError`. -/
def unmarshalString (data : List Nat) : Bool :=
  checkValid data &&
    (match data.find? (fun c => !isSpace c) with
     | some c => decide (c = 34 ∨ c = 110)   -- '"', 'n'
     | none => false)

/-! ## package time -/

/-- A value of type `int64` from its mathematical value. -/
def wrapInt64 (x : Int) : Int := (x + 2 ^ 63) % 2 ^ 64 - 2 ^ 63

/-- The constant `time.Second`, in nanoseconds. -/
def Second : Int := 1000000000

/-! ## package log and the world the program runs in -/

/-- Where a logger writes: standard output, standard error, a file opened
for appending, or `ioutil.Discard`. -/
inductive Writer
  | stdout
  | stderr
  | file (name : GoString)
  | discard
  deriving DecidableEq, Repr

/-- A logger made by `log.New(out, pfx, flags)`; `out` lists the writers the
line goes to (one, or the two of an `io.MultiWriter`). The flags, which add
date, time and source position to each line, are left out. -/
structure Logger where
  out : List Writer
  pfx : GoString
  deriving DecidableEq, Repr

/-- What the program does to the outside world. -/
inductive Event
  | println (l : Logger) (msg : GoString)
  | fmtPrintln (msg : GoString)
  | readStdin (line : GoString)
  | get (url : GoString) (timeout : Int)
  deriving DecidableEq, Repr

/-- The result of one HTTP GET: a body that was read in full, an error from
`client.Get`, or an error from `ioutil.ReadAll`. -/
inductive Response
  | body (b : GoString)
  | getFailed
  | readFailed
  deriving DecidableEq, Repr

/-- What the program depends on and does not contain: the Unicode case
tables, whether a log file can be opened, and what the server answers to the
`n`-th request (counted from 0) for a URL. -/
structure Env where
  unicodeLower : GoString → GoString
  openFails : GoString → Bool
  server : Nat → GoString → Response

/-- The state of the outside world: the events so far, oldest first, and
the unread part of standard input. -/
structure World where
  trace : List Event
  stdin : GoString
  deriving DecidableEq, Repr

/-- The package-level loggers. -/
structure Loggers where
  Trace : Logger
  Info : Logger
  Warning : Logger
  Error : Logger
  deriving DecidableEq, Repr

/-- The call `l.Println(msg)`. -/
def Logger.Println (l : Logger) (msg : GoString) (w : World) : World :=
  { w with trace := w.trace ++ [Event.println l msg] }

/-- The logger behind `log.Fatalln`: it writes to standard error. -/
def stdLogger : Logger := { out := [.stderr], pfx := [] }

/-- The requests among some events: URL and timeout of each, in order. -/
def requests : List Event → List (GoString × Int)
  | [] => []
  | .get url timeout :: es => (url, timeout) :: requests es
  | _ :: es => requests es

/-- The lines some events wrote to the writer `dest`, in order: prefix and
message of each `Println` of a logger, once for every time `dest` is among
the writers of the logger (twice for the two writers of an `io.MultiWriter`
that are both `dest`), and for standard output also the lines of
`fmt.Println`, which have no prefix. -/
def written (dest : Writer) : List Event → List (GoString × GoString)
  | [] => []
  | .println l msg :: es => List.replicate (l.out.count dest) (l.pfx, msg) ++ written dest es
  | .fmtPrintln msg :: es =>
    if dest = .stdout then ([], msg) :: written dest es else written dest es
  | _ :: es => written dest es

/-! ## regressionapitest.go -/

/-- The constant `requestTimeout`. -/
def requestTimeout : Int := 300

/-- The command-line flags after `flag.Parse`. -/
structure Flags where
  serveraddress : GoString
  apicalls : GoString
  logfile : GoString
  loglevel : GoString
  deriving DecidableEq, Repr

/-- The function `initLog`: the loggers, or `none` when the log file cannot
be opened and `log.Fatalln` ends the process. Of the message of that call
only the first operand is kept. -/
def initLog (env : Env) (fileName loglevel : GoString) (w : World) : World × Option Loggers :=
  let outputstream : Option Writer :=
    if ToLower env.unicodeLower fileName = ascii "stdout" then some .stdout
    else if env.openFails fileName then none
    else some (.file fileName)
  match outputstream with
  | none => (stdLogger.Println (ascii "Failed to open log file: " ++ fileName) w, none)
  | some out =>
    (w, some
      { Trace :=
          if ToLower env.unicodeLower loglevel = ascii "trace" then
            { out := [out], pfx := ascii "TRACE:   " }
          else { out := [.discard], pfx := ascii "TRACE:   " }
        Info := { out := [out], pfx := ascii "INFO:    " }
        Warning := { out := [out], pfx := ascii "WARNING: " }
        Error := { out := [out, .stdout], pfx := ascii "ERROR:   " } })

/-- The function `isJsonString`. -/
def isJsonString (s : GoString) : Bool := unmarshalString s

/-- The function `isJsonObject`. -/
def isJsonObject (s : GoString) : Bool := unmarshalInterface s

/-- The function `isJson`. -/
def isJson (s : GoString) : Bool := isJsonObject s || isJsonString s

/-- The function `getResponseBody`: the body, or `none` when `Error.Fatalln`
ends the process. -/
def getResponseBody (env : Env) (L : Loggers) (url : GoString) (w : World) :
    World × Option GoString :=
  let timeout := wrapInt64 (requestTimeout * Second)
  let w1 := L.Info.Println (ascii "Requesting following url: " ++ url) w
  let w2 : World := { w1 with trace := w1.trace ++ [Event.get url timeout] }
  match env.server (requests w1.trace).length url with
  | .getFailed => (L.Error.Println (ascii "Error while getting response for: " ++ url) w2, none)
  | .readFailed =>
    (L.Error.Println (ascii "Error while reading response body for: " ++ url) w2, none)
  | .body b => (L.Trace.Println (ascii "Got following response body: \n" ++ b) w2, some b)

/-- The function `getServerUrl`. The reader is local to the function: what
it has buffered beyond the line is lost with it, and standard input is left
at what the reader had not taken. -/
def getServerUrl (serverUrl : GoString) (w : World) : World × GoString :=
  if serverUrl = [] then
    let prompt := ascii "Please enter the web address you want to test (e.g.: 192.168.11.23): "
    let line := (ReadString 10 w.stdin).1
    ({ trace := w.trace ++ [Event.fmtPrintln prompt, Event.readStdin line],
       stdin := w.stdin.drop (bufferedBytes line.length w.stdin.length) },
      TrimSpace line)
  else (w, TrimSpace serverUrl)

/-- The first check in the loop of `main`: the response should not be null. -/
def checkNotNull (L : Loggers) (apiCall respbody : GoString) (w : World) : World :=
  if respbody = ascii "null" then
    L.Error.Println (ascii "API call " ++ apiCall ++ ascii " failed: the response was null") w
  else
    L.Info.Println
      (ascii "API call " ++ apiCall ++ ascii " succeeded: response was not 'null'") w

/-- The second check in the loop of `main`: the response is a valid JSON. -/
def checkIsJson (L : Loggers) (apiCall respbody : GoString) (w : World) : World :=
  if !isJson respbody then
    L.Error.Println
      (ascii "API call " ++ apiCall ++ ascii " failed: the response was not a valid Json") w
  else
    L.Info.Println
      (ascii "API call " ++ apiCall ++ ascii " succeeded: response was a valid JSON") w

/-- The loop of `main` over the API calls: the world afterwards and the
exit status, 1 when `getResponseBody` ended the process and 0 when the loop
ran to its end. -/
def testApiCalls (env : Env) (L : Loggers) (serverUrl : GoString) :
    List GoString → World → World × Nat
  | [], w => (w, 0)
  | apiCall :: rest, w =>
    match getResponseBody env L (serverUrl ++ ascii "/" ++ apiCall) w with
    | (w1, none) => (w1, 1)
    | (w1, some respbody) =>
      let w2 := L.Info.Println (ascii "Checking API call: " ++ apiCall) w1
      let w3 := checkNotNull L apiCall respbody w2
      let w4 := checkIsJson L apiCall respbody w3
      testApiCalls env L serverUrl rest w4

/-- The function `main`, from the parsed flags and the content of standard
input: the world afterwards and the exit status. -/
def main (env : Env) (flags : Flags) (stdin : GoString) : World × Nat :=
  match initLog env flags.logfile flags.loglevel { trace := [], stdin := stdin } with
  | (w0, none) => (w0, 1)
  | (w0, some L) =>
    let addr := getServerUrl flags.serveraddress w0
    let serverUrl := ascii "http://" ++ addr.2
    let w1 := L.Info.Println (ascii "Creating requests for " ++ serverUrl) addr.1
    let apiCalls := Split 44 flags.apicalls   -- ','
    testApiCalls env L serverUrl apiCalls w1

/-- The events of one round of the loop of `main` whose request succeeds
with body `b`: the request and its two log lines, the line that announces
the checks, and one line for each of the two checks. -/
def roundEvents (L : Loggers) (serverUrl apiCall b : GoString) : List Event :=
  [Event.println L.Info
     (ascii "Requesting following url: " ++ (serverUrl ++ ascii "/" ++ apiCall)),
   Event.get (serverUrl ++ ascii "/" ++ apiCall) 300000000000,
   Event.println L.Trace (ascii "Got following response body: \n" ++ b),
   Event.println L.Info (ascii "Checking API call: " ++ apiCall),
   Event.println (if b = ascii "null" then L.Error else L.Info)
     (ascii "API call " ++ apiCall ++
       (if b = ascii "null" then ascii " failed: the response was null"
        else ascii " succeeded: response was not 'null'")),
   Event.println (if isJson b = true then L.Info else L.Error)
     (ascii "API call " ++ apiCall ++
       (if isJson b = true then ascii " succeeded: response was a valid JSON"
        else ascii " failed: the response was not a valid Json"))]

/-- The output stream `initLog` chooses for a log file name it can open:
standard output for the name `stdout` in any letter case, the file otherwise. -/
def logStream (env : Env) (fileName : GoString) : Writer :=
  if ToLower env.unicodeLower fileName = ascii "stdout" then .stdout else .file fileName

/-- The server address `main` works with: the flag, or the line read from
standard input when the flag is empty. -/
def serverAddress (flags : Flags) (stdin : GoString) : GoString :=
  if flags.serveraddress = [] then (ReadString 10 stdin).1 else flags.serveraddress

/-- An environment for examples: the log file opens and every request is
answered with `r`. -/
def constantEnv (r : Response) : Env :=
  { unicodeLower := fun s => s, openFails := fun _ => false, server := fun _ _ => r }

/-- An environment for examples: the log file opens, the requests before
the `k`-th are answered with `null` and the others fail. -/
def failingEnv (k : Nat) : Env :=
  { unicodeLower := fun s => s, openFails := fun _ => false,
    server := fun n _ => if n < k then .body (ascii "null") else .getFailed }

/-- Flags for examples: the defaults of the program and a server address. -/
def exampleFlags : Flags :=
  { serveraddress := ascii " 192.168.11.23 "
    apicalls := ascii "api/v1/wikifolios,api/v1/trades,api/v1/import/wikifolios"
    logfile := ascii "regressionapitest.log"
    loglevel := ascii "Info" }

/-- Loggers for examples: those `initLog` makes for the log file `stdout`
and the log level `Info`. -/
def exampleLoggers : Loggers :=
  { Trace := { out := [.discard], pfx := ascii "TRACE:   " }
    Info := { out := [.stdout], pfx := ascii "INFO:    " }
    Warning := { out := [.stdout], pfx := ascii "WARNING: " }
    Error := { out := [.stdout, .stdout], pfx := ascii "ERROR:   " } }

/-- Flags for examples: one API call `a` on the server `h`, logged to
standard output at the log level `TRACE`. -/
def traceFlags : Flags :=
  { serveraddress := ascii "h"
    apicalls := ascii "a"
    logfile := ascii "stdout"
    loglevel := ascii "TRACE" }

/-- Loggers for examples: those `initLog` makes for the log file `stdout`
and the log level `TRACE`. -/
def traceLoggers : Loggers :=
  { Trace := { out := [.stdout], pfx := ascii "TRACE:   " }
    Info := { out := [.stdout], pfx := ascii "INFO:    " }
    Warning := { out := [.stdout], pfx := ascii "WARNING: " }
    Error := { out := [.stdout, .stdout], pfx := ascii "ERROR:   " } }

/-! ## The words of the specification

What the claims about the log level and about the server address say in
their own terms, written without the functions of the program: a comparison
that disregards the case of letters, and a string without its surrounding
white space. -/

/-- Two bytes are the same character when the case of letters is
disregarded: they are equal, or one is a capital letter `A..Z` and the other
the small letter of the same name. -/
def sameLetter (x y : Nat) : Bool :=
  decide (x = y) || (decide (65 ≤ x ∧ x ≤ 90) && decide (y = x + 32)) ||
    (decide (65 ≤ y ∧ y ≤ 90) && decide (x = y + 32))

/-- Whether `a`, compared case-insensitively, equals `b`: the strings have
the same length and, place by place, the same letters. -/
def equalsIgnoringCase : GoString → GoString → Bool
  | [], [] => true
  | x :: xs, y :: ys => sameLetter x y && equalsIgnoringCase xs ys
  | _, _ => false

/-- White space only: a sequence of white-space characters, each in its
UTF-8 encoding. -/
def IsWhiteSpace (s : GoString) : Prop :=
  ∃ es : List GoString, (∀ e ∈ es, e ∈ spaceEncodings) ∧ s = es.flatten

/-- The string `t` is `s` with leading and trailing white space removed:
`s` is `t` between two runs of white space, and `t` neither starts nor ends
with a white-space character. -/
def IsTrimOf (t s : GoString) : Prop :=
  (∃ l r, IsWhiteSpace l ∧ IsWhiteSpace r ∧ s = l ++ t ++ r) ∧
    ∀ e ∈ spaceEncodings, ¬ e <+: t ∧ ¬ e <:+ t

/-- Where the decoder's walk is when the scanner, with an empty parse-state
stack, is inside or behind a top-level string or `null`: the pairing of the
two machines used to compare them. -/
def lexingOf : Step → Option Lexing
  | .stateInString => some .inString
  | .stateInStringEsc => some .inStringEsc
  | .stateInStringEscU => some .inString
  | .stateInStringEscU1 => some .inString
  | .stateInStringEscU12 => some .inString
  | .stateInStringEscU123 => some .inString
  | .stateEndValue => some .outside
  | .stateEndTop => some .outside
  | .stateN => some .outside
  | .stateNu => some .outside
  | .stateNul => some .outside
  | _ => none

/-! ## The JSON grammar

The grammar of json.org (ECMA-404), on bytes: the reading of "a
syntactically valid JSON text" the validation is compared with. A character
of a string is any byte from 0x20 on other than the quote and the backslash,
or an escape; the well-formedness of the UTF-8 the bytes spell is not part
of the grammar. -/

/-- The production `ws`: any number of spaces, line feeds, carriage returns
and tabs. -/
def Ws (w : List Nat) : Prop := ∀ c ∈ w, isSpace c = true

/-- Any number of digits. -/
def AllDigits (ds : List Nat) : Prop := ∀ c ∈ ds, isDigit c = true

/-- The production `digits`: one digit or more. -/
def Digits (ds : List Nat) : Prop := ds ≠ [] ∧ AllDigits ds

/-- The production `onenine`: a digit from 1 to 9. -/
def OneNine (d : Nat) : Prop := 49 ≤ d ∧ d ≤ 57

/-- The production `integer`. -/
inductive JInteger : List Nat → Prop
  | digit (d : Nat) : isDigit d = true → JInteger [d]
  | digits (d : Nat) (ds : List Nat) : OneNine d → Digits ds → JInteger (d :: ds)
  | negDigit (d : Nat) : isDigit d = true → JInteger [45, d]
  | negDigits (d : Nat) (ds : List Nat) : OneNine d → Digits ds → JInteger (45 :: d :: ds)

/-- The production `fraction`. -/
inductive JFraction : List Nat → Prop
  | none : JFraction []
  | some (ds : List Nat) : Digits ds → JFraction (46 :: ds)

/-- The production `sign`. -/
def JSign (sign : List Nat) : Prop := sign = [] ∨ sign = [43] ∨ sign = [45]

/-- The production `exponent`. -/
inductive JExponent : List Nat → Prop
  | none : JExponent []
  | some (e : Nat) (sign ds : List Nat) :
    e = 69 ∨ e = 101 → JSign sign → Digits ds → JExponent (e :: (sign ++ ds))

/-- The production `number`. -/
inductive JNumber : List Nat → Prop
  | mk (i f e : List Nat) : JInteger i → JFraction f → JExponent e → JNumber (i ++ f ++ e)

/-- The production `characters`: plain bytes, the two-byte escapes and the
`\u` escapes with four hexadecimal digits. -/
inductive Chars : List Nat → Prop
  | nil : Chars []
  | plain (c : Nat) (cs : List Nat) : 32 ≤ c → c ≠ 34 → c ≠ 92 → Chars cs → Chars (c :: cs)
  | escape (e : Nat) (cs : List Nat) :
    e = 34 ∨ e = 92 ∨ e = 47 ∨ e = 98 ∨ e = 102 ∨ e = 110 ∨ e = 114 ∨ e = 116 →
    Chars cs → Chars (92 :: e :: cs)
  | unicode (h1 h2 h3 h4 : Nat) (cs : List Nat) :
    isHex h1 = true → isHex h2 = true → isHex h3 = true → isHex h4 = true →
    Chars cs → Chars (92 :: 117 :: h1 :: h2 :: h3 :: h4 :: cs)

/-- The production `string`. -/
inductive JString : List Nat → Prop
  | mk (cs : List Nat) : Chars cs → JString (34 :: (cs ++ [34]))

/-- The productions that nest. -/
inductive Sym
  | value | element | elements | member | members
  deriving DecidableEq, Repr

/-- The texts of the productions `value`, `element`, `elements`, `member`
and `members` in which arrays and objects are nested at most `depth` deep
and every number literal satisfies `numOk`. -/
inductive Derives (numOk : List Nat → Prop) : Sym → Nat → List Nat → Prop
  | null (d : Nat) : Derives numOk .value d [110, 117, 108, 108]
  | true (d : Nat) : Derives numOk .value d [116, 114, 117, 101]
  | false (d : Nat) : Derives numOk .value d [102, 97, 108, 115, 101]
  | number (d : Nat) (n : List Nat) : JNumber n → numOk n → Derives numOk .value d n
  | string (d : Nat) (s : List Nat) : JString s → Derives numOk .value d s
  | emptyArray (d : Nat) (w : List Nat) : Ws w → Derives numOk .value (d + 1) (91 :: (w ++ [93]))
  | array (d : Nat) (es : List Nat) :
    Derives numOk .elements d es → Derives numOk .value (d + 1) (91 :: (es ++ [93]))
  | emptyObject (d : Nat) (w : List Nat) :
    Ws w → Derives numOk .value (d + 1) (123 :: (w ++ [125]))
  | object (d : Nat) (ms : List Nat) :
    Derives numOk .members d ms → Derives numOk .value (d + 1) (123 :: (ms ++ [125]))
  | element (d : Nat) (w1 v w2 : List Nat) :
    Ws w1 → Derives numOk .value d v → Ws w2 → Derives numOk .element d (w1 ++ v ++ w2)
  | elementsOne (d : Nat) (e : List Nat) :
    Derives numOk .element d e → Derives numOk .elements d e
  | elementsMore (d : Nat) (e es : List Nat) :
    Derives numOk .element d e → Derives numOk .elements d es →
    Derives numOk .elements d (e ++ 44 :: es)
  | member (d : Nat) (w1 s w2 e : List Nat) :
    Ws w1 → JString s → Ws w2 → Derives numOk .element d e →
    Derives numOk .member d (w1 ++ s ++ w2 ++ 58 :: e)
  | membersOne (d : Nat) (m : List Nat) :
    Derives numOk .member d m → Derives numOk .members d m
  | membersMore (d : Nat) (m ms : List Nat) :
    Derives numOk .member d m → Derives numOk .members d ms →
    Derives numOk .members d (m ++ 44 :: ms)

/-- A JSON text (the production `json`): a value of any kind with optional
white space around it, nested at most `depth` deep, whose number literals
satisfy `numOk`. -/
def JsonText (numOk : List Nat → Prop) (depth : Nat) (s : List Nat) : Prop :=
  Derives numOk .element depth s

/-- A syntactically valid JSON text: no limit on the nesting and no
condition on the numbers. -/
def ValidJson (s : List Nat) : Prop := ∃ depth, JsonText (fun _ => True) depth s

/-- What may follow a value: the end of the text or a byte that does not
continue a number literal. -/
def Follow : List Nat → Prop
  | [] => True
  | c :: _ => isNumberByte c = false

/-! ## The scanner between the productions of the grammar -/

/-- A scanner without error, before the end of the top-level value. -/
def scannerAt (step : Step) (stack : List ParseState) : Scanner :=
  { step := step, endTop := false, parseState := stack, err := false }

/-- The scanner is about to read a value, with the parse-state stack `stack`. -/
def Begins (stack : List ParseState) (sc : Scanner) : Prop :=
  sc = scannerAt .stateBeginValue stack ∨ sc = scannerAt .stateBeginValueOrEmpty stack

/-- The scanner is about to read the key of a member of an object. -/
def BeginsKey (stack : List ParseState) (sc : Scanner) : Prop :=
  sc = scannerAt .stateBeginString (.parseObjectKey :: stack) ∨
    sc = scannerAt .stateBeginStringOrEmpty (.parseObjectKey :: stack)

/-- The scanner has read a value, with the parse-state stack `stack`: it
has no error and treats every byte that cannot continue a number as
`stateEndValue` does. -/
def Ended (stack : List ParseState) (sc : Scanner) : Prop :=
  sc.err = false ∧
    ∀ c, isNumberByte c = false → sc.next c = (scannerAt .stateEndValue stack).next c

/-- The step functions in which a number literal may end. -/
def NumEnd (q : Step) : Prop :=
  q = .state0 ∨ q = .state1 ∨ q = .stateDot0 ∨ q = .stateE0

/-- What the scanner does with a text of a production: started before a
value (or before a key, for the members of an object) with room left on the
parse-state stack for the nesting of the text, it reads the text without
error and ends behind a value. -/
def Complete (sym : Sym) (d : Nat) (x : List Nat) : Prop :=
  match sym with
  | .value => ∀ sc stack, Begins stack sc → stack.length + d ≤ maxNestingDepth →
      ∃ sc2, scanBytes sc x = some sc2 ∧ Ended stack sc2
  | .element => ∀ sc stack, Begins stack sc → stack.length + d ≤ maxNestingDepth →
      ∃ sc2, scanBytes sc x = some sc2 ∧ Ended stack sc2
  | .elements => ∀ sc stack, Begins (.parseArrayValue :: stack) sc →
      stack.length + 1 + d ≤ maxNestingDepth →
      ∃ sc2, scanBytes sc x = some sc2 ∧ Ended (.parseArrayValue :: stack) sc2
  | .member => ∀ sc stack, BeginsKey stack sc → stack.length + 1 + d ≤ maxNestingDepth →
      ∃ sc2, scanBytes sc x = some sc2 ∧ Ended (.parseObjectValue :: stack) sc2
  | .members => ∀ sc stack, BeginsKey stack sc → stack.length + 1 + d ≤ maxNestingDepth →
      ∃ sc2, scanBytes sc x = some sc2 ∧ Ended (.parseObjectValue :: stack) sc2

/-! ## The texts the scanner accepts from each of its states

What the grammar says about the rest of the input when the scanner, in the
middle of a text, goes on to accept it: the other half of the comparison of
`checkValid` with the grammar. -/

/-- The nesting still allowed inside the innermost open array or object. -/
def room (stack : List ParseState) : Nat := maxNestingDepth - stack.length

/-- What follows a value inside an array, up to the closing bracket: white
space, then the bracket or a comma and more elements. -/
def ArrayTail (d : Nat) (t : List Nat) : Prop :=
  ∃ w, Ws w ∧
    (t = w ++ [93] ∨
      ∃ es, Derives (fun _ => True) .elements d es ∧ t = w ++ 44 :: (es ++ [93]))

/-- What follows the value of a member inside an object, up to the closing
brace: white space, then the brace or a comma and more members. -/
def ObjectTail (d : Nat) (t : List Nat) : Prop :=
  ∃ w, Ws w ∧
    (t = w ++ [125] ∨
      ∃ ms, Derives (fun _ => True) .members d ms ∧ t = w ++ 44 :: (ms ++ [125]))

/-- What follows a value, by the parse-state stack: the rest of every open
array and object, innermost first, and white space behind the top-level
value. -/
def Cont : List ParseState → List Nat → Prop
  | [], w => Ws w
  | .parseArrayValue :: stack, w =>
    ∃ t r, ArrayTail (room (.parseArrayValue :: stack)) t ∧ w = t ++ r ∧ Cont stack r
  | .parseObjectValue :: stack, w =>
    ∃ t r, ObjectTail (room (.parseObjectValue :: stack)) t ∧ w = t ++ r ∧ Cont stack r
  | .parseObjectKey :: stack, w =>
    ∃ w2 w3 v t r, Ws w2 ∧ Ws w3 ∧
      Derives (fun _ => True) .value (room (.parseObjectKey :: stack)) v ∧
      ObjectTail (room (.parseObjectKey :: stack)) t ∧
      w = w2 ++ 58 :: (w3 ++ v ++ t ++ r) ∧ Cont stack r

/-- A value, after optional white space, and what follows it. -/
def ValueThen (stack : List ParseState) (w : List Nat) : Prop :=
  ∃ w1 v r, Ws w1 ∧ Derives (fun _ => True) .value (room stack) v ∧
    w = w1 ++ v ++ r ∧ Cont stack r

/-- The key of a member, after optional white space, and what follows it. -/
def KeyThen (stack : List ParseState) (w : List Nat) : Prop :=
  ∃ w1 s r, Ws w1 ∧ JString s ∧ w = w1 ++ s ++ r ∧ Cont stack r

/-- What completes the literal the scanner is in the middle of. -/
def Rest (q : Step) (t : List Nat) : Prop :=
  match q with
  | .stateInString => ∃ cs, Chars cs ∧ t = cs ++ [34]
  | .stateInStringEsc => ∃ cs, Chars (92 :: cs) ∧ t = cs ++ [34]
  | .stateInStringEscU => ∃ cs, Chars (92 :: 117 :: cs) ∧ t = cs ++ [34]
  | .stateInStringEscU1 =>
    ∃ cs, (∀ h1, isHex h1 = true → Chars (92 :: 117 :: h1 :: cs)) ∧ t = cs ++ [34]
  | .stateInStringEscU12 =>
    ∃ cs, (∀ h1 h2, isHex h1 = true → isHex h2 = true →
      Chars (92 :: 117 :: h1 :: h2 :: cs)) ∧ t = cs ++ [34]
  | .stateInStringEscU123 =>
    ∃ cs, (∀ h1 h2 h3, isHex h1 = true → isHex h2 = true → isHex h3 = true →
      Chars (92 :: 117 :: h1 :: h2 :: h3 :: cs)) ∧ t = cs ++ [34]
  | .stateNeg => JNumber (45 :: t)
  | .state0 => ∃ f e, JFraction f ∧ JExponent e ∧ t = f ++ e
  | .state1 => ∃ ds f e, AllDigits ds ∧ JFraction f ∧ JExponent e ∧ t = ds ++ f ++ e
  | .stateDot => ∃ ds e, Digits ds ∧ JExponent e ∧ t = ds ++ e
  | .stateDot0 => ∃ ds e, AllDigits ds ∧ JExponent e ∧ t = ds ++ e
  | .stateE => ∃ sign ds, JSign sign ∧ Digits ds ∧ t = sign ++ ds
  | .stateESign => Digits t
  | .stateE0 => AllDigits t
  | .stateT => t = [114, 117, 101]
  | .stateTr => t = [117, 101]
  | .stateTru => t = [101]
  | .stateF => t = [97, 108, 115, 101]
  | .stateFa => t = [108, 115, 101]
  | .stateFal => t = [115, 101]
  | .stateFals => t = [101]
  | .stateN => t = [117, 108, 108]
  | .stateNu => t = [108, 108]
  | .stateNul => t = [108]
  | _ => False

/-- The input the scanner goes on to accept from a state, in the terms of
the grammar. -/
def Lang (q : Step) (stack : List ParseState) (w : List Nat) : Prop :=
  match q with
  | .stateBeginValue => ValueThen stack w
  | .stateBeginValueOrEmpty =>
    (∃ w1 r, Ws w1 ∧ w = w1 ++ 93 :: r ∧ Cont stack.tail r) ∨ ValueThen stack w
  | .stateBeginString => KeyThen stack w
  | .stateBeginStringOrEmpty =>
    (∃ w1 r, Ws w1 ∧ w = w1 ++ 125 :: r ∧ Cont stack.tail r) ∨ KeyThen stack w
  | .stateEndValue => Cont stack w
  | .stateEndTop => Ws w
  | .stateError => False
  | q => ∃ t r, Rest q t ∧ w = t ++ r ∧ Cont stack r

/-- The states of the scanner the comparison is about: the stack is within
its limit, an error state has its error recorded, the top-level value has
ended only in `stateEndTop`, and the states inside an array or an object
have the matching entry on top of the stack. -/
def Good (sc : Scanner) : Prop :=
  sc.parseState.length ≤ maxNestingDepth ∧
    (sc.step = .stateError → sc.err = true) ∧
    (sc.endTop = true → sc.step = .stateEndTop ∨ sc.step = .stateError) ∧
    (sc.step = .stateBeginValueOrEmpty → ∃ st, sc.parseState = .parseArrayValue :: st) ∧
    (sc.step = .stateBeginString ∨ sc.step = .stateBeginStringOrEmpty →
      ∃ st, sc.parseState = .parseObjectKey :: st)

/-! ## Properties: traces and the loop of `main` -/

theorem requests_append (a b : List Event) : requests (a ++ b) = requests a ++ requests b := by
  induction a with
  | nil => rfl
  | cons e es ih => cases e <;> simp [requests, ih]

theorem written_append (dest : Writer) (a b : List Event) :
    written dest (a ++ b) = written dest a ++ written dest b := by
  induction a with
  | nil => rfl
  | cons e es ih =>
    cases e with
    | println l m =>
      simp only [List.cons_append, written, List.append_assoc]
      exact congrArg _ ih
    | fmtPrintln m =>
      simp only [List.cons_append, written]
      split <;> simpa using ih
    | _ => simpa [written] using ih

theorem timeout_eq : wrapInt64 (requestTimeout * Second) = 300000000000 := by
  decide

/-- The result of `getResponseBody` when the server answers with a body. -/
theorem getResponseBody_body (env : Env) (L : Loggers) (url : GoString) (w : World)
    (b : GoString) (h : env.server (requests w.trace).length url = Response.body b) :
    getResponseBody env L url w =
      ({ trace := w.trace ++
          [Event.println L.Info (ascii "Requesting following url: " ++ url),
           Event.get url 300000000000,
           Event.println L.Trace (ascii "Got following response body: \n" ++ b)],
         stdin := w.stdin }, some b) := by
  have hn : requests (w.trace ++ [Event.println L.Info (ascii "Requesting following url: " ++ url)])
      = requests w.trace := by
    simp [requests_append, requests]
  simp only [getResponseBody, Logger.Println, hn, h, timeout_eq, List.append_assoc,
    List.cons_append, List.nil_append]

/-- The result of `getResponseBody` when the request or the reading of its
body fails. -/
theorem getResponseBody_failed (env : Env) (L : Loggers) (url : GoString) (w : World)
    (h : env.server (requests w.trace).length url = Response.getFailed ∨
      env.server (requests w.trace).length url = Response.readFailed) :
    ∃ msg, (msg = ascii "Error while getting response for: " ++ url ∨
        msg = ascii "Error while reading response body for: " ++ url) ∧
      getResponseBody env L url w =
      ({ trace := w.trace ++
          [Event.println L.Info (ascii "Requesting following url: " ++ url),
           Event.get url 300000000000,
           Event.println L.Error msg],
         stdin := w.stdin }, none) := by
  have hn : requests (w.trace ++ [Event.println L.Info (ascii "Requesting following url: " ++ url)])
      = requests w.trace := by
    simp [requests_append, requests]
  rcases h with h | h
  · refine ⟨_, Or.inl rfl, ?_⟩
    simp only [getResponseBody, Logger.Println, hn, h, timeout_eq, List.append_assoc,
      List.cons_append, List.nil_append]
  · refine ⟨_, Or.inr rfl, ?_⟩
    simp only [getResponseBody, Logger.Println, hn, h, timeout_eq, List.append_assoc,
      List.cons_append, List.nil_append]

/-- One round of the loop whose request succeeded: the three lines it logs
after the request, and the loop goes on with the remaining API calls. -/
theorem testApiCalls_round (env : Env) (L : Loggers) (serverUrl apiCall : GoString)
    (rest : List GoString) (w w1 : World) (s : GoString)
    (h : getResponseBody env L (serverUrl ++ ascii "/" ++ apiCall) w = (w1, some s)) :
    testApiCalls env L serverUrl (apiCall :: rest) w =
      testApiCalls env L serverUrl rest
        { trace := w1.trace ++
            [Event.println L.Info (ascii "Checking API call: " ++ apiCall),
             Event.println (if s = ascii "null" then L.Error else L.Info)
               (ascii "API call " ++ apiCall ++
                 (if s = ascii "null" then ascii " failed: the response was null"
                  else ascii " succeeded: response was not 'null'")),
             Event.println (if isJson s = true then L.Info else L.Error)
               (ascii "API call " ++ apiCall ++
                 (if isJson s = true then ascii " succeeded: response was a valid JSON"
                  else ascii " failed: the response was not a valid Json"))],
          stdin := w1.stdin } := by
  rw [testApiCalls, h]
  simp only [checkIsJson, checkNotNull, Logger.Println]
  cases h2 : isJson s <;> by_cases h1 : s = ascii "null"
  · simp only [if_pos h1, Bool.not_false, Bool.not_true, if_true, if_false,
      Bool.false_eq_true, List.append_assoc, List.cons_append, List.nil_append]
  · simp only [if_neg h1, Bool.not_false, Bool.not_true, if_true, if_false,
      Bool.false_eq_true, List.append_assoc, List.cons_append, List.nil_append]
  · simp only [if_pos h1, Bool.not_false, Bool.not_true, if_true, if_false,
      Bool.false_eq_true, List.append_assoc, List.cons_append, List.nil_append]
  · simp only [if_neg h1, Bool.not_false, Bool.not_true, if_true, if_false,
      Bool.false_eq_true, List.append_assoc, List.cons_append, List.nil_append]

/-- A round whose request succeeds with body `b`, from the answer of the
server: the six events of the round, then the remaining API calls. -/
theorem testApiCalls_cons_body (env : Env) (L : Loggers) (serverUrl apiCall : GoString)
    (rest : List GoString) (w : World) (b : GoString)
    (h : env.server (requests w.trace).length (serverUrl ++ ascii "/" ++ apiCall)
      = Response.body b) :
    testApiCalls env L serverUrl (apiCall :: rest) w =
      testApiCalls env L serverUrl rest
        { trace := w.trace ++ roundEvents L serverUrl apiCall b, stdin := w.stdin } := by
  rw [testApiCalls_round env L serverUrl apiCall rest w _ b
    (getResponseBody_body env L _ w b h)]
  simp only [roundEvents, List.append_assoc, List.cons_append, List.nil_append]

theorem requests_roundEvents (L : Loggers) (serverUrl apiCall b : GoString) :
    requests (roundEvents L serverUrl apiCall b) =
      [(serverUrl ++ ascii "/" ++ apiCall, 300000000000)] := by
  simp [roundEvents, requests]

/-- A round whose request fails ends the loop with exit status 1 after the
error line. -/
theorem testApiCalls_cons_failed (env : Env) (L : Loggers) (serverUrl apiCall : GoString)
    (rest : List GoString) (w : World)
    (h : env.server (requests w.trace).length (serverUrl ++ ascii "/" ++ apiCall)
        = Response.getFailed ∨
      env.server (requests w.trace).length (serverUrl ++ ascii "/" ++ apiCall)
        = Response.readFailed) :
    ∃ msg, (msg = ascii "Error while getting response for: " ++
          (serverUrl ++ ascii "/" ++ apiCall) ∨
        msg = ascii "Error while reading response body for: " ++
          (serverUrl ++ ascii "/" ++ apiCall)) ∧
      testApiCalls env L serverUrl (apiCall :: rest) w =
      ({ trace := w.trace ++
          [Event.println L.Info
             (ascii "Requesting following url: " ++ (serverUrl ++ ascii "/" ++ apiCall)),
           Event.get (serverUrl ++ ascii "/" ++ apiCall) 300000000000,
           Event.println L.Error msg],
         stdin := w.stdin }, 1) := by
  obtain ⟨msg, hmsg, hg⟩ := getResponseBody_failed env L _ w h
  exact ⟨msg, hmsg, by rw [testApiCalls, hg]⟩

/-- The server answers with a body, fails the request or fails the read. -/
theorem response_cases (r : Response) :
    (∃ b, r = Response.body b) ∨ (r = Response.getFailed ∨ r = Response.readFailed) := by
  cases r with
  | body b => exact Or.inl ⟨b, rfl⟩
  | getFailed => exact Or.inr (Or.inl rfl)
  | readFailed => exact Or.inr (Or.inr rfl)

/-- The loop only adds events, and every request it adds carries the
timeout of 300 seconds. -/
theorem testApiCalls_grows (env : Env) (L : Loggers) (serverUrl : GoString) :
    ∀ (calls : List GoString) (w : World),
      ∃ t, (testApiCalls env L serverUrl calls w).1.trace = w.trace ++ t ∧
        ∀ r ∈ requests t, r.2 = 300000000000 := by
  intro calls
  induction calls with
  | nil => intro w; exact ⟨[], by simp [testApiCalls], by simp [requests]⟩
  | cons apiCall rest ih =>
    intro w
    rcases response_cases
      (env.server (requests w.trace).length (serverUrl ++ ascii "/" ++ apiCall)) with ⟨b, hb⟩ | hf
    · rw [testApiCalls_cons_body env L serverUrl apiCall rest w b hb]
      obtain ⟨t, ht, hr⟩ := ih
        { trace := w.trace ++ roundEvents L serverUrl apiCall b, stdin := w.stdin }
      refine ⟨roundEvents L serverUrl apiCall b ++ t, by rw [ht, List.append_assoc], ?_⟩
      intro r hmem
      rw [requests_append, requests_roundEvents] at hmem
      rcases List.mem_append.1 hmem with h1 | h1
      · rw [List.mem_singleton.1 h1]
      · exact hr r h1
    · obtain ⟨msg, _, hm⟩ := testApiCalls_cons_failed env L serverUrl apiCall rest w hf
      rw [hm]
      refine ⟨_, rfl, ?_⟩
      intro r hmem
      simp [requests] at hmem
      rw [hmem]

/-- When every request succeeds the loop requests every API call, in order,
and ends with status 0; the three lines of every round are in the trace. -/
theorem testApiCalls_all_succeed (env : Env) (L : Loggers) (serverUrl : GoString)
    (hs : ∀ n url, ∃ b, env.server n url = Response.body b) :
    ∀ (calls : List GoString) (w : World),
      (testApiCalls env L serverUrl calls w).2 = 0 ∧
      requests (testApiCalls env L serverUrl calls w).1.trace =
        requests w.trace ++
          calls.map (fun p => (serverUrl ++ ascii "/" ++ p, (300000000000 : Int))) ∧
      ∀ p ∈ calls, ∃ b, ∀ e ∈ roundEvents L serverUrl p b,
        e ∈ (testApiCalls env L serverUrl calls w).1.trace := by
  intro calls
  induction calls with
  | nil => intro w; simp [testApiCalls]
  | cons apiCall rest ih =>
    intro w
    obtain ⟨b, hb⟩ := hs (requests w.trace).length (serverUrl ++ ascii "/" ++ apiCall)
    rw [testApiCalls_cons_body env L serverUrl apiCall rest w b hb]
    obtain ⟨h0, hreq, hchk⟩ := ih
      { trace := w.trace ++ roundEvents L serverUrl apiCall b, stdin := w.stdin }
    refine ⟨h0, ?_, ?_⟩
    · rw [hreq]
      simp [requests_append, requests_roundEvents]
    · intro p hp
      rcases List.mem_cons.1 hp with hp | hp
      · subst hp
        obtain ⟨t, ht, _⟩ := testApiCalls_grows env L serverUrl rest
          { trace := w.trace ++ roundEvents L serverUrl p b, stdin := w.stdin }
        refine ⟨b, fun e he => ?_⟩
        rw [ht]
        exact List.mem_append_left _ (List.mem_append_right _ he)
      · exact hchk p hp

/-! ## Properties: package strings -/

theorem Split_ne_nil (sep : Nat) (s : GoString) : Split sep s ≠ [] := by
  cases s with
  | nil => simp [Split]
  | cons c cs =>
    rw [Split]
    split
    · simp
    · split <;> simp

/-- The number of pieces of a split: one more than the separators. -/
theorem Split_length (sep : Nat) (s : GoString) :
    (Split sep s).length = s.count sep + 1 := by
  induction s with
  | nil => simp [Split]
  | cons c cs ih =>
    rw [Split]
    by_cases h : c = sep
    · subst h
      simp [ih]
    · have hne : Split sep cs ≠ [] := Split_ne_nil sep cs
      rw [if_neg h, List.count_cons_of_ne (fun h2 => h h2.symm)]
      cases hs : Split sep cs with
      | nil => exact absurd hs hne
      | cons p ps => simp [← ih, hs]

/-- Joining the pieces of a split with the separator gives the string back. -/
theorem Split_join (sep : Nat) (s : GoString) :
    List.intercalate [sep] (Split sep s) = s := by
  induction s with
  | nil => simp [Split, List.intercalate]
  | cons c cs ih =>
    rw [Split]
    have hne : Split sep cs ≠ [] := Split_ne_nil sep cs
    by_cases h : c = sep
    · rw [if_pos h]
      cases hs : Split sep cs with
      | nil => exact absurd hs hne
      | cons p ps =>
        rw [hs] at ih
        simp only [List.intercalate, List.intersperse, List.flatten_cons, List.nil_append,
          List.singleton_append] at ih ⊢
        rw [ih, h]
    · rw [if_neg h]
      cases hs : Split sep cs with
      | nil => exact absurd hs hne
      | cons p ps =>
        rw [hs] at ih
        simp only [List.intercalate] at ih ⊢
        cases ps with
        | nil => simpa [List.intersperse] using ih
        | cons q qs =>
          simp only [List.intersperse, List.flatten_cons, List.cons_append] at ih ⊢
          rw [ih]

theorem isSome_false_iff {α : Type} (o : Option α) : o.isSome = false ↔ o = none := by
  cases o <;> simp

theorem leadingSpace_eq_none (table : List GoString) (s : GoString) :
    leadingSpace table s = none ↔ ∀ e ∈ table, e.isPrefixOf s = false := by
  rw [leadingSpace, List.find?_eq_none]
  constructor
  · intro h e he
    rw [Bool.eq_false_iff, Ne, List.isPrefixOf_iff_prefix]
    simpa using h e he
  · intro h e he
    have := h e he
    rw [Bool.eq_false_iff, Ne, List.isPrefixOf_iff_prefix] at this
    simpa using this

theorem leadingSpace_some (table : List GoString) (s e : GoString)
    (h : leadingSpace table s = some e) : e ∈ table ∧ e.isPrefixOf s = true := by
  unfold leadingSpace at h
  exact ⟨List.mem_of_find?_eq_some h, by simpa using List.find?_some h⟩

/-- With enough rounds the loop ends at a string that starts with no entry
of the table. -/
theorem trimLeftLoop_none (table : List GoString) (hT : leadingSpace table [] = none) :
    ∀ (n : Nat) (s : GoString), s.length ≤ n →
      leadingSpace table (trimLeftLoop table n s) = none := by
  intro n
  induction n with
  | zero =>
    intro s hs
    have : s = [] := List.length_eq_zero.1 (Nat.le_zero.1 hs)
    subst this
    simpa [trimLeftLoop] using hT
  | succ n ih =>
    intro s hs
    rw [trimLeftLoop]
    cases hl : leadingSpace table s with
    | none => simpa using hl
    | some e =>
      simp only
      apply ih
      obtain ⟨hmem, hpre⟩ := leadingSpace_some table s e hl
      have hne : e ≠ [] := by
        intro he
        subst he
        have := (leadingSpace_eq_none table []).1 hT [] hmem
        simp at this
      have hpos : 0 < e.length := List.length_pos.2 hne
      rw [List.length_drop]
      omega

/-- The loop returns a string that starts with no entry of the table as it is. -/
theorem trimLeftLoop_id (table : List GoString) (n : Nat) (s : GoString)
    (h : leadingSpace table s = none) : trimLeftLoop table n s = s := by
  cases n with
  | zero => rfl
  | succ n => rw [trimLeftLoop, h]

/-- The loop returns a suffix of its argument. -/
theorem trimLeftLoop_suffix (table : List GoString) :
    ∀ (n : Nat) (s : GoString), ∃ p, s = p ++ trimLeftLoop table n s := by
  intro n
  induction n with
  | zero => intro s; exact ⟨[], rfl⟩
  | succ n ih =>
    intro s
    rw [trimLeftLoop]
    cases hl : leadingSpace table s with
    | none => exact ⟨[], rfl⟩
    | some e =>
      simp only
      obtain ⟨p, hp⟩ := ih (s.drop e.length)
      refine ⟨s.take e.length ++ p, ?_⟩
      rw [List.append_assoc, ← hp, List.take_append_drop]

theorem TrimSpace_no_leading (s : GoString) : hasLeadingSpace (TrimSpace s) = false := by
  have h1 : leadingSpace spaceEncodings (TrimLeftSpace s) = none :=
    trimLeftLoop_none spaceEncodings (by decide) _ s (le_refl _)
  obtain ⟨p, hp⟩ := trimLeftLoop_suffix (spaceEncodings.map List.reverse)
    (TrimLeftSpace s).length (TrimLeftSpace s).reverse
  have hpre : TrimLeftSpace s = TrimSpace s ++ p.reverse := by
    have := congrArg List.reverse hp
    rw [List.reverse_reverse, List.reverse_append] at this
    exact this
  rw [leadingSpace_eq_none, hpre] at h1
  unfold hasLeadingSpace
  rw [isSome_false_iff, leadingSpace_eq_none]
  intro e he
  have h2 := h1 e he
  cases h3 : e.isPrefixOf (TrimSpace s) with
  | false => rfl
  | true =>
    rw [List.isPrefixOf_iff_prefix] at h3
    have : e.isPrefixOf (TrimSpace s ++ p.reverse) = true :=
      List.isPrefixOf_iff_prefix.2 (h3.trans (List.prefix_append _ _))
    rw [this] at h2
    exact absurd h2 (by simp)

theorem TrimSpace_no_trailing (s : GoString) : hasTrailingSpace (TrimSpace s) = false := by
  unfold hasTrailingSpace TrimSpace TrimRightSpace
  rw [List.reverse_reverse, isSome_false_iff]
  exact trimLeftLoop_none _ (by decide) _ _ (by simp)

/-- Trimming a string that has no white space at either end changes nothing. -/
theorem TrimSpace_id (s : GoString) (h1 : hasLeadingSpace s = false)
    (h2 : hasTrailingSpace s = false) : TrimSpace s = s := by
  unfold hasLeadingSpace at h1
  unfold hasTrailingSpace at h2
  rw [isSome_false_iff] at h1 h2
  unfold TrimSpace TrimRightSpace TrimLeftSpace
  rw [trimLeftLoop_id _ _ _ h1, trimLeftLoop_id _ _ _ h2, List.reverse_reverse]

/-! ## Properties: `initLog`, `getServerUrl` and `main` -/

/-- The loggers `initLog` makes when the output stream can be opened. -/
theorem initLog_some (env : Env) (fileName loglevel : GoString) (w : World)
    (h : ToLower env.unicodeLower fileName = ascii "stdout" ∨ env.openFails fileName = false) :
    initLog env fileName loglevel w = (w, some
      { Trace :=
          if ToLower env.unicodeLower loglevel = ascii "trace" then
            { out := [logStream env fileName], pfx := ascii "TRACE:   " }
          else { out := [.discard], pfx := ascii "TRACE:   " }
        Info := { out := [logStream env fileName], pfx := ascii "INFO:    " }
        Warning := { out := [logStream env fileName], pfx := ascii "WARNING: " }
        Error := { out := [logStream env fileName, .stdout], pfx := ascii "ERROR:   " } }) := by
  unfold initLog logStream
  by_cases h1 : ToLower env.unicodeLower fileName = ascii "stdout"
  · simp only [if_pos h1]
  · have h2 : env.openFails fileName = false := h.resolve_left h1
    simp only [if_neg h1, h2, Bool.false_eq_true, if_false]

/-- Without an output stream `initLog` ends the process after one line on
standard error. -/
theorem initLog_none (env : Env) (fileName loglevel : GoString) (w : World)
    (h1 : ToLower env.unicodeLower fileName ≠ ascii "stdout") (h2 : env.openFails fileName = true) :
    initLog env fileName loglevel w =
      (stdLogger.Println (ascii "Failed to open log file: " ++ fileName) w, none) := by
  unfold initLog
  simp only [if_neg h1, h2, if_true]

/-- The result of `getServerUrl`: the trimmed server address, and no
request among the events it adds. -/
theorem getServerUrl_eq (flags : Flags) (stdin : GoString) :
    (getServerUrl flags.serveraddress { trace := [], stdin := stdin }).2 =
        TrimSpace (serverAddress flags stdin) ∧
      requests (getServerUrl flags.serveraddress { trace := [], stdin := stdin }).1.trace = [] := by
  unfold getServerUrl serverAddress
  by_cases h : flags.serveraddress = []
  · simp [if_pos h, requests]
  · simp [if_neg h, requests]

/-- The function `main` once the output stream is open: the loop over the
pieces of `-apicalls`, started in a world without requests. -/
theorem main_eq (env : Env) (flags : Flags) (stdin : GoString)
    (h : ToLower env.unicodeLower flags.logfile = ascii "stdout" ∨
      env.openFails flags.logfile = false) :
    ∃ L w1, initLog env flags.logfile flags.loglevel { trace := [], stdin := stdin } =
        ({ trace := [], stdin := stdin }, some L) ∧
      requests w1.trace = [] ∧
      main env flags stdin =
        testApiCalls env L (ascii "http://" ++ TrimSpace (serverAddress flags stdin))
          (Split 44 flags.apicalls) w1 := by
  have hi := initLog_some env flags.logfile flags.loglevel { trace := [], stdin := stdin } h
  obtain ⟨ha, hr⟩ := getServerUrl_eq flags stdin
  refine ⟨_, Logger.Println { out := [logStream env flags.logfile], pfx := ascii "INFO:    " }
    (ascii "Creating requests for " ++ (ascii "http://" ++ TrimSpace (serverAddress flags stdin)))
    (getServerUrl flags.serveraddress { trace := [], stdin := stdin }).1, hi, ?_, ?_⟩
  · simp [Logger.Println, requests_append, hr, requests]
  · unfold main
    rw [hi]
    simp only [ha]

/-- Every request of a run of `main` carries the timeout of 300 seconds. -/
theorem main_timeouts (env : Env) (flags : Flags) (stdin : GoString) :
    ∀ r ∈ requests (main env flags stdin).1.trace, r.2 = 300000000000 := by
  by_cases h : ToLower env.unicodeLower flags.logfile = ascii "stdout" ∨
      env.openFails flags.logfile = false
  · obtain ⟨L, w1, _, hr, hm⟩ := main_eq env flags stdin h
    rw [hm]
    obtain ⟨t, ht, hreq⟩ := testApiCalls_grows env L
      (ascii "http://" ++ TrimSpace (serverAddress flags stdin)) (Split 44 flags.apicalls) w1
    rw [ht, requests_append, hr, List.nil_append]
    exact hreq
  · rw [not_or] at h
    have h2 : env.openFails flags.logfile = true := by
      cases hb : env.openFails flags.logfile with
      | true => rfl
      | false => exact absurd hb h.2
    unfold main
    rw [initLog_none env _ _ _ h.1 h2]
    simp [Logger.Println, requests]

/-- The loop when the first `k` requests succeed and the next one fails:
the events of `k` full rounds, then the failed request and the error line,
and exit status 1. -/
theorem testApiCalls_fails_at (env : Env) (L : Loggers) (serverUrl : GoString) :
    ∀ (k : Nat) (calls : List GoString) (w : World), k < calls.length →
      (∀ i, i < k → ∃ b, env.server ((requests w.trace).length + i)
        (serverUrl ++ ascii "/" ++ calls.getD i []) = Response.body b) →
      (env.server ((requests w.trace).length + k)
          (serverUrl ++ ascii "/" ++ calls.getD k []) = Response.getFailed ∨
        env.server ((requests w.trace).length + k)
          (serverUrl ++ ascii "/" ++ calls.getD k []) = Response.readFailed) →
      ∃ msg t,
        (msg = ascii "Error while getting response for: " ++
            (serverUrl ++ ascii "/" ++ calls.getD k []) ∨
          msg = ascii "Error while reading response body for: " ++
            (serverUrl ++ ascii "/" ++ calls.getD k [])) ∧
        testApiCalls env L serverUrl (calls.take k) w =
          ({ trace := w.trace ++ t, stdin := w.stdin }, 0) ∧
        requests t =
          (calls.take k).map (fun p => (serverUrl ++ ascii "/" ++ p, (300000000000 : Int))) ∧
        (∀ p ∈ calls.take k, ∃ b, ∀ e ∈ roundEvents L serverUrl p b, e ∈ t) ∧
        testApiCalls env L serverUrl calls w =
          ({ trace := w.trace ++ t ++
              [Event.println L.Info (ascii "Requesting following url: " ++
                 (serverUrl ++ ascii "/" ++ calls.getD k [])),
               Event.get (serverUrl ++ ascii "/" ++ calls.getD k []) 300000000000,
               Event.println L.Error msg],
             stdin := w.stdin }, 1) := by
  intro k
  induction k with
  | zero =>
    intro calls w hk _ hf
    cases calls with
    | nil => simp at hk
    | cons c rest =>
      simp only [Nat.add_zero, List.getD_cons_zero] at hf
      obtain ⟨msg, hmsg, hm⟩ := testApiCalls_cons_failed env L serverUrl c rest w hf
      refine ⟨msg, [], by simpa using hmsg, by simp [testApiCalls], by simp [requests],
        by simp, ?_⟩
      simpa using hm
  | succ k ih =>
    intro calls w hk hs hf
    cases calls with
    | nil => simp at hk
    | cons c rest =>
      obtain ⟨b, hb⟩ := hs 0 (Nat.succ_pos k)
      simp only [Nat.add_zero, List.getD_cons_zero] at hb
      have hlen : (requests (w.trace ++ roundEvents L serverUrl c b)).length
          = (requests w.trace).length + 1 := by
        rw [requests_append, requests_roundEvents, List.length_append, List.length_singleton]
      have hk2 : k < rest.length := by simpa using hk
      obtain ⟨msg, t, hmsg, hpre, hreq, hchk, hall⟩ := ih rest
        { trace := w.trace ++ roundEvents L serverUrl c b, stdin := w.stdin } hk2
        (by
          intro i hi
          obtain ⟨b2, hb2⟩ := hs (i + 1) (Nat.succ_lt_succ hi)
          refine ⟨b2, ?_⟩
          simp only [hlen]
          rw [List.getD_cons_succ] at hb2
          rw [← hb2]
          congr 1
          omega)
        (by
          simp only [hlen]
          rw [List.getD_cons_succ] at hf
          have e : (requests w.trace).length + 1 + k = (requests w.trace).length + (k + 1) := by
            omega
          rw [e]
          exact hf)
      refine ⟨msg, roundEvents L serverUrl c b ++ t, ?_, ?_, ?_, ?_, ?_⟩
      · simpa [List.getD_cons_succ] using hmsg
      · rw [List.take_succ_cons, testApiCalls_cons_body env L serverUrl c _ w b hb, hpre]
        simp only [List.append_assoc]
      · rw [requests_append, requests_roundEvents, hreq, List.take_succ_cons]
        simp
      · intro p hp
        rw [List.take_succ_cons] at hp
        rcases List.mem_cons.1 hp with hp | hp
        · subst hp
          exact ⟨b, fun e he => List.mem_append_left _ he⟩
        · obtain ⟨b2, hb2⟩ := hchk p hp
          exact ⟨b2, fun e he => List.mem_append_right _ (hb2 e he)⟩
      · rw [testApiCalls_cons_body env L serverUrl c _ w b hb, hall]
        simp only [List.append_assoc, List.getD_cons_succ]

/-- No entry of the table of white-space encodings is the beginning of
another one. -/
theorem spaceEncodings_no_overlap :
    ∀ e ∈ spaceEncodings, ∀ f ∈ spaceEncodings, f.isPrefixOf e = true → f = e := by
  decide

/-- A string that starts with the encoding `e` of a white-space rune:
`leadingSpace` finds `e`. -/
theorem leadingSpace_append (e rest : GoString) (he : e ∈ spaceEncodings) :
    leadingSpace spaceEncodings (e ++ rest) = some e := by
  cases h : leadingSpace spaceEncodings (e ++ rest) with
  | none =>
    have := (leadingSpace_eq_none _ _).1 h e he
    rw [Bool.eq_false_iff, Ne, List.isPrefixOf_iff_prefix] at this
    exact absurd (List.prefix_append e rest) this
  | some f =>
    obtain ⟨hf, hpre⟩ := leadingSpace_some _ _ _ h
    rw [List.isPrefixOf_iff_prefix] at hpre
    have h2 : f <+: e ∨ e <+: f :=
      List.prefix_or_prefix_of_prefix hpre (List.prefix_append e rest)
    rcases h2 with h2 | h2
    · rw [spaceEncodings_no_overlap e he f hf (List.isPrefixOf_iff_prefix.2 h2)]
    · rw [spaceEncodings_no_overlap f hf e he (List.isPrefixOf_iff_prefix.2 h2)]

/-- A string made of white-space runes only is trimmed to the empty string. -/
theorem TrimSpace_all_space (es : List GoString) (h : ∀ e ∈ es, e ∈ spaceEncodings) :
    TrimSpace es.flatten = [] := by
  have key : ∀ (es : List GoString), (∀ e ∈ es, e ∈ spaceEncodings) →
      ∀ n, es.flatten.length ≤ n → trimLeftLoop spaceEncodings n es.flatten = [] := by
    intro es
    induction es with
    | nil =>
      intro _ n _
      cases n <;> simp [trimLeftLoop, leadingSpace, spaceEncodings]
    | cons e es ih =>
      intro hall n hn
      have he : e ∈ spaceEncodings := hall e (List.mem_cons_self _ _)
      have hne : e ≠ [] := by
        intro h0
        rw [h0] at he
        revert he
        decide
      have hpos : 0 < e.length := List.length_pos.2 hne
      rw [List.flatten_cons] at hn ⊢
      rw [List.length_append] at hn
      cases n with
      | zero => omega
      | succ n =>
        rw [trimLeftLoop, leadingSpace_append e _ he]
        simp only [List.drop_left]
        exact ih (fun f hf => hall f (List.mem_cons_of_mem _ hf)) n (by omega)
  unfold TrimSpace TrimLeftSpace
  rw [key es h _ (le_refl _)]
  rfl

/-! ## Properties: a top-level string or `null` holds no number -/

/-- Once the scanner has recorded an error the input is not accepted. -/
theorem scanBytes_error (sc : Scanner) (h1 : sc.step = .stateError) (h2 : sc.err = true) :
    ∀ rest sc2, scanBytes sc rest = some sc2 → sc2.eof = .scanError := by
  intro rest sc2 h
  cases rest with
  | nil =>
    simp only [scanBytes, Option.some.injEq] at h
    subst h
    simp [Scanner.eof, h2]
  | cons c cs =>
    simp [scanBytes, Scanner.next, h1] at h

/-- From inside or behind a top-level string or `null`, what the scanner
accepts holds no number literal for the decoder. -/
theorem scalar_tail : ∀ (rest : List Nat) (step : Step) (endTop err : Bool) (m : Lexing),
    lexingOf step = some m → ∀ sc2,
    scanBytes { step := step, endTop := endTop, parseState := [], err := err } rest = some sc2 →
    sc2.eof ≠ .scanError → numbersConvert m rest = true := by
  intro rest
  induction rest with
  | nil =>
    intro step endTop err m hm sc2 _ _
    cases step <;> simp [lexingOf] at hm <;> subst hm <;> rfl
  | cons c cs ih =>
    intro step endTop err m hm sc2 hrun heof
    rw [scanBytes] at hrun
    cases step <;> simp only [lexingOf, Option.some.injEq, reduceCtorEq] at hm <;> subst hm
    all_goals
      simp only [Scanner.next, stateInString, stateInStringEsc, stateInStringEscHex, stateWord,
        stateEndValue, stateEndTop, Scanner.error] at hrun
      split_ifs at hrun
      all_goals first
        | (exfalso; simp at hrun; done)
        | (exact absurd (scanBytes_error _ rfl rfl _ _ hrun) heof)
        | (rw [numbersConvert]
           try split_ifs
           all_goals first
             | (refine ih _ _ _ _ ?_ _ hrun heof; rfl)
             | (exfalso; clear ih; simp [isSpace, isHex, isDigit] at *; omega))

/-- A text the scanner accepts whose first byte after the white space is a
quote or `n` holds no number literal for the decoder. -/
theorem string_or_null_no_numbers : ∀ (data : List Nat) (endTop err : Bool) (sc2 : Scanner),
    scanBytes { step := .stateBeginValue, endTop := endTop, parseState := [], err := err } data
      = some sc2 →
    sc2.eof ≠ .scanError →
    (match data.find? (fun c => !isSpace c) with
     | some c => decide (c = 34 ∨ c = 110)
     | none => false) = true →
    numbersConvert .outside data = true := by
  intro data
  induction data with
  | nil =>
    intro _ _ _ _ _ h
    simp at h
  | cons c cs ih =>
    intro endTop err sc2 hrun heof hfirst
    rw [scanBytes] at hrun
    by_cases hsp : isSpace c = true
    · simp only [Scanner.next, stateBeginValue, if_pos hsp, reduceCtorEq, if_false] at hrun
      rw [List.find?_cons_of_neg _ (by simp [hsp])] at hfirst
      have h1 : c ≠ 34 := by
        simp [isSpace] at hsp
        omega
      have h2 : ¬(c = 45 ∨ isDigit c = true) := by
        simp [isSpace, isDigit] at hsp ⊢
        omega
      rw [numbersConvert, if_neg h1, if_neg h2]
      exact ih _ _ _ hrun heof hfirst
    · rw [List.find?_cons_of_pos _ (by simp [hsp])] at hfirst
      simp only [decide_eq_true_eq] at hfirst
      rcases hfirst with hc | hc
      · subst hc
        simp only [Scanner.next, stateBeginValue, isSpace] at hrun
        simp only [Nat.reduceEqDiff, or_self, decide_False, Bool.false_eq_true, if_false,
          if_true, reduceCtorEq] at hrun
        rw [numbersConvert, if_pos rfl]
        refine scalar_tail cs _ _ _ _ ?_ _ hrun heof
        rfl
      · subst hc
        simp only [Scanner.next, stateBeginValue, isSpace] at hrun
        simp only [Nat.reduceEqDiff, or_self, decide_False, Bool.false_eq_true, if_false,
          if_true, reduceCtorEq] at hrun
        rw [numbersConvert, if_neg (by decide), if_neg (by decide)]
        refine scalar_tail cs _ _ _ _ ?_ _ hrun heof
        rfl

/-- Whatever `json.Unmarshal` accepts for a string, it accepts for an
`interface{}`. -/
theorem unmarshalString_imp (data : List Nat) (h : unmarshalString data = true) :
    unmarshalInterface data = true := by
  unfold unmarshalString at h
  rw [Bool.and_eq_true] at h
  unfold unmarshalInterface
  rw [Bool.and_eq_true]
  refine ⟨h.1, ?_⟩
  have hv := h.1
  unfold checkValid at hv
  cases hrun : scanBytes Scanner.reset data with
  | none => simp [hrun] at hv
  | some sc2 =>
    simp only [hrun, decide_eq_true_eq] at hv
    exact string_or_null_no_numbers data _ _ sc2 hrun hv h.2

/-! ## Properties: the decoder's walk over the productions of the grammar -/

theorem Ws_nil : Ws [] := by
  intro c hc
  simp at hc

theorem Ws_cons (c : Nat) (w : List Nat) (hc : isSpace c = true) (hw : Ws w) : Ws (c :: w) := by
  intro x hx
  rcases List.mem_cons.1 hx with h | h
  · rw [h]; exact hc
  · exact hw x h

theorem Ws_append (a b : List Nat) (ha : Ws a) (hb : Ws b) : Ws (a ++ b) := by
  intro x hx
  rcases List.mem_append.1 hx with h | h
  · exact ha x h
  · exact hb x h

theorem space_not_number (c : Nat) (h : isSpace c = true) :
    c ≠ 34 ∧ c ≠ 45 ∧ isDigit c = false ∧ isNumberByte c = false := by
  simp [isSpace, isDigit, isNumberByte] at h ⊢
  omega

theorem Follow_ws (w rest : List Nat) (hw : Ws w) (hr : Follow rest) : Follow (w ++ rest) := by
  cases w with
  | nil => simpa using hr
  | cons c cs => exact (space_not_number c (hw c (List.mem_cons_self _ _))).2.2.2

theorem nc_ws (w rest : List Nat) (hw : Ws w) :
    numbersConvert .outside (w ++ rest) = numbersConvert .outside rest := by
  induction w with
  | nil => rfl
  | cons c cs ih =>
    obtain ⟨h1, h2, h3, _⟩ := space_not_number c (hw c (List.mem_cons_self _ _))
    rw [List.cons_append, numbersConvert, if_neg h1, if_neg (by simp [h2, h3])]
    exact ih (fun x hx => hw x (List.mem_cons_of_mem _ hx))

theorem nc_chars (cs rest : List Nat) (h : Chars cs) :
    numbersConvert .inString (cs ++ 34 :: rest) = numbersConvert .outside rest := by
  induction h with
  | nil => simp [numbersConvert]
  | plain c cs h1 h2 h3 _ ih =>
    rw [List.cons_append, numbersConvert, if_neg h3, if_neg h2]
    exact ih
  | escape e cs _ _ ih =>
    rw [List.cons_append, List.cons_append, numbersConvert, if_pos rfl, numbersConvert]
    exact ih
  | unicode h1 h2 h3 h4 cs a1 a2 a3 a4 _ ih =>
    have hx : ∀ h, isHex h = true → h ≠ 92 ∧ h ≠ 34 := by
      intro h hh
      simp [isHex] at hh
      omega
    simp only [List.cons_append]
    rw [numbersConvert, if_pos rfl, numbersConvert, numbersConvert, if_neg (hx h1 a1).1,
      if_neg (hx h1 a1).2, numbersConvert, if_neg (hx h2 a2).1, if_neg (hx h2 a2).2,
      numbersConvert, if_neg (hx h3 a3).1, if_neg (hx h3 a3).2,
      numbersConvert, if_neg (hx h4 a4).1, if_neg (hx h4 a4).2]
    exact ih

theorem nc_string (s rest : List Nat) (h : JString s) :
    numbersConvert .outside (s ++ rest) = numbersConvert .outside rest := by
  cases h with
  | mk cs hcs =>
    simp only [List.cons_append, List.append_assoc, List.singleton_append]
    rw [numbersConvert, if_pos rfl]
    exact nc_chars cs rest hcs

theorem nc_inNumber (rest : List Nat) (hr : Follow rest) :
    ∀ (xs lit : List Nat), (∀ c ∈ xs, isNumberByte c = true) →
      numbersConvert (.inNumber lit) (xs ++ rest) =
        (!parseFloatErrRange (lit ++ xs) && numbersConvert .outside rest) := by
  intro xs
  induction xs with
  | nil =>
    intro lit _
    cases rest with
    | nil => simp [numbersConvert]
    | cons c cs =>
      have hc : isNumberByte c = false := hr
      have h2 : ¬(c = 45 ∨ isDigit c = true) := by
        simp [isNumberByte] at hc
        simp [hc.1]
        omega
      simp only [List.nil_append, List.append_nil, numbersConvert, hc, h2, Bool.false_eq_true,
        if_false]
      split <;> rfl
  | cons x xs ih =>
    intro lit hall
    rw [List.cons_append, numbersConvert, if_pos (hall x (List.mem_cons_self _ _)),
      ih _ (fun c hc => hall c (List.mem_cons_of_mem _ hc))]
    simp

theorem digit_numberByte (c : Nat) (h : isDigit c = true) : isNumberByte c = true := by
  simp [isNumberByte, h]

theorem oneNine_digit (d : Nat) (h : OneNine d) : isDigit d = true := by
  unfold OneNine at h
  simp [isDigit]
  omega

theorem JInteger_bytes (i : List Nat) (h : JInteger i) :
    (∀ c ∈ i, isNumberByte c = true) ∧
      ∃ c0 rest, i = c0 :: rest ∧ (c0 = 45 ∨ isDigit c0 = true) := by
  cases h with
  | digit d hd =>
    exact ⟨by simpa using digit_numberByte d hd, d, [], rfl, Or.inr hd⟩
  | digits d ds hd hds =>
    refine ⟨?_, d, ds, rfl, Or.inr (oneNine_digit d hd)⟩
    intro c hc
    rcases List.mem_cons.1 hc with h | h
    · rw [h]; exact digit_numberByte d (oneNine_digit d hd)
    · exact digit_numberByte c (hds.2 c h)
  | negDigit d hd =>
    refine ⟨?_, 45, [d], rfl, Or.inl rfl⟩
    intro c hc
    simp at hc
    rcases hc with h | h
    · rw [h]; decide
    · rw [h]; exact digit_numberByte d hd
  | negDigits d ds hd hds =>
    refine ⟨?_, 45, d :: ds, rfl, Or.inl rfl⟩
    intro c hc
    rcases List.mem_cons.1 hc with h | h
    · rw [h]; decide
    · rcases List.mem_cons.1 h with h | h
      · rw [h]; exact digit_numberByte d (oneNine_digit d hd)
      · exact digit_numberByte c (hds.2 c h)

theorem JFraction_bytes (f : List Nat) (h : JFraction f) : ∀ c ∈ f, isNumberByte c = true := by
  cases h with
  | none => simp
  | some ds hds =>
    intro c hc
    rcases List.mem_cons.1 hc with h | h
    · rw [h]; decide
    · exact digit_numberByte c (hds.2 c h)

theorem JExponent_bytes (e : List Nat) (h : JExponent e) : ∀ c ∈ e, isNumberByte c = true := by
  cases h with
  | none => simp
  | some e sign ds he hs hds =>
    intro c hc
    rcases List.mem_cons.1 hc with h | h
    · rw [h]
      rcases he with he | he <;> rw [he] <;> decide
    · rcases List.mem_append.1 h with h | h
      · rcases hs with hs | hs | hs <;> rw [hs] at h <;> simp at h <;> rw [h] <;> decide
      · exact digit_numberByte c (hds.2 c h)

/-- A number literal starts with `-` or a digit and consists of number bytes. -/
theorem JNumber_bytes (n : List Nat) (h : JNumber n) :
    ∃ c0 rest, n = c0 :: rest ∧ (c0 = 45 ∨ isDigit c0 = true) ∧
      ∀ c ∈ rest, isNumberByte c = true := by
  cases h with
  | mk i f e hi hf he =>
    obtain ⟨hall, c0, rest, hirest, hc0⟩ := JInteger_bytes i hi
    refine ⟨c0, rest ++ f ++ e, by simp [hirest], hc0, ?_⟩
    intro c hc
    rcases List.mem_append.1 hc with h | h
    · rcases List.mem_append.1 h with h | h
      · exact hall c (by rw [hirest]; exact List.mem_cons_of_mem _ h)
      · exact JFraction_bytes f hf c h
    · exact JExponent_bytes e he c h

theorem nc_number (n rest : List Nat) (h : JNumber n) (hr : Follow rest) :
    numbersConvert .outside (n ++ rest) =
      (!parseFloatErrRange n && numbersConvert .outside rest) := by
  obtain ⟨c0, n2, hn, hc0, hall⟩ := JNumber_bytes n h
  have h34 : c0 ≠ 34 := by
    rcases hc0 with h | h
    · omega
    · simp [isDigit] at h; omega
  rw [hn, List.cons_append, numbersConvert, if_neg h34, if_pos hc0, nc_inNumber rest hr n2 [c0] hall]
  rfl

/-- The bytes that structure a text are no part of a literal. -/
theorem nc_structural (c : Nat) (xs : List Nat)
    (h : c = 91 ∨ c = 93 ∨ c = 123 ∨ c = 125 ∨ c = 44 ∨ c = 58) :
    numbersConvert .outside (c :: xs) = numbersConvert .outside xs := by
  have h1 : c ≠ 34 := by omega
  have h2 : ¬(c = 45 ∨ isDigit c = true) := by
    simp [isDigit]
    omega
  rw [numbersConvert, if_neg h1, if_neg h2]

theorem Follow_structural (c : Nat) (xs : List Nat)
    (h : c = 91 ∨ c = 93 ∨ c = 123 ∨ c = 125 ∨ c = 44 ∨ c = 58) : Follow (c :: xs) := by
  show isNumberByte c = false
  simp [isNumberByte, isDigit]
  omega

theorem nc_ws_true (w : List Nat) (hw : Ws w) : numbersConvert .outside w = true := by
  have := nc_ws w [] hw
  rw [List.append_nil] at this
  rw [this]
  rfl

/-- The decoder's walk over a production followed by more text: the walk
over the production, then the walk over the rest. -/
theorem nc_split (Q : List Nat → Prop) (sym : Sym) (d : Nat) (x : List Nat)
    (h : Derives Q sym d x) :
    ∀ rest, Follow rest →
      numbersConvert .outside (x ++ rest) =
        (numbersConvert .outside x && numbersConvert .outside rest) := by
  induction h with
  | null d => intro rest _; simp [numbersConvert, isDigit]
  | true d => intro rest _; simp [numbersConvert, isDigit]
  | false d => intro rest _; simp [numbersConvert, isDigit]
  | number d n hn _ =>
    intro rest hr
    have h0 := nc_number n [] hn trivial
    rw [List.append_nil] at h0
    rw [nc_number n rest hn hr, h0]
    simp [numbersConvert]
  | string d s hs =>
    intro rest _
    have h0 := nc_string s [] hs
    rw [List.append_nil] at h0
    rw [nc_string s rest hs, h0]
    simp [numbersConvert]
  | emptyArray d w hw =>
    intro rest _
    simp only [List.cons_append, List.append_assoc, List.singleton_append]
    rw [nc_structural 91 _ (by simp), nc_ws _ _ hw, nc_structural 93 _ (by simp),
      nc_structural 91 _ (by simp), nc_ws _ _ hw, nc_structural 93 _ (by simp)]
    simp [numbersConvert]
  | array d es _ ih =>
    intro rest _
    simp only [List.cons_append, List.append_assoc, List.singleton_append]
    rw [nc_structural 91 _ (by simp), ih _ (Follow_structural 93 _ (by simp)),
      nc_structural 93 _ (by simp),
      nc_structural 91 _ (by simp), ih _ (Follow_structural 93 _ (by simp)),
      nc_structural 93 _ (by simp)]
    simp [numbersConvert]
  | emptyObject d w hw =>
    intro rest _
    simp only [List.cons_append, List.append_assoc, List.singleton_append]
    rw [nc_structural 123 _ (by simp), nc_ws _ _ hw, nc_structural 125 _ (by simp),
      nc_structural 123 _ (by simp), nc_ws _ _ hw, nc_structural 125 _ (by simp)]
    simp [numbersConvert]
  | object d ms _ ih =>
    intro rest _
    simp only [List.cons_append, List.append_assoc, List.singleton_append]
    rw [nc_structural 123 _ (by simp), ih _ (Follow_structural 125 _ (by simp)),
      nc_structural 125 _ (by simp),
      nc_structural 123 _ (by simp), ih _ (Follow_structural 125 _ (by simp)),
      nc_structural 125 _ (by simp)]
    simp [numbersConvert]
  | element d w1 v w2 hw1 _ hw2 ih =>
    intro rest hr
    simp only [List.append_assoc]
    rw [nc_ws _ _ hw1, ih _ (Follow_ws w2 rest hw2 hr), nc_ws _ _ hw2,
      nc_ws _ _ hw1, ih w2 (by simpa using Follow_ws w2 [] hw2 trivial), nc_ws_true w2 hw2]
    simp
  | elementsOne d e _ ih => exact ih
  | elementsMore d e es _ _ ih1 ih2 =>
    intro rest hr
    simp only [List.append_assoc, List.cons_append]
    rw [ih1 _ (Follow_structural 44 _ (by simp)), nc_structural 44 _ (by simp), ih2 rest hr,
      ih1 _ (Follow_structural 44 _ (by simp)), nc_structural 44 _ (by simp)]
    simp [Bool.and_assoc]
  | member d w1 s w2 e hw1 hs hw2 _ ih =>
    intro rest hr
    simp only [List.append_assoc, List.cons_append]
    rw [nc_ws _ _ hw1, nc_string _ _ hs, nc_ws _ _ hw2, nc_structural 58 _ (by simp), ih rest hr,
      nc_ws _ _ hw1, nc_string _ _ hs, nc_ws _ _ hw2, nc_structural 58 _ (by simp)]
  | membersOne d m _ ih => exact ih
  | membersMore d m ms _ _ ih1 ih2 =>
    intro rest hr
    simp only [List.append_assoc, List.cons_append]
    rw [ih1 _ (Follow_structural 44 _ (by simp)), nc_structural 44 _ (by simp), ih2 rest hr,
      ih1 _ (Follow_structural 44 _ (by simp)), nc_structural 44 _ (by simp)]
    simp [Bool.and_assoc]

/-- A derivation stays one when the condition on the numbers is weakened. -/
theorem Derives_mono (Q R : List Nat → Prop) (hQR : ∀ n, Q n → R n) (sym : Sym) (d : Nat)
    (x : List Nat) (h : Derives Q sym d x) : Derives R sym d x := by
  induction h with
  | null d => exact Derives.null d
  | true d => exact Derives.true d
  | false d => exact Derives.false d
  | number d n hn hq => exact Derives.number d n hn (hQR n hq)
  | string d s hs => exact Derives.string d s hs
  | emptyArray d w hw => exact Derives.emptyArray d w hw
  | array d es _ ih => exact Derives.array d es ih
  | emptyObject d w hw => exact Derives.emptyObject d w hw
  | object d ms _ ih => exact Derives.object d ms ih
  | element d w1 v w2 hw1 _ hw2 ih => exact Derives.element d w1 v w2 hw1 ih hw2
  | elementsOne d e _ ih => exact Derives.elementsOne d e ih
  | elementsMore d e es _ _ ih1 ih2 => exact Derives.elementsMore d e es ih1 ih2
  | member d w1 s w2 e hw1 hs hw2 _ ih => exact Derives.member d w1 s w2 e hw1 hs hw2 ih
  | membersOne d m _ ih => exact Derives.membersOne d m ih
  | membersMore d m ms _ _ ih1 ih2 => exact Derives.membersMore d m ms ih1 ih2

/-- A derivation stays one when the nesting limit is raised. -/
theorem Derives_depth (Q : List Nat → Prop) (sym : Sym) (d : Nat)
    (x : List Nat) (h : Derives Q sym d x) : ∀ d2, d ≤ d2 → Derives Q sym d2 x := by
  induction h with
  | null d => intro d2 _; exact Derives.null d2
  | true d => intro d2 _; exact Derives.true d2
  | false d => intro d2 _; exact Derives.false d2
  | number d n hn hq => intro d2 _; exact Derives.number d2 n hn hq
  | string d s hs => intro d2 _; exact Derives.string d2 s hs
  | emptyArray d w hw =>
    intro d2 h2
    obtain ⟨k, rfl⟩ : ∃ k, d2 = k + 1 := ⟨d2 - 1, by omega⟩
    exact Derives.emptyArray k w hw
  | array d es _ ih =>
    intro d2 h2
    obtain ⟨k, rfl⟩ : ∃ k, d2 = k + 1 := ⟨d2 - 1, by omega⟩
    exact Derives.array k es (ih k (by omega))
  | emptyObject d w hw =>
    intro d2 h2
    obtain ⟨k, rfl⟩ : ∃ k, d2 = k + 1 := ⟨d2 - 1, by omega⟩
    exact Derives.emptyObject k w hw
  | object d ms _ ih =>
    intro d2 h2
    obtain ⟨k, rfl⟩ : ∃ k, d2 = k + 1 := ⟨d2 - 1, by omega⟩
    exact Derives.object k ms (ih k (by omega))
  | element d w1 v w2 hw1 _ hw2 ih => intro d2 h2; exact Derives.element d2 w1 v w2 hw1 (ih d2 h2) hw2
  | elementsOne d e _ ih => intro d2 h2; exact Derives.elementsOne d2 e (ih d2 h2)
  | elementsMore d e es _ _ ih1 ih2 =>
    intro d2 h2; exact Derives.elementsMore d2 e es (ih1 d2 h2) (ih2 d2 h2)
  | member d w1 s w2 e hw1 hs hw2 _ ih =>
    intro d2 h2; exact Derives.member d2 w1 s w2 e hw1 hs hw2 (ih d2 h2)
  | membersOne d m _ ih => intro d2 h2; exact Derives.membersOne d2 m (ih d2 h2)
  | membersMore d m ms _ _ ih1 ih2 =>
    intro d2 h2; exact Derives.membersMore d2 m ms (ih1 d2 h2) (ih2 d2 h2)

/-- When the decoder's walk over a derived text meets no number out of
range, the text is derived with every number in range. -/
theorem nc_derives (sym : Sym) (d : Nat) (x : List Nat)
    (h : Derives (fun _ => True) sym d x) :
    numbersConvert .outside x = true →
      Derives (fun n => parseFloatErrRange n = false) sym d x := by
  induction h with
  | null d => intro _; exact Derives.null d
  | true d => intro _; exact Derives.true d
  | false d => intro _; exact Derives.false d
  | number d n hn _ =>
    intro hnc
    have h0 := nc_number n [] hn trivial
    rw [List.append_nil] at h0
    rw [h0] at hnc
    refine Derives.number d n hn ?_
    simpa [numbersConvert] using hnc
  | string d s hs => intro _; exact Derives.string d s hs
  | emptyArray d w hw => intro _; exact Derives.emptyArray d w hw
  | array d es hes ih =>
    intro hnc
    rw [nc_structural 91 _ (by simp), nc_split _ _ _ _ hes _ (Follow_structural 93 _ (by simp)),
      Bool.and_eq_true] at hnc
    exact Derives.array d es (ih hnc.1)
  | emptyObject d w hw => intro _; exact Derives.emptyObject d w hw
  | object d ms hms ih =>
    intro hnc
    rw [nc_structural 123 _ (by simp), nc_split _ _ _ _ hms _ (Follow_structural 125 _ (by simp)),
      Bool.and_eq_true] at hnc
    exact Derives.object d ms (ih hnc.1)
  | element d w1 v w2 hw1 hv hw2 ih =>
    intro hnc
    rw [List.append_assoc, nc_ws _ _ hw1,
      nc_split _ _ _ _ hv _ (by simpa using Follow_ws w2 [] hw2 trivial), Bool.and_eq_true] at hnc
    exact Derives.element d w1 v w2 hw1 (ih hnc.1) hw2
  | elementsOne d e _ ih => intro hnc; exact Derives.elementsOne d e (ih hnc)
  | elementsMore d e es he _ ih1 ih2 =>
    intro hnc
    rw [nc_split _ _ _ _ he _ (Follow_structural 44 _ (by simp)), nc_structural 44 _ (by simp),
      Bool.and_eq_true] at hnc
    exact Derives.elementsMore d e es (ih1 hnc.1) (ih2 hnc.2)
  | member d w1 s w2 e hw1 hs hw2 _ ih =>
    intro hnc
    simp only [List.append_assoc, List.cons_append] at hnc
    rw [nc_ws _ _ hw1, nc_string _ _ hs, nc_ws _ _ hw2, nc_structural 58 _ (by simp)] at hnc
    exact Derives.member d w1 s w2 e hw1 hs hw2 (ih hnc)
  | membersOne d m _ ih => intro hnc; exact Derives.membersOne d m (ih hnc)
  | membersMore d m ms hm _ ih1 ih2 =>
    intro hnc
    rw [nc_split _ _ _ _ hm _ (Follow_structural 44 _ (by simp)), nc_structural 44 _ (by simp),
      Bool.and_eq_true] at hnc
    exact Derives.membersMore d m ms (ih1 hnc.1) (ih2 hnc.2)

/-- The decoder's walk over a text derived with every number in range meets
no number out of range. -/
theorem derives_nc (sym : Sym) (d : Nat) (x : List Nat)
    (h : Derives (fun n => parseFloatErrRange n = false) sym d x) :
    numbersConvert .outside x = true := by
  induction h with
  | null d => decide
  | true d => decide
  | false d => decide
  | number d n hn hq =>
    have h0 := nc_number n [] hn trivial
    rw [List.append_nil] at h0
    rw [h0, hq]
    rfl
  | string d s hs =>
    have h0 := nc_string s [] hs
    rw [List.append_nil] at h0
    rw [h0]
    rfl
  | emptyArray d w hw =>
    rw [nc_structural 91 _ (by simp), nc_ws _ _ hw]
    rfl
  | array d es hes ih =>
    rw [nc_structural 91 _ (by simp), nc_split _ _ _ _ hes _ (Follow_structural 93 _ (by simp)), ih]
    rfl
  | emptyObject d w hw =>
    rw [nc_structural 123 _ (by simp), nc_ws _ _ hw]
    rfl
  | object d ms hms ih =>
    rw [nc_structural 123 _ (by simp), nc_split _ _ _ _ hms _ (Follow_structural 125 _ (by simp)),
      ih]
    rfl
  | element d w1 v w2 hw1 hv hw2 ih =>
    rw [List.append_assoc, nc_ws _ _ hw1,
      nc_split _ _ _ _ hv _ (by simpa using Follow_ws w2 [] hw2 trivial), ih, nc_ws_true w2 hw2]
    rfl
  | elementsOne d e _ ih => exact ih
  | elementsMore d e es he _ ih1 ih2 =>
    rw [nc_split _ _ _ _ he _ (Follow_structural 44 _ (by simp)), nc_structural 44 _ (by simp),
      ih1, ih2]
    rfl
  | member d w1 s w2 e hw1 hs hw2 _ ih =>
    simp only [List.append_assoc, List.cons_append]
    rw [nc_ws _ _ hw1, nc_string _ _ hs, nc_ws _ _ hw2, nc_structural 58 _ (by simp), ih]
  | membersOne d m _ ih => exact ih
  | membersMore d m ms hm _ ih1 ih2 =>
    rw [nc_split _ _ _ _ hm _ (Follow_structural 44 _ (by simp)), nc_structural 44 _ (by simp),
      ih1, ih2]
    rfl

/-! ## Properties: the scanner accepts what the grammar derives -/

theorem scanBytes_append (a b : List Nat) :
    ∀ sc, scanBytes sc (a ++ b) = (scanBytes sc a).bind (fun sc2 => scanBytes sc2 b) := by
  induction a with
  | nil => intro sc; rfl
  | cons c cs ih =>
    intro sc
    simp only [List.cons_append, scanBytes]
    split
    · rfl
    · exact ih _

/-- Scanning `a ++ b` when scanning `a` ends in `sc2`. -/
theorem scanBytes_append_of (a b : List Nat) (sc sc2 : Scanner)
    (h : scanBytes sc a = some sc2) : scanBytes sc (a ++ b) = scanBytes sc2 b := by
  rw [scanBytes_append, h]
  rfl

/-- One step of the scanner that does not fail, then the rest. -/
theorem scanBytes_cons_of (c : Nat) (cs : List Nat) (sc sc2 : Scanner) (op : Op)
    (h : sc.next c = (sc2, op)) (hop : op ≠ .scanError) :
    scanBytes sc (c :: cs) = scanBytes sc2 cs := by
  rw [scanBytes, h]
  simp [hop]

theorem digits_loop (q : Step) (hq : q = .state1 ∨ q = .stateDot0 ∨ q = .stateE0)
    (stack : List ParseState) (ds : List Nat) (h : AllDigits ds) :
    scanBytes (scannerAt q stack) ds = some (scannerAt q stack) := by
  induction ds with
  | nil => rfl
  | cons d ds ih =>
    have hd : 48 ≤ d ∧ d ≤ 57 := by
      have := h d (List.mem_cons_self _ _)
      simpa [isDigit] using this
    have hstep : (scannerAt q stack).next d = (scannerAt q stack, Op.scanContinue) := by
      rcases hq with hq | hq | hq <;> subst hq <;>
        simp [Scanner.next, scannerAt, state1, stateDot0, stateE0, hd]
    rw [scanBytes_cons_of d ds _ _ _ hstep (by simp)]
    exact ih (fun c hc => h c (List.mem_cons_of_mem _ hc))

theorem digit_cases (d : Nat) (h : isDigit d = true) : d = 48 ∨ OneNine d := by
  simp [isDigit] at h
  unfold OneNine
  omega

/-- The first digit of an integer, from `stateBeginValue` or `stateNeg`. -/
theorem first_digit (q : Step) (hq : q = .stateBeginValue ∨ q = .stateNeg)
    (stack : List ParseState) (d : Nat) (h : isDigit d = true) :
    ∃ q2 op, (q2 = Step.state0 ∧ d = 48 ∨ q2 = Step.state1 ∧ OneNine d) ∧ op ≠ Op.scanError ∧
      (scannerAt q stack).next d = (scannerAt q2 stack, op) := by
  rcases digit_cases d h with h0 | h1
  · subst h0
    rcases hq with hq | hq <;> subst hq
    · exact ⟨_, Op.scanBeginLiteral, Or.inl ⟨rfl, rfl⟩, by simp, by
        simp [Scanner.next, scannerAt, stateBeginValue, isSpace]⟩
    · exact ⟨_, Op.scanContinue, Or.inl ⟨rfl, rfl⟩, by simp, by
        simp [Scanner.next, scannerAt, stateNeg]⟩
  · have h2 := h1
    unfold OneNine at h2
    rcases hq with hq | hq <;> subst hq
    · refine ⟨_, Op.scanBeginLiteral, Or.inr ⟨rfl, h1⟩, by simp, ?_⟩
      simp only [Scanner.next, scannerAt, stateBeginValue, isSpace]
      rw [if_neg (by simp; omega), if_neg (by omega), if_neg (by omega), if_neg (by omega),
        if_neg (by omega), if_neg (by omega), if_neg (by omega), if_neg (by omega),
        if_neg (by omega), if_pos h2]
    · refine ⟨_, Op.scanContinue, Or.inr ⟨rfl, h1⟩, by simp, ?_⟩
      simp only [Scanner.next, scannerAt, stateNeg]
      rw [if_neg (by omega), if_pos h2]

/-- The scanner over the production `integer`. -/
theorem scan_integer (stack : List ParseState) (i : List Nat) (h : JInteger i) :
    ∃ q, (q = Step.state0 ∨ q = Step.state1) ∧
      scanBytes (scannerAt .stateBeginValue stack) i = some (scannerAt q stack) := by
  cases h with
  | digit d hd =>
    obtain ⟨q2, op, hq2, hop, hstep⟩ := first_digit _ (Or.inl rfl) stack d hd
    refine ⟨q2, ?_, ?_⟩
    · rcases hq2 with h | h
      · exact Or.inl h.1
      · exact Or.inr h.1
    · rw [scanBytes_cons_of d [] _ _ _ hstep hop]
      rfl
  | digits d ds hd hds =>
    obtain ⟨q2, op, hq2, hop, hstep⟩ := first_digit _ (Or.inl rfl) stack d (oneNine_digit d hd)
    have hq : q2 = Step.state1 := by
      rcases hq2 with h | h
      · unfold OneNine at hd; omega
      · exact h.1
    subst hq
    exact ⟨_, Or.inr rfl, by
      rw [scanBytes_cons_of d ds _ _ _ hstep hop]
      exact digits_loop _ (Or.inl rfl) stack ds hds.2⟩
  | negDigit d hd =>
    have hneg : (scannerAt .stateBeginValue stack).next 45 =
        (scannerAt .stateNeg stack, Op.scanBeginLiteral) := by
      simp [Scanner.next, scannerAt, stateBeginValue, isSpace]
    obtain ⟨q2, op, hq2, hop, hstep⟩ := first_digit _ (Or.inr rfl) stack d hd
    refine ⟨q2, ?_, ?_⟩
    · rcases hq2 with h | h
      · exact Or.inl h.1
      · exact Or.inr h.1
    · rw [scanBytes_cons_of 45 _ _ _ _ hneg (by simp), scanBytes_cons_of d [] _ _ _ hstep hop]
      rfl
  | negDigits d ds hd hds =>
    have hneg : (scannerAt .stateBeginValue stack).next 45 =
        (scannerAt .stateNeg stack, Op.scanBeginLiteral) := by
      simp [Scanner.next, scannerAt, stateBeginValue, isSpace]
    obtain ⟨q2, op, hq2, hop, hstep⟩ := first_digit _ (Or.inr rfl) stack d (oneNine_digit d hd)
    have hq : q2 = Step.state1 := by
      rcases hq2 with h | h
      · unfold OneNine at hd; omega
      · exact h.1
    subst hq
    exact ⟨_, Or.inr rfl, by
      rw [scanBytes_cons_of 45 _ _ _ _ hneg (by simp), scanBytes_cons_of d ds _ _ _ hstep hop]
      exact digits_loop _ (Or.inl rfl) stack ds hds.2⟩

/-- The scanner over the production `fraction`. -/
theorem scan_fraction (stack : List ParseState) (q : Step)
    (hq : q = Step.state0 ∨ q = Step.state1) (f : List Nat) (h : JFraction f) :
    ∃ q2, (q2 = Step.state0 ∨ q2 = Step.state1 ∨ q2 = Step.stateDot0) ∧
      scanBytes (scannerAt q stack) f = some (scannerAt q2 stack) := by
  cases h with
  | none =>
    refine ⟨q, ?_, rfl⟩
    rcases hq with h | h
    · exact Or.inl h
    · exact Or.inr (Or.inl h)
  | some ds hds =>
    obtain ⟨hne, hall⟩ := hds
    cases ds with
    | nil => exact absurd rfl hne
    | cons d ds =>
      have hd : 48 ≤ d ∧ d ≤ 57 := by
        have := hall d (List.mem_cons_self _ _)
        simpa [isDigit] using this
      have hdot : (scannerAt q stack).next 46 = (scannerAt .stateDot stack, Op.scanContinue) := by
        rcases hq with hq | hq <;> subst hq <;>
          simp [Scanner.next, scannerAt, state0, state1]
      have hfirst : (scannerAt .stateDot stack).next d =
          (scannerAt .stateDot0 stack, Op.scanContinue) := by
        simp [Scanner.next, scannerAt, stateDot, hd]
      refine ⟨_, Or.inr (Or.inr rfl), ?_⟩
      rw [scanBytes_cons_of 46 _ _ _ _ hdot (by simp), scanBytes_cons_of d _ _ _ _ hfirst (by simp)]
      exact digits_loop _ (Or.inr (Or.inl rfl)) stack ds
        (fun c hc => hall c (List.mem_cons_of_mem _ hc))

/-- The scanner over the production `exponent`. -/
theorem scan_exponent (stack : List ParseState) (q : Step)
    (hq : q = Step.state0 ∨ q = Step.state1 ∨ q = Step.stateDot0) (e : List Nat)
    (h : JExponent e) :
    ∃ q2, NumEnd q2 ∧ scanBytes (scannerAt q stack) e = some (scannerAt q2 stack) := by
  cases h with
  | none =>
    refine ⟨q, ?_, rfl⟩
    unfold NumEnd
    rcases hq with h | h | h
    · exact Or.inl h
    · exact Or.inr (Or.inl h)
    · exact Or.inr (Or.inr (Or.inl h))
  | some e sign ds he hs hds =>
    obtain ⟨hne, hall⟩ := hds
    cases ds with
    | nil => exact absurd rfl hne
    | cons d ds =>
      have hd : 48 ≤ d ∧ d ≤ 57 := by
        have := hall d (List.mem_cons_self _ _)
        simpa [isDigit] using this
      have hE : (scannerAt q stack).next e = (scannerAt .stateE stack, Op.scanContinue) := by
        rcases he with he | he <;> subst he <;> rcases hq with hq | hq | hq <;> subst hq <;>
          simp [Scanner.next, scannerAt, state0, state1, stateDot0]
      have hloop := digits_loop _ (Or.inr (Or.inr rfl)) stack ds
        (fun c hc => hall c (List.mem_cons_of_mem _ hc))
      refine ⟨Step.stateE0, Or.inr (Or.inr (Or.inr rfl)), ?_⟩
      rw [scanBytes_cons_of e _ _ _ _ hE (by simp)]
      have hfirst : (scannerAt .stateESign stack).next d =
          (scannerAt .stateE0 stack, Op.scanContinue) := by
        simp [Scanner.next, scannerAt, stateESign, hd]
      rcases hs with hs | hs | hs <;> subst hs
      · have h1 : (scannerAt .stateE stack).next d =
            (scannerAt .stateE0 stack, Op.scanContinue) := by
          simp only [Scanner.next, scannerAt, stateE, stateESign]
          rw [if_neg (by omega), if_pos hd]
        rw [List.nil_append, scanBytes_cons_of d _ _ _ _ h1 (by simp)]
        exact hloop
      · have h1 : (scannerAt .stateE stack).next 43 =
            (scannerAt .stateESign stack, Op.scanContinue) := by
          simp [Scanner.next, scannerAt, stateE]
        rw [List.singleton_append, scanBytes_cons_of 43 _ _ _ _ h1 (by simp),
          scanBytes_cons_of d _ _ _ _ hfirst (by simp)]
        exact hloop
      · have h1 : (scannerAt .stateE stack).next 45 =
            (scannerAt .stateESign stack, Op.scanContinue) := by
          simp [Scanner.next, scannerAt, stateE]
        rw [List.singleton_append, scanBytes_cons_of 45 _ _ _ _ h1 (by simp),
          scanBytes_cons_of d _ _ _ _ hfirst (by simp)]
        exact hloop

/-- The scanner over the production `number`. -/
theorem scan_number (stack : List ParseState) (n : List Nat) (h : JNumber n) :
    ∃ q, NumEnd q ∧
      scanBytes (scannerAt .stateBeginValue stack) n = some (scannerAt q stack) := by
  cases h with
  | mk i f e hi hf he =>
    obtain ⟨q1, hq1, h1⟩ := scan_integer stack i hi
    obtain ⟨q2, hq2, h2⟩ := scan_fraction stack q1 hq1 f hf
    obtain ⟨q3, hq3, h3⟩ := scan_exponent stack q2 hq2 e he
    refine ⟨q3, hq3, ?_⟩
    rw [List.append_assoc, scanBytes_append_of _ _ _ _ h1, scanBytes_append_of _ _ _ _ h2]
    exact h3

/-- The scanner over the production `characters`. -/
theorem scan_chars (stack : List ParseState) (cs : List Nat) (h : Chars cs) :
    scanBytes (scannerAt .stateInString stack) cs = some (scannerAt .stateInString stack) := by
  induction h with
  | nil => rfl
  | plain c cs h1 h2 h3 _ ih =>
    have hstep : (scannerAt .stateInString stack).next c =
        (scannerAt .stateInString stack, Op.scanContinue) := by
      simp only [Scanner.next, scannerAt, stateInString]
      rw [if_neg h2, if_neg h3, if_neg (by omega)]
    rw [scanBytes_cons_of c _ _ _ _ hstep (by simp)]
    exact ih
  | escape e cs he _ ih =>
    have h1 : (scannerAt .stateInString stack).next 92 =
        (scannerAt .stateInStringEsc stack, Op.scanContinue) := by
      simp [Scanner.next, scannerAt, stateInString]
    have h2 : (scannerAt .stateInStringEsc stack).next e =
        (scannerAt .stateInString stack, Op.scanContinue) := by
      simp only [Scanner.next, scannerAt, stateInStringEsc]
      rw [if_pos (by omega)]
    rw [scanBytes_cons_of 92 _ _ _ _ h1 (by simp), scanBytes_cons_of e _ _ _ _ h2 (by simp)]
    exact ih
  | unicode x1 x2 x3 x4 cs a1 a2 a3 a4 _ ih =>
    have h1 : (scannerAt .stateInString stack).next 92 =
        (scannerAt .stateInStringEsc stack, Op.scanContinue) := by
      simp [Scanner.next, scannerAt, stateInString]
    have h2 : (scannerAt .stateInStringEsc stack).next 117 =
        (scannerAt .stateInStringEscU stack, Op.scanContinue) := by
      simp [Scanner.next, scannerAt, stateInStringEsc]
    have h3 : (scannerAt .stateInStringEscU stack).next x1 =
        (scannerAt .stateInStringEscU1 stack, Op.scanContinue) := by
      simp [Scanner.next, scannerAt, stateInStringEscHex, a1]
    have h4 : (scannerAt .stateInStringEscU1 stack).next x2 =
        (scannerAt .stateInStringEscU12 stack, Op.scanContinue) := by
      simp [Scanner.next, scannerAt, stateInStringEscHex, a2]
    have h5 : (scannerAt .stateInStringEscU12 stack).next x3 =
        (scannerAt .stateInStringEscU123 stack, Op.scanContinue) := by
      simp [Scanner.next, scannerAt, stateInStringEscHex, a3]
    have h6 : (scannerAt .stateInStringEscU123 stack).next x4 =
        (scannerAt .stateInString stack, Op.scanContinue) := by
      simp [Scanner.next, scannerAt, stateInStringEscHex, a4]
    rw [scanBytes_cons_of 92 _ _ _ _ h1 (by simp), scanBytes_cons_of 117 _ _ _ _ h2 (by simp),
      scanBytes_cons_of x1 _ _ _ _ h3 (by simp), scanBytes_cons_of x2 _ _ _ _ h4 (by simp),
      scanBytes_cons_of x3 _ _ _ _ h5 (by simp), scanBytes_cons_of x4 _ _ _ _ h6 (by simp)]
    exact ih

theorem begins_ws (stack : List ParseState) (sc : Scanner) (h : Begins stack sc)
    (w : List Nat) (hw : Ws w) : scanBytes sc w = some sc := by
  induction w with
  | nil => rfl
  | cons c cs ih =>
    have hc := hw c (List.mem_cons_self _ _)
    have hstep : sc.next c = (sc, Op.scanSkipSpace) := by
      rcases h with h | h <;> subst h <;>
        simp [Scanner.next, scannerAt, stateBeginValue, stateBeginValueOrEmpty, hc]
    rw [scanBytes_cons_of c cs _ _ _ hstep (by simp)]
    exact ih (fun x hx => hw x (List.mem_cons_of_mem _ hx))

theorem beginsKey_ws (stack : List ParseState) (sc : Scanner) (h : BeginsKey stack sc)
    (w : List Nat) (hw : Ws w) : scanBytes sc w = some sc := by
  induction w with
  | nil => rfl
  | cons c cs ih =>
    have hc := hw c (List.mem_cons_self _ _)
    have hstep : sc.next c = (sc, Op.scanSkipSpace) := by
      rcases h with h | h <;> subst h <;>
        simp [Scanner.next, scannerAt, stateBeginString, stateBeginStringOrEmpty, hc]
    rw [scanBytes_cons_of c cs _ _ _ hstep (by simp)]
    exact ih (fun x hx => hw x (List.mem_cons_of_mem _ hx))

/-- Before a value, a byte that is neither white space nor `]` is handled
by `stateBeginValue`. -/
theorem begins_scan (stack : List ParseState) (sc : Scanner) (h : Begins stack sc)
    (c : Nat) (cs : List Nat) (h1 : isSpace c = false) (h2 : c ≠ 93) :
    scanBytes sc (c :: cs) = scanBytes (scannerAt .stateBeginValue stack) (c :: cs) := by
  rcases h with h | h
  · rw [h]
  · subst h
    have : (scannerAt .stateBeginValueOrEmpty stack).next c =
        (scannerAt .stateBeginValue stack).next c := by
      simp only [Scanner.next, scannerAt, stateBeginValueOrEmpty, h1, Bool.false_eq_true,
        if_false, if_neg h2, stateBeginValue, pushParseState, Scanner.error]
    rw [scanBytes, scanBytes, this]

theorem ended_endValue (stack : List ParseState) :
    Ended stack (scannerAt .stateEndValue stack) :=
  ⟨rfl, fun _ _ => rfl⟩

theorem ended_num (stack : List ParseState) (q : Step) (hq : NumEnd q) :
    Ended stack (scannerAt q stack) := by
  refine ⟨rfl, ?_⟩
  intro c hc
  have h : ¬(48 ≤ c ∧ c ≤ 57) ∧ c ≠ 46 ∧ c ≠ 101 ∧ c ≠ 69 := by
    simp [isNumberByte, isDigit] at hc
    omega
  obtain ⟨h1, h2, h3, h4⟩ := h
  rcases hq with hq | hq | hq | hq <;> subst hq <;>
    simp [Scanner.next, scannerAt, state0, state1, stateDot0, stateE0, h1, h2, h3, h4,
      stateEndValue, stateEndTop, popParseState, Scanner.error]

theorem ended_pop (stack : List ParseState) (q : Step) (p : ParseState) :
    Ended stack (popParseState (scannerAt q (p :: stack))) := by
  cases stack with
  | nil =>
    refine ⟨rfl, ?_⟩
    intro c _
    simp [popParseState, Scanner.next, scannerAt, stateEndValue, stateEndTop]
  | cons p2 ps =>
    refine ⟨rfl, ?_⟩
    intro c _
    simp [popParseState, Scanner.next, scannerAt]

/-- Behind a value, white space leaves the scanner behind the value. -/
theorem ended_space (stack : List ParseState) (sc : Scanner) (h : Ended stack sc)
    (c : Nat) (hc : isSpace c = true) :
    ∃ sc2 op, sc.next c = (sc2, op) ∧ op ≠ Op.scanError ∧ Ended stack sc2 := by
  have hnb := (space_not_number c hc).2.2.2
  rw [h.2 c hnb]
  cases stack with
  | nil =>
    refine ⟨{ step := .stateEndTop, endTop := true, parseState := [], err := false },
      Op.scanEnd, by simp [Scanner.next, scannerAt, stateEndValue, stateEndTop, hc],
      by simp, rfl, ?_⟩
    intro c2 _
    simp [Scanner.next, scannerAt, stateEndValue, stateEndTop]
  | cons p ps =>
    exact ⟨scannerAt .stateEndValue (p :: ps), Op.scanSkipSpace,
      by simp [Scanner.next, scannerAt, stateEndValue, hc], by simp, ended_endValue _⟩

theorem ended_ws (stack : List ParseState) (w : List Nat) (hw : Ws w) :
    ∀ sc, Ended stack sc → ∃ sc2, scanBytes sc w = some sc2 ∧ Ended stack sc2 := by
  induction w with
  | nil => intro sc h; exact ⟨sc, rfl, h⟩
  | cons c cs ih =>
    intro sc h
    obtain ⟨sc1, op, hstep, hop, h1⟩ := ended_space stack sc h c (hw c (List.mem_cons_self _ _))
    obtain ⟨sc2, hrun, h2⟩ := ih (fun x hx => hw x (List.mem_cons_of_mem _ hx)) sc1 h1
    exact ⟨sc2, by rw [scanBytes_cons_of c cs _ _ _ hstep hop]; exact hrun, h2⟩

/-- Behind the top-level value the input may end. -/
theorem ended_eof (sc : Scanner) (h : Ended [] sc) : sc.eof ≠ Op.scanError := by
  unfold Scanner.eof
  rw [h.1, h.2 32 (by decide)]
  simp [Scanner.next, scannerAt, stateEndValue, stateEndTop, isSpace]

/-- One step from behind a value, on a byte that cannot continue a number. -/
theorem ended_cons (stack : List ParseState) (sc : Scanner) (h : Ended stack sc)
    (c : Nat) (cs : List Nat) (hc : isNumberByte c = false) (sc2 : Scanner) (op : Op)
    (hstep : (scannerAt .stateEndValue stack).next c = (sc2, op)) (hop : op ≠ Op.scanError) :
    scanBytes sc (c :: cs) = scanBytes sc2 cs := by
  rw [← h.2 c hc] at hstep
  exact scanBytes_cons_of c cs _ _ _ hstep hop

/-- The scanner over the production `string`. -/
theorem scan_string (stack : List ParseState) (q : Step)
    (hq : q = .stateBeginValue ∨ q = .stateBeginString) (s : List Nat) (h : JString s) :
    scanBytes (scannerAt q stack) s = some (scannerAt .stateEndValue stack) := by
  cases h with
  | mk cs hcs =>
    have h1 : (scannerAt q stack).next 34 = (scannerAt .stateInString stack, Op.scanBeginLiteral) := by
      rcases hq with hq | hq <;> subst hq <;>
        simp [Scanner.next, scannerAt, stateBeginValue, stateBeginString, isSpace]
    have h2 : (scannerAt .stateInString stack).next 34 =
        (scannerAt .stateEndValue stack, Op.scanContinue) := by
      simp [Scanner.next, scannerAt, stateInString]
    rw [scanBytes_cons_of 34 _ _ _ _ h1 (by simp), scanBytes_append_of _ _ _ _ (scan_chars stack cs hcs),
      scanBytes_cons_of 34 _ _ _ _ h2 (by simp)]
    rfl

/-- The scanner accepts what the grammar derives. -/
theorem complete (Q : List Nat → Prop) (sym : Sym) (d : Nat) (x : List Nat)
    (h : Derives Q sym d x) : Complete sym d x := by
  induction h with
  | null d =>
    intro sc stack hb _
    refine ⟨scannerAt .stateEndValue stack, ?_, ended_endValue stack⟩
    rw [begins_scan stack sc hb _ _ (by decide) (by decide)]
    simp [scanBytes, Scanner.next, scannerAt, stateBeginValue, stateWord, isSpace]
  | true d =>
    intro sc stack hb _
    refine ⟨scannerAt .stateEndValue stack, ?_, ended_endValue stack⟩
    rw [begins_scan stack sc hb _ _ (by decide) (by decide)]
    simp [scanBytes, Scanner.next, scannerAt, stateBeginValue, stateWord, isSpace]
  | false d =>
    intro sc stack hb _
    refine ⟨scannerAt .stateEndValue stack, ?_, ended_endValue stack⟩
    rw [begins_scan stack sc hb _ _ (by decide) (by decide)]
    simp [scanBytes, Scanner.next, scannerAt, stateBeginValue, stateWord, isSpace]
  | number d n hn _ =>
    intro sc stack hb _
    obtain ⟨q, hq, hrun⟩ := scan_number stack n hn
    obtain ⟨c0, rest, hn0, hc0, _⟩ := JNumber_bytes n hn
    refine ⟨scannerAt q stack, ?_, ended_num stack q hq⟩
    rw [← hrun, hn0]
    apply begins_scan stack sc hb
    · rcases hc0 with h | h
      · rw [h]; decide
      · simp [isDigit] at h
        simp [isSpace]
        omega
    · rcases hc0 with h | h
      · omega
      · simp [isDigit] at h
        omega
  | string d s hs =>
    intro sc stack hb _
    refine ⟨scannerAt .stateEndValue stack, ?_, ended_endValue stack⟩
    rw [← scan_string stack _ (Or.inl rfl) s hs]
    cases hs with
    | mk cs hcs => exact begins_scan stack sc hb _ _ (by decide) (by decide)
  | emptyArray d w hw =>
    intro sc stack hb hd
    refine ⟨_, ?_, ended_pop stack .stateBeginValueOrEmpty .parseArrayValue⟩
    have h1 : (scannerAt .stateBeginValue stack).next 91 =
        (scannerAt .stateBeginValueOrEmpty (.parseArrayValue :: stack), Op.scanBeginArray) := by
      simp only [Scanner.next, scannerAt, stateBeginValue, pushParseState, List.length_cons]
      simp [isSpace]
      omega
    have h2 : (scannerAt .stateBeginValueOrEmpty (.parseArrayValue :: stack)).next 93 =
        (popParseState (scannerAt .stateBeginValueOrEmpty (.parseArrayValue :: stack)),
          Op.scanEndArray) := by
      simp [Scanner.next, scannerAt, stateBeginValueOrEmpty, stateEndValue, isSpace]
    rw [begins_scan stack sc hb _ _ (by decide) (by decide),
      scanBytes_cons_of 91 _ _ _ _ h1 (by simp),
      scanBytes_append_of _ _ _ _ (begins_ws _ _ (Or.inr rfl) w hw),
      scanBytes_cons_of 93 _ _ _ _ h2 (by simp)]
    rfl
  | array d es _ ih =>
    intro sc stack hb hd
    have h1 : (scannerAt .stateBeginValue stack).next 91 =
        (scannerAt .stateBeginValueOrEmpty (.parseArrayValue :: stack), Op.scanBeginArray) := by
      simp only [Scanner.next, scannerAt, stateBeginValue, pushParseState, List.length_cons]
      simp [isSpace]
      omega
    obtain ⟨sc1, hrun, hend⟩ := ih (scannerAt .stateBeginValueOrEmpty (.parseArrayValue :: stack))
      stack (Or.inr rfl) (by omega)
    have h2 : (scannerAt .stateEndValue (.parseArrayValue :: stack)).next 93 =
        (popParseState (scannerAt .stateEndValue (.parseArrayValue :: stack)),
          Op.scanEndArray) := by
      simp [Scanner.next, scannerAt, stateEndValue, isSpace]
    refine ⟨_, ?_, ended_pop stack .stateEndValue .parseArrayValue⟩
    rw [begins_scan stack sc hb _ _ (by decide) (by decide),
      scanBytes_cons_of 91 _ _ _ _ h1 (by simp),
      scanBytes_append_of _ _ _ _ hrun,
      ended_cons _ sc1 hend 93 [] (by decide) _ _ h2 (by simp)]
    rfl
  | emptyObject d w hw =>
    intro sc stack hb hd
    refine ⟨_, ?_, ended_pop stack .stateBeginStringOrEmpty .parseObjectValue⟩
    have h1 : (scannerAt .stateBeginValue stack).next 123 =
        (scannerAt .stateBeginStringOrEmpty (.parseObjectKey :: stack), Op.scanBeginObject) := by
      simp only [Scanner.next, scannerAt, stateBeginValue, pushParseState, List.length_cons]
      simp [isSpace]
      omega
    have h2 : (scannerAt .stateBeginStringOrEmpty (.parseObjectKey :: stack)).next 125 =
        (popParseState (scannerAt .stateBeginStringOrEmpty (.parseObjectValue :: stack)),
          Op.scanEndObject) := by
      simp [Scanner.next, scannerAt, stateBeginStringOrEmpty, stateEndValue, isSpace]
    rw [begins_scan stack sc hb _ _ (by decide) (by decide),
      scanBytes_cons_of 123 _ _ _ _ h1 (by simp),
      scanBytes_append_of _ _ _ _ (beginsKey_ws _ _ (Or.inr rfl) w hw),
      scanBytes_cons_of 125 _ _ _ _ h2 (by simp)]
    rfl
  | object d ms _ ih =>
    intro sc stack hb hd
    have h1 : (scannerAt .stateBeginValue stack).next 123 =
        (scannerAt .stateBeginStringOrEmpty (.parseObjectKey :: stack), Op.scanBeginObject) := by
      simp only [Scanner.next, scannerAt, stateBeginValue, pushParseState, List.length_cons]
      simp [isSpace]
      omega
    obtain ⟨sc1, hrun, hend⟩ := ih (scannerAt .stateBeginStringOrEmpty (.parseObjectKey :: stack))
      stack (Or.inr rfl) (by omega)
    have h2 : (scannerAt .stateEndValue (.parseObjectValue :: stack)).next 125 =
        (popParseState (scannerAt .stateEndValue (.parseObjectValue :: stack)),
          Op.scanEndObject) := by
      simp [Scanner.next, scannerAt, stateEndValue, isSpace]
    refine ⟨_, ?_, ended_pop stack .stateEndValue .parseObjectValue⟩
    rw [begins_scan stack sc hb _ _ (by decide) (by decide),
      scanBytes_cons_of 123 _ _ _ _ h1 (by simp),
      scanBytes_append_of _ _ _ _ hrun,
      ended_cons _ sc1 hend 125 [] (by decide) _ _ h2 (by simp)]
    rfl
  | element d w1 v w2 hw1 _ hw2 ih =>
    intro sc stack hb hd
    obtain ⟨sc1, hrun, hend⟩ := ih sc stack hb hd
    obtain ⟨sc2, hrun2, hend2⟩ := ended_ws stack w2 hw2 sc1 hend
    refine ⟨sc2, ?_, hend2⟩
    rw [List.append_assoc, scanBytes_append_of _ _ _ _ (begins_ws stack sc hb w1 hw1),
      scanBytes_append_of _ _ _ _ hrun]
    exact hrun2
  | elementsOne d e _ ih =>
    intro sc stack hb hd
    exact ih sc _ hb (by simp only [List.length_cons]; omega)
  | elementsMore d e es _ _ ih1 ih2 =>
    intro sc stack hb hd
    obtain ⟨sc1, hrun, hend⟩ := ih1 sc _ hb (by simp only [List.length_cons]; omega)
    have h1 : (scannerAt .stateEndValue (.parseArrayValue :: stack)).next 44 =
        (scannerAt .stateBeginValue (.parseArrayValue :: stack), Op.scanArrayValue) := by
      simp [Scanner.next, scannerAt, stateEndValue, isSpace]
    obtain ⟨sc2, hrun2, hend2⟩ := ih2 (scannerAt .stateBeginValue (.parseArrayValue :: stack))
      stack (Or.inl rfl) hd
    refine ⟨sc2, ?_, hend2⟩
    rw [scanBytes_append_of _ _ _ _ hrun, ended_cons _ sc1 hend 44 _ (by decide) _ _ h1 (by simp)]
    exact hrun2
  | member d w1 s w2 e hw1 hs hw2 _ ih =>
    intro sc stack hb hd
    have hkey : scanBytes sc s = some (scannerAt .stateEndValue (.parseObjectKey :: stack)) := by
      rw [← scan_string (.parseObjectKey :: stack) _ (Or.inr rfl) s hs]
      rcases hb with hb | hb
      · rw [hb]
      · subst hb
        cases hs with
        | mk cs hcs =>
          rw [scanBytes, scanBytes]
          simp [Scanner.next, scannerAt, stateBeginStringOrEmpty, stateBeginString, isSpace]
    obtain ⟨sc1, hrun1, hend1⟩ := ended_ws _ w2 hw2 _ (ended_endValue (.parseObjectKey :: stack))
    have h1 : (scannerAt .stateEndValue (.parseObjectKey :: stack)).next 58 =
        (scannerAt .stateBeginValue (.parseObjectValue :: stack), Op.scanObjectKey) := by
      simp [Scanner.next, scannerAt, stateEndValue, isSpace]
    obtain ⟨sc2, hrun2, hend2⟩ := ih (scannerAt .stateBeginValue (.parseObjectValue :: stack))
      (.parseObjectValue :: stack) (Or.inl rfl) (by simp only [List.length_cons]; omega)
    refine ⟨sc2, ?_, hend2⟩
    simp only [List.append_assoc]
    rw [scanBytes_append_of _ _ _ _ (beginsKey_ws stack sc hb w1 hw1),
      scanBytes_append_of _ _ _ _ hkey, scanBytes_append_of _ _ _ _ hrun1,
      ended_cons _ sc1 hend1 58 _ (by decide) _ _ h1 (by simp)]
    exact hrun2
  | membersOne d m _ ih => exact ih
  | membersMore d m ms _ _ ih1 ih2 =>
    intro sc stack hb hd
    obtain ⟨sc1, hrun, hend⟩ := ih1 sc stack hb hd
    have h1 : (scannerAt .stateEndValue (.parseObjectValue :: stack)).next 44 =
        (scannerAt .stateBeginString (.parseObjectKey :: stack), Op.scanObjectValue) := by
      simp [Scanner.next, scannerAt, stateEndValue, isSpace]
    obtain ⟨sc2, hrun2, hend2⟩ := ih2 (scannerAt .stateBeginString (.parseObjectKey :: stack))
      stack (Or.inl rfl) hd
    refine ⟨sc2, ?_, hend2⟩
    rw [scanBytes_append_of _ _ _ _ hrun, ended_cons _ sc1 hend 44 _ (by decide) _ _ h1 (by simp)]
    exact hrun2

/-- The scanner accepts every JSON text nested at most `maxNestingDepth` deep. -/
theorem checkValid_of_json (Q : List Nat → Prop) (s : List Nat)
    (h : JsonText Q maxNestingDepth s) : checkValid s = true := by
  obtain ⟨sc2, hrun, hend⟩ := complete Q .element maxNestingDepth s h Scanner.reset []
    (Or.inl rfl) (by simp)
  unfold checkValid
  rw [hrun]
  simpa using ended_eof sc2 hend

/-! ## Properties: the grammar derives what the scanner accepts -/

theorem room_cons (p : ParseState) (st : List ParseState)
    (h : (p :: st).length ≤ maxNestingDepth) : room st = room (p :: st) + 1 := by
  unfold room
  simp only [List.length_cons] at h ⊢
  omega

theorem cont_space (c : Nat) (hc : isSpace c = true) :
    ∀ (st : List ParseState) (w : List Nat), Cont st w → Cont st (c :: w) := by
  intro st w h
  cases st with
  | nil => exact Ws_cons c w hc h
  | cons p st =>
    cases p with
    | parseArrayValue =>
      obtain ⟨t, r, ⟨w0, hw0, ht⟩, hw, hr⟩ := h
      refine ⟨c :: t, r, ⟨c :: w0, Ws_cons c w0 hc hw0, ?_⟩, by rw [hw]; rfl, hr⟩
      rcases ht with ht | ⟨es, hes, ht⟩
      · exact Or.inl (by rw [ht]; rfl)
      · exact Or.inr ⟨es, hes, by rw [ht]; rfl⟩
    | parseObjectValue =>
      obtain ⟨t, r, ⟨w0, hw0, ht⟩, hw, hr⟩ := h
      refine ⟨c :: t, r, ⟨c :: w0, Ws_cons c w0 hc hw0, ?_⟩, by rw [hw]; rfl, hr⟩
      rcases ht with ht | ⟨ms, hms, ht⟩
      · exact Or.inl (by rw [ht]; rfl)
      · exact Or.inr ⟨ms, hms, by rw [ht]; rfl⟩
    | parseObjectKey =>
      obtain ⟨w2, w3, v, t, r, hw2, hw3, hv, ht, hw, hr⟩ := h
      exact ⟨c :: w2, w3, v, t, r, Ws_cons c w2 hc hw2, hw3, hv, ht, by rw [hw]; rfl, hr⟩

/-- A value and what follows it inside an array make up the elements of
the array. -/
theorem elements_assemble (d : Nat) (w1 v t : List Nat) (hw1 : Ws w1)
    (hv : Derives (fun _ => True) .value d v) (ht : ArrayTail d t) :
    ∃ es, Derives (fun _ => True) .elements d es ∧ w1 ++ v ++ t = es ++ [93] := by
  obtain ⟨w2, hw2, ht⟩ := ht
  rcases ht with ht | ⟨es, hes, ht⟩
  · exact ⟨w1 ++ v ++ w2, Derives.elementsOne d _ (Derives.element d w1 v w2 hw1 hv hw2),
      by rw [ht]; simp⟩
  · exact ⟨(w1 ++ v ++ w2) ++ 44 :: es,
      Derives.elementsMore d _ es (Derives.element d w1 v w2 hw1 hv hw2) hes,
      by rw [ht]; simp⟩

/-- A key, a colon, a value and what follows it inside an object make up
the members of the object. -/
theorem members_assemble (d : Nat) (w1 s w2 w3 v t : List Nat) (hw1 : Ws w1) (hs : JString s)
    (hw2 : Ws w2) (hw3 : Ws w3) (hv : Derives (fun _ => True) .value d v)
    (ht : ObjectTail d t) :
    ∃ ms, Derives (fun _ => True) .members d ms ∧
      w1 ++ s ++ (w2 ++ 58 :: (w3 ++ v ++ t)) = ms ++ [125] := by
  obtain ⟨w4, hw4, ht⟩ := ht
  rcases ht with ht | ⟨ms, hms, ht⟩
  · exact ⟨w1 ++ s ++ w2 ++ 58 :: (w3 ++ v ++ w4),
      Derives.membersOne d _
        (Derives.member d w1 s w2 _ hw1 hs hw2 (Derives.element d w3 v w4 hw3 hv hw4)),
      by rw [ht]; simp⟩
  · exact ⟨(w1 ++ s ++ w2 ++ 58 :: (w3 ++ v ++ w4)) ++ 44 :: ms,
      Derives.membersMore d _ ms
        (Derives.member d w1 s w2 _ hw1 hs hw2 (Derives.element d w3 v w4 hw3 hv hw4)) hms,
      by rw [ht]; simp⟩

/-- What the scanner accepts behind the closing bracket or brace. -/
theorem lang_pop (q : Step) (p : ParseState) (st : List ParseState) (et err : Bool)
    (w : List Nat)
    (h : Lang (popParseState
        { step := q, endTop := et, parseState := p :: st, err := err }).step
      (popParseState
        { step := q, endTop := et, parseState := p :: st, err := err }).parseState w) :
    Cont st w := by
  cases st with
  | nil => simpa [popParseState, Lang, Cont] using h
  | cons p2 st2 => simpa [popParseState, Lang] using h

/-- One step of `stateEndValue`, backwards: from what the scanner accepts
after the step to what follows the value. -/
theorem back_endValue (q : Step) (et err : Bool) (st : List ParseState) (c : Nat)
    (w : List Nat) (hlen : st.length ≤ maxNestingDepth)
    (hop : (stateEndValue { step := q, endTop := et, parseState := st, err := err } c).2
      ≠ Op.scanError)
    (h : Lang (stateEndValue { step := q, endTop := et, parseState := st, err := err } c).1.step
      (stateEndValue { step := q, endTop := et, parseState := st, err := err } c).1.parseState w) :
    Cont st (c :: w) := by
  cases st with
  | nil =>
    by_cases hc : isSpace c = true
    · simp only [stateEndValue, stateEndTop, hc, Bool.not_true, Bool.false_eq_true, if_false,
        Lang] at h
      exact Ws_cons c w hc h
    · simp [stateEndValue, stateEndTop, hc, Scanner.error, Lang] at h
  | cons p st =>
    by_cases hc : isSpace c = true
    · simp only [stateEndValue, hc, if_true, Lang] at h
      exact cont_space c hc _ _ h
    · cases p with
      | parseObjectKey =>
        by_cases h58 : c = 58
        · subst h58
          simp only [stateEndValue, hc, Bool.false_eq_true, if_false, if_true, Lang] at h
          obtain ⟨w1, v, r, hw1, hv, hw, t, r2, ht, hr, hr2⟩ := h
          exact ⟨[], w1, v, t, r2, Ws_nil, hw1, hv, ht, by rw [hw, hr]; simp, hr2⟩
        · simp [stateEndValue, hc, h58, Scanner.error] at hop
      | parseObjectValue =>
        by_cases h44 : c = 44
        · subst h44
          simp only [stateEndValue, hc, Bool.false_eq_true, if_false, if_true, Lang] at h
          obtain ⟨w1, s, r, hw1, hs, hw, w2, w3, v, t, r2, hw2, hw3, hv, ht, hr, hr2⟩ := h
          obtain ⟨ms, hms, hassemble⟩ := members_assemble _ w1 s w2 w3 v t hw1 hs hw2 hw3 hv ht
          refine ⟨44 :: (ms ++ [125]), r2, ⟨[], Ws_nil, Or.inr ⟨ms, hms, rfl⟩⟩, ?_, hr2⟩
          rw [hw, hr, ← hassemble]
          simp
        · by_cases h125 : c = 125
          · subst h125
            simp only [stateEndValue, hc, Bool.false_eq_true, if_false, if_true] at h
            rw [if_neg (by decide)] at h
            have h2 := lang_pop _ _ _ _ _ _ h
            exact ⟨[125], w, ⟨[], Ws_nil, Or.inl rfl⟩, rfl, h2⟩
          · simp [stateEndValue, hc, h44, h125, Scanner.error] at hop
      | parseArrayValue =>
        by_cases h44 : c = 44
        · subst h44
          simp only [stateEndValue, hc, Bool.false_eq_true, if_false, if_true, Lang] at h
          obtain ⟨w1, v, r, hw1, hv, hw, t, r2, ht, hr, hr2⟩ := h
          obtain ⟨es, hes, hassemble⟩ := elements_assemble _ w1 v t hw1 hv ht
          refine ⟨44 :: (es ++ [93]), r2, ⟨[], Ws_nil, Or.inr ⟨es, hes, rfl⟩⟩, ?_, hr2⟩
          rw [hw, hr, ← hassemble]
          simp
        · by_cases h93 : c = 93
          · subst h93
            simp only [stateEndValue, hc, Bool.false_eq_true, if_false, if_true] at h
            rw [if_neg (by decide)] at h
            have h2 := lang_pop _ _ _ _ _ _ h
            exact ⟨[93], w, ⟨[], Ws_nil, Or.inl rfl⟩, rfl, h2⟩
          · simp [stateEndValue, hc, h44, h93, Scanner.error] at hop

theorem AllDigits_nil : AllDigits [] := by
  intro c hc
  simp at hc

theorem AllDigits_cons (d : Nat) (ds : List Nat) (hd : isDigit d = true) (h : AllDigits ds) :
    AllDigits (d :: ds) := by
  intro c hc
  rcases List.mem_cons.1 hc with h1 | h1
  · rw [h1]; exact hd
  · exact h c h1

theorem Digits_cons (d : Nat) (ds : List Nat) (hd : isDigit d = true) (h : AllDigits ds) :
    Digits (d :: ds) :=
  ⟨by simp, AllDigits_cons d ds hd h⟩

theorem rest_numEnd (q : Step) (hq : NumEnd q) : Rest q [] := by
  rcases hq with h | h | h | h <;> subst h
  · exact ⟨[], [], JFraction.none, JExponent.none, rfl⟩
  · exact ⟨[], [], [], AllDigits_nil, JFraction.none, JExponent.none, rfl⟩
  · exact ⟨[], [], AllDigits_nil, JExponent.none, rfl⟩
  · exact AllDigits_nil

theorem rest_state1_digit (d : Nat) (t : List Nat) (hd : isDigit d = true)
    (h : Rest .state1 t) : Rest .state1 (d :: t) := by
  obtain ⟨ds, f, e, hds, hf, he, ht⟩ := h
  exact ⟨d :: ds, f, e, AllDigits_cons d ds hd hds, hf, he, by rw [ht]; rfl⟩

theorem rest_dot (t : List Nat) (h : Rest .stateDot t) :
    Rest .state0 (46 :: t) ∧ Rest .state1 (46 :: t) := by
  obtain ⟨ds, e, hds, he, ht⟩ := h
  exact ⟨⟨46 :: ds, e, JFraction.some ds hds, he, by rw [ht]; rfl⟩,
    ⟨[], 46 :: ds, e, AllDigits_nil, JFraction.some ds hds, he, by rw [ht]; rfl⟩⟩

theorem rest_e (c : Nat) (t : List Nat) (hc : c = 69 ∨ c = 101) (h : Rest .stateE t) :
    Rest .state0 (c :: t) ∧ Rest .state1 (c :: t) ∧ Rest .stateDot0 (c :: t) := by
  obtain ⟨sign, ds, hs, hds, ht⟩ := h
  have he : JExponent (c :: t) := by
    rw [ht]
    exact JExponent.some c sign ds hc hs hds
  exact ⟨⟨[], c :: t, JFraction.none, he, rfl⟩,
    ⟨[], [], c :: t, AllDigits_nil, JFraction.none, he, rfl⟩,
    ⟨[], c :: t, AllDigits_nil, he, rfl⟩⟩

theorem rest_dot_digit (d : Nat) (t : List Nat) (hd : isDigit d = true)
    (h : Rest .stateDot0 t) : Rest .stateDot (d :: t) ∧ Rest .stateDot0 (d :: t) := by
  obtain ⟨ds, e, hds, he, ht⟩ := h
  exact ⟨⟨d :: ds, e, Digits_cons d ds hd hds, he, by rw [ht]; rfl⟩,
    ⟨d :: ds, e, AllDigits_cons d ds hd hds, he, by rw [ht]; rfl⟩⟩

theorem rest_e_sign (c : Nat) (t : List Nat) (hc : c = 43 ∨ c = 45) (h : Rest .stateESign t) :
    Rest .stateE (c :: t) := by
  refine ⟨[c], t, ?_, h, rfl⟩
  rcases hc with hc | hc
  · exact Or.inr (Or.inl (by rw [hc]))
  · exact Or.inr (Or.inr (by rw [hc]))

theorem rest_e_digit (d : Nat) (t : List Nat) (hd : isDigit d = true) (h : Rest .stateE0 t) :
    Rest .stateE (d :: t) ∧ Rest .stateESign (d :: t) ∧ Rest .stateE0 (d :: t) :=
  ⟨⟨[], d :: t, Or.inl rfl, Digits_cons d t hd h, rfl⟩, Digits_cons d t hd h,
    AllDigits_cons d t hd h⟩

theorem num_state0 (t : List Nat) (h : Rest .state0 t) :
    JNumber (48 :: t) ∧ JNumber (45 :: 48 :: t) := by
  obtain ⟨f, e, hf, he, ht⟩ := h
  constructor
  · have := JNumber.mk [48] f e (JInteger.digit 48 (by decide)) hf he
    rw [ht]
    simpa using this
  · have := JNumber.mk [45, 48] f e (JInteger.negDigit 48 (by decide)) hf he
    rw [ht]
    simpa using this

theorem num_state1 (d : Nat) (t : List Nat) (hd : OneNine d) (h : Rest .state1 t) :
    JNumber (d :: t) ∧ JNumber (45 :: d :: t) := by
  obtain ⟨ds, f, e, hds, hf, he, ht⟩ := h
  cases ds with
  | nil =>
    constructor
    · have := JNumber.mk [d] f e (JInteger.digit d (oneNine_digit d hd)) hf he
      rw [ht]
      simpa using this
    · have := JNumber.mk [45, d] f e (JInteger.negDigit d (oneNine_digit d hd)) hf he
      rw [ht]
      simpa using this
  | cons d2 ds =>
    constructor
    · have := JNumber.mk (d :: d2 :: ds) f e (JInteger.digits d _ hd ⟨by simp, hds⟩) hf he
      rw [ht]
      simpa using this
    · have := JNumber.mk (45 :: d :: d2 :: ds) f e (JInteger.negDigits d _ hd ⟨by simp, hds⟩) hf he
      rw [ht]
      simpa using this

/-- Behind a number that may end here, what follows the value. -/
theorem lang_numEnd (q : Step) (hq : NumEnd q) (st : List ParseState) (w : List Nat)
    (h : Cont st w) : Lang q st w := by
  have hr := rest_numEnd q hq
  rcases hq with h1 | h1 | h1 | h1 <;> subst h1 <;> exact ⟨[], w, hr, rfl, h⟩

/-- One step inside `true`, `false` or `null`, backwards. -/
theorem back_word (q : Step) (et err : Bool) (st : List ParseState) (c : Nat) (w : List Nat)
    (hq : q = .stateT ∨ q = .stateTr ∨ q = .stateTru ∨ q = .stateF ∨ q = .stateFa ∨
      q = .stateFal ∨ q = .stateFals ∨ q = .stateN ∨ q = .stateNu ∨ q = .stateNul)
    (hop : (Scanner.next { step := q, endTop := et, parseState := st, err := err } c).2
      ≠ Op.scanError)
    (h : Lang (Scanner.next { step := q, endTop := et, parseState := st, err := err } c).1.step
      (Scanner.next { step := q, endTop := et, parseState := st, err := err } c).1.parseState w) :
    Lang q st (c :: w) := by
  rcases hq with hq | hq | hq | hq | hq | hq | hq | hq | hq | hq <;> subst hq <;>
    simp only [Scanner.next, stateWord] at h hop <;>
    split_ifs at h hop with hc <;>
    first
      | (exfalso; exact hop rfl)
      | (subst hc
         simp only [Lang, Rest] at h ⊢
         first
           | (obtain ⟨t, r, ht, hw, hr⟩ := h
              exact ⟨_, r, rfl, by rw [hw, ht]; rfl, hr⟩)
           | exact ⟨_, w, rfl, rfl, h⟩)

/-- One step inside a string, backwards. -/
theorem back_string (q : Step) (et err : Bool) (st : List ParseState) (c : Nat) (w : List Nat)
    (hq : q = .stateInString ∨ q = .stateInStringEsc ∨ q = .stateInStringEscU ∨
      q = .stateInStringEscU1 ∨ q = .stateInStringEscU12 ∨ q = .stateInStringEscU123)
    (hop : (Scanner.next { step := q, endTop := et, parseState := st, err := err } c).2
      ≠ Op.scanError)
    (h : Lang (Scanner.next { step := q, endTop := et, parseState := st, err := err } c).1.step
      (Scanner.next { step := q, endTop := et, parseState := st, err := err } c).1.parseState w) :
    Lang q st (c :: w) := by
  rcases hq with hq | hq | hq | hq | hq | hq <;> subst hq
  · simp only [Scanner.next, stateInString] at h hop
    split_ifs at h hop with h1 h2 h3
    · subst h1
      exact ⟨[34], w, ⟨[], Chars.nil, rfl⟩, rfl, h⟩
    · subst h2
      obtain ⟨t, r, ⟨cs, hcs, ht⟩, hw, hr⟩ := h
      exact ⟨92 :: t, r, ⟨92 :: cs, hcs, by rw [ht]; rfl⟩, by rw [hw]; rfl, hr⟩
    · exact absurd rfl hop
    · obtain ⟨t, r, ⟨cs, hcs, ht⟩, hw, hr⟩ := h
      exact ⟨c :: t, r, ⟨c :: cs, Chars.plain c cs (by omega) h1 h2 hcs, by rw [ht]; rfl⟩,
        by rw [hw]; rfl, hr⟩
  · simp only [Scanner.next, stateInStringEsc] at h hop
    split_ifs at h hop with h1 h2
    · obtain ⟨t, r, ⟨cs, hcs, ht⟩, hw, hr⟩ := h
      exact ⟨c :: t, r, ⟨c :: cs, Chars.escape c cs (by omega) hcs, by rw [ht]; rfl⟩,
        by rw [hw]; rfl, hr⟩
    · subst h2
      obtain ⟨t, r, ⟨cs, hcs, ht⟩, hw, hr⟩ := h
      exact ⟨117 :: t, r, ⟨117 :: cs, hcs, by rw [ht]; rfl⟩, by rw [hw]; rfl, hr⟩
    · exact absurd rfl hop
  · simp only [Scanner.next, stateInStringEscHex] at h hop
    split_ifs at h hop with h1
    · obtain ⟨t, r, ⟨cs, hcs, ht⟩, hw, hr⟩ := h
      exact ⟨c :: t, r, ⟨c :: cs, hcs c h1, by rw [ht]; rfl⟩, by rw [hw]; rfl, hr⟩
    · exact absurd rfl hop
  · simp only [Scanner.next, stateInStringEscHex] at h hop
    split_ifs at h hop with h1
    · obtain ⟨t, r, ⟨cs, hcs, ht⟩, hw, hr⟩ := h
      exact ⟨c :: t, r, ⟨c :: cs, fun x1 a1 => hcs x1 c a1 h1, by rw [ht]; rfl⟩,
        by rw [hw]; rfl, hr⟩
    · exact absurd rfl hop
  · simp only [Scanner.next, stateInStringEscHex] at h hop
    split_ifs at h hop with h1
    · obtain ⟨t, r, ⟨cs, hcs, ht⟩, hw, hr⟩ := h
      exact ⟨c :: t, r, ⟨c :: cs, fun x1 x2 a1 a2 => hcs x1 x2 c a1 a2 h1, by rw [ht]; rfl⟩,
        by rw [hw]; rfl, hr⟩
    · exact absurd rfl hop
  · simp only [Scanner.next, stateInStringEscHex] at h hop
    split_ifs at h hop with h1
    · obtain ⟨t, r, ⟨cs, hcs, ht⟩, hw, hr⟩ := h
      exact ⟨c :: t, r,
        ⟨c :: cs, fun x1 x2 x3 a1 a2 a3 => Chars.unicode x1 x2 x3 c cs a1 a2 a3 h1 hcs,
          by rw [ht]; rfl⟩,
        by rw [hw]; rfl, hr⟩
    · exact absurd rfl hop

theorem isDigit_of (c : Nat) (h : 48 ≤ c ∧ c ≤ 57) : isDigit c = true := by
  simpa [isDigit] using h

/-- One step inside a number, backwards. -/
theorem back_number (q : Step) (et err : Bool) (st : List ParseState) (c : Nat) (w : List Nat)
    (hlen : st.length ≤ maxNestingDepth)
    (hq : q = .stateNeg ∨ q = .state0 ∨ q = .state1 ∨ q = .stateDot ∨ q = .stateDot0 ∨
      q = .stateE ∨ q = .stateESign ∨ q = .stateE0)
    (hop : (Scanner.next { step := q, endTop := et, parseState := st, err := err } c).2
      ≠ Op.scanError)
    (h : Lang (Scanner.next { step := q, endTop := et, parseState := st, err := err } c).1.step
      (Scanner.next { step := q, endTop := et, parseState := st, err := err } c).1.parseState w) :
    Lang q st (c :: w) := by
  rcases hq with hq | hq | hq | hq | hq | hq | hq | hq <;> subst hq
  · -- stateNeg
    simp only [Scanner.next, stateNeg] at h hop
    split_ifs at h hop with h1 h2
    · subst h1
      obtain ⟨t, r, ht, hw, hr⟩ := h
      exact ⟨48 :: t, r, (num_state0 t ht).2, by rw [hw]; rfl, hr⟩
    · obtain ⟨t, r, ht, hw, hr⟩ := h
      exact ⟨c :: t, r, (num_state1 c t h2 ht).2, by rw [hw]; rfl, hr⟩
    · exact absurd rfl hop
  · -- state0
    simp only [Scanner.next, state0] at h hop
    split_ifs at h hop with h1 h2
    · subst h1
      obtain ⟨t, r, ht, hw, hr⟩ := h
      exact ⟨46 :: t, r, (rest_dot t ht).1, by rw [hw]; rfl, hr⟩
    · obtain ⟨t, r, ht, hw, hr⟩ := h
      exact ⟨c :: t, r, (rest_e c t (by omega) ht).1, by rw [hw]; rfl, hr⟩
    · exact lang_numEnd _ (Or.inl rfl) st _ (back_endValue _ _ _ _ _ _ hlen hop h)
  · -- state1
    simp only [Scanner.next, state1, state0] at h hop
    split_ifs at h hop with h1 h2 h3
    · obtain ⟨t, r, ht, hw, hr⟩ := h
      exact ⟨c :: t, r, rest_state1_digit c t (isDigit_of c h1) ht, by rw [hw]; rfl, hr⟩
    · subst h2
      obtain ⟨t, r, ht, hw, hr⟩ := h
      exact ⟨46 :: t, r, (rest_dot t ht).2, by rw [hw]; rfl, hr⟩
    · obtain ⟨t, r, ht, hw, hr⟩ := h
      exact ⟨c :: t, r, (rest_e c t (by omega) ht).2.1, by rw [hw]; rfl, hr⟩
    · exact lang_numEnd _ (Or.inr (Or.inl rfl)) st _ (back_endValue _ _ _ _ _ _ hlen hop h)
  · -- stateDot
    simp only [Scanner.next, stateDot] at h hop
    split_ifs at h hop with h1
    · obtain ⟨t, r, ht, hw, hr⟩ := h
      exact ⟨c :: t, r, (rest_dot_digit c t (isDigit_of c h1) ht).1, by rw [hw]; rfl, hr⟩
    · exact absurd rfl hop
  · -- stateDot0
    simp only [Scanner.next, stateDot0] at h hop
    split_ifs at h hop with h1 h2
    · obtain ⟨t, r, ht, hw, hr⟩ := h
      exact ⟨c :: t, r, (rest_dot_digit c t (isDigit_of c h1) ht).2, by rw [hw]; rfl, hr⟩
    · obtain ⟨t, r, ht, hw, hr⟩ := h
      exact ⟨c :: t, r, (rest_e c t (by omega) ht).2.2, by rw [hw]; rfl, hr⟩
    · exact lang_numEnd _ (Or.inr (Or.inr (Or.inl rfl))) st _
        (back_endValue _ _ _ _ _ _ hlen hop h)
  · -- stateE
    simp only [Scanner.next, stateE, stateESign] at h hop
    split_ifs at h hop with h1 h2
    · obtain ⟨t, r, ht, hw, hr⟩ := h
      exact ⟨c :: t, r, rest_e_sign c t h1 ht, by rw [hw]; rfl, hr⟩
    · obtain ⟨t, r, ht, hw, hr⟩ := h
      exact ⟨c :: t, r, (rest_e_digit c t (isDigit_of c h2) ht).1, by rw [hw]; rfl, hr⟩
    · exact absurd rfl hop
  · -- stateESign
    simp only [Scanner.next, stateESign] at h hop
    split_ifs at h hop with h1
    · obtain ⟨t, r, ht, hw, hr⟩ := h
      exact ⟨c :: t, r, (rest_e_digit c t (isDigit_of c h1) ht).2.1, by rw [hw]; rfl, hr⟩
    · exact absurd rfl hop
  · -- stateE0
    simp only [Scanner.next, stateE0] at h hop
    split_ifs at h hop with h1
    · obtain ⟨t, r, ht, hw, hr⟩ := h
      exact ⟨c :: t, r, (rest_e_digit c t (isDigit_of c h1) ht).2.2, by rw [hw]; rfl, hr⟩
    · exact lang_numEnd _ (Or.inr (Or.inr (Or.inr rfl))) st _
        (back_endValue _ _ _ _ _ _ hlen hop h)

theorem valueThen_space (st : List ParseState) (c : Nat) (w : List Nat)
    (hc : isSpace c = true) (h : ValueThen st w) : ValueThen st (c :: w) := by
  obtain ⟨w1, v, r, hw1, hv, hw, hr⟩ := h
  exact ⟨c :: w1, v, r, Ws_cons c w1 hc hw1, hv, by rw [hw]; rfl, hr⟩

theorem keyThen_space (st : List ParseState) (c : Nat) (w : List Nat)
    (hc : isSpace c = true) (h : KeyThen st w) : KeyThen st (c :: w) := by
  obtain ⟨w1, s, r, hw1, hs, hw, hr⟩ := h
  exact ⟨c :: w1, s, r, Ws_cons c w1 hc hw1, hs, by rw [hw]; rfl, hr⟩

/-- A value that starts here, from what the scanner accepts behind its
first byte. -/
theorem valueThen_of (st : List ParseState) (c : Nat) (w t r : List Nat)
    (hv : Derives (fun _ => True) .value (room st) (c :: t)) (hw : w = t ++ r)
    (hr : Cont st r) : ValueThen st (c :: w) :=
  ⟨[], c :: t, r, Ws_nil, hv, by rw [hw]; rfl, hr⟩

/-- One step of `stateBeginValue` on a byte that is no white space,
backwards. -/
theorem back_beginValue (q : Step) (et err : Bool) (st : List ParseState) (c : Nat)
    (w : List Nat) (hsp : isSpace c = false)
    (hop : (stateBeginValue { step := q, endTop := et, parseState := st, err := err } c).2
      ≠ Op.scanError)
    (h : Lang (stateBeginValue { step := q, endTop := et, parseState := st, err := err } c).1.step
      (stateBeginValue { step := q, endTop := et, parseState := st, err := err } c).1.parseState
      w) :
    ValueThen st (c :: w) := by
  generalize hres : stateBeginValue { step := q, endTop := et, parseState := st, err := err } c
    = res at h hop
  rw [stateBeginValue, if_neg (by simp [hsp])] at hres
  by_cases h1 : c = 123
  · -- '{'
    rw [if_pos h1, pushParseState] at hres
    by_cases h2 : (ParseState.parseObjectKey :: st).length ≤ maxNestingDepth
    · rw [if_pos h2] at hres
      subst hres
      subst h1
      have hroom := room_cons .parseObjectKey st h2
      rcases h with ⟨w1, r, hw1, hw, hr⟩ |
        ⟨w1, s, r1, hw1, hs, hw, w2, w3, v, t, r, hw2, hw3, hv, ht, hr1, hr⟩
      · refine valueThen_of st 123 w (w1 ++ [125]) r ?_ (by rw [hw]; simp) hr
        rw [hroom]
        exact Derives.emptyObject _ w1 hw1
      · obtain ⟨ms, hms, hassemble⟩ := members_assemble _ w1 s w2 w3 v t hw1 hs hw2 hw3 hv ht
        refine valueThen_of st 123 w (ms ++ [125]) r ?_ ?_ hr
        · rw [hroom]
          exact Derives.object _ ms hms
        · rw [hw, hr1, ← hassemble]
          simp
    · rw [if_neg h2] at hres
      subst hres
      exact absurd rfl hop
  rw [if_neg h1] at hres
  by_cases h3 : c = 91
  · -- '['
    rw [if_pos h3, pushParseState] at hres
    by_cases h4 : (ParseState.parseArrayValue :: st).length ≤ maxNestingDepth
    · rw [if_pos h4] at hres
      subst hres
      subst h3
      have hroom := room_cons .parseArrayValue st h4
      rcases h with ⟨w1, r, hw1, hw, hr⟩ | ⟨w1, v, r1, hw1, hv, hw, t, r, ht, hr1, hr⟩
      · refine valueThen_of st 91 w (w1 ++ [93]) r ?_ (by rw [hw]; simp) hr
        rw [hroom]
        exact Derives.emptyArray _ w1 hw1
      · obtain ⟨es, hes, hassemble⟩ := elements_assemble _ w1 v t hw1 hv ht
        refine valueThen_of st 91 w (es ++ [93]) r ?_ ?_ hr
        · rw [hroom]
          exact Derives.array _ es hes
        · rw [hw, hr1, ← List.append_assoc, hassemble]
    · rw [if_neg h4] at hres
      subst hres
      exact absurd rfl hop
  rw [if_neg h3] at hres
  by_cases h5 : c = 34
  · rw [if_pos h5] at hres
    subst hres
    subst h5
    obtain ⟨t, r, ⟨cs, hcs, ht⟩, hw, hr⟩ := h
    exact valueThen_of st 34 w t r (by rw [ht]; exact Derives.string _ _ (JString.mk cs hcs)) hw hr
  rw [if_neg h5] at hres
  by_cases h6 : c = 45
  · rw [if_pos h6] at hres
    subst hres
    subst h6
    obtain ⟨t, r, ht, hw, hr⟩ := h
    exact valueThen_of st 45 w t r (Derives.number _ _ ht trivial) hw hr
  rw [if_neg h6] at hres
  by_cases h7 : c = 48
  · rw [if_pos h7] at hres
    subst hres
    subst h7
    obtain ⟨t, r, ht, hw, hr⟩ := h
    exact valueThen_of st 48 w t r (Derives.number _ _ (num_state0 t ht).1 trivial) hw hr
  rw [if_neg h7] at hres
  by_cases h8 : c = 116
  · rw [if_pos h8] at hres
    subst hres
    subst h8
    obtain ⟨t, r, ht, hw, hr⟩ := h
    exact valueThen_of st 116 w t r (by rw [show t = [114, 117, 101] from ht]; exact Derives.true _)
      hw hr
  rw [if_neg h8] at hres
  by_cases h9 : c = 102
  · rw [if_pos h9] at hres
    subst hres
    subst h9
    obtain ⟨t, r, ht, hw, hr⟩ := h
    exact valueThen_of st 102 w t r
      (by rw [show t = [97, 108, 115, 101] from ht]; exact Derives.false _) hw hr
  rw [if_neg h9] at hres
  by_cases h10 : c = 110
  · rw [if_pos h10] at hres
    subst hres
    subst h10
    obtain ⟨t, r, ht, hw, hr⟩ := h
    exact valueThen_of st 110 w t r
      (by rw [show t = [117, 108, 108] from ht]; exact Derives.null _) hw hr
  rw [if_neg h10] at hres
  by_cases h11 : 49 ≤ c ∧ c ≤ 57
  · rw [if_pos h11] at hres
    subst hres
    obtain ⟨t, r, ht, hw, hr⟩ := h
    exact valueThen_of st c w t r (Derives.number _ _ (num_state1 c t h11 ht).1 trivial) hw hr
  rw [if_neg h11] at hres
  subst hres
  exact absurd rfl hop

/-- One step before a value, a key or behind a value, backwards. -/
theorem back_structure (q : Step) (et err : Bool) (st : List ParseState) (c : Nat)
    (w : List Nat)
    (hg : Good { step := q, endTop := et, parseState := st, err := err })
    (hq : q = .stateBeginValue ∨ q = .stateBeginValueOrEmpty ∨ q = .stateBeginString ∨
      q = .stateBeginStringOrEmpty ∨ q = .stateEndValue ∨ q = .stateEndTop ∨ q = .stateError)
    (hop : (Scanner.next { step := q, endTop := et, parseState := st, err := err } c).2
      ≠ Op.scanError)
    (h : Lang (Scanner.next { step := q, endTop := et, parseState := st, err := err } c).1.step
      (Scanner.next { step := q, endTop := et, parseState := st, err := err } c).1.parseState w) :
    Lang q st (c :: w) := by
  obtain ⟨hlen, _, _, hA, hK⟩ := hg
  rcases hq with hq | hq | hq | hq | hq | hq | hq <;> subst hq
  · -- stateBeginValue
    simp only [Scanner.next] at h hop
    by_cases hsp : isSpace c = true
    · generalize hres : stateBeginValue
        { step := .stateBeginValue, endTop := et, parseState := st, err := err } c = res at h hop
      rw [stateBeginValue, if_pos hsp] at hres
      subst hres
      exact valueThen_space st c w hsp h
    · exact back_beginValue _ _ _ _ _ _ (by simpa using hsp) hop h
  · -- stateBeginValueOrEmpty
    obtain ⟨st2, hst⟩ := hA rfl
    simp only at hst
    subst hst
    simp only [Scanner.next] at h hop
    generalize hres : stateBeginValueOrEmpty
      { step := .stateBeginValueOrEmpty, endTop := et,
        parseState := (ParseState.parseArrayValue :: st2), err := err } c = res at h hop
    rw [stateBeginValueOrEmpty] at hres
    by_cases hsp : isSpace c = true
    · rw [if_pos hsp] at hres
      subst hres
      rcases h with ⟨w1, r, hw1, hw, hr⟩ | h
      · exact Or.inl ⟨c :: w1, r, Ws_cons c w1 hsp hw1, by rw [hw]; rfl, hr⟩
      · exact Or.inr (valueThen_space _ c w hsp h)
    · rw [if_neg hsp] at hres
      by_cases h93 : c = 93
      · rw [if_pos h93] at hres
        subst h93
        have hpop : stateEndValue
            (Scanner.mk .stateBeginValueOrEmpty et (.parseArrayValue :: st2) err) 93 =
            (popParseState (Scanner.mk .stateBeginValueOrEmpty et (.parseArrayValue :: st2) err),
              Op.scanEndArray) := by
          simp [stateEndValue, isSpace]
        rw [hpop] at hres
        subst hres
        exact Or.inl ⟨[], w, Ws_nil, rfl, lang_pop _ _ _ _ _ _ h⟩
      · rw [if_neg h93] at hres
        subst hres
        exact Or.inr (back_beginValue _ _ _ _ _ _ (by simpa using hsp) hop h)
  · -- stateBeginString
    simp only [Scanner.next] at h hop
    generalize hres : stateBeginString
      { step := .stateBeginString, endTop := et, parseState := st, err := err } c = res at h hop
    rw [stateBeginString] at hres
    by_cases hsp : isSpace c = true
    · rw [if_pos hsp] at hres
      subst hres
      exact keyThen_space st c w hsp h
    · rw [if_neg hsp] at hres
      by_cases h34 : c = 34
      · rw [if_pos h34] at hres
        subst hres
        subst h34
        obtain ⟨t, r, ⟨cs, hcs, ht⟩, hw, hr⟩ := h
        exact ⟨[], 34 :: t, r, Ws_nil, by rw [ht]; exact JString.mk cs hcs, by rw [hw]; rfl, hr⟩
      · rw [if_neg h34] at hres
        subst hres
        exact absurd rfl hop
  · -- stateBeginStringOrEmpty
    obtain ⟨st2, hst⟩ := hK (Or.inr rfl)
    simp only at hst
    subst hst
    simp only [Scanner.next] at h hop
    generalize hres : stateBeginStringOrEmpty
      { step := .stateBeginStringOrEmpty, endTop := et,
        parseState := (ParseState.parseObjectKey :: st2), err := err } c = res at h hop
    rw [stateBeginStringOrEmpty] at hres
    by_cases hsp : isSpace c = true
    · rw [if_pos hsp] at hres
      subst hres
      rcases h with ⟨w1, r, hw1, hw, hr⟩ | h
      · exact Or.inl ⟨c :: w1, r, Ws_cons c w1 hsp hw1, by rw [hw]; rfl, hr⟩
      · exact Or.inr (keyThen_space _ c w hsp h)
    · rw [if_neg hsp] at hres
      by_cases h125 : c = 125
      · rw [if_pos h125] at hres
        subst h125
        have hpop : stateEndValue
            (Scanner.mk .stateBeginStringOrEmpty et (.parseObjectValue :: st2) err) 125 =
            (popParseState
              (Scanner.mk .stateBeginStringOrEmpty et (.parseObjectValue :: st2) err),
              Op.scanEndObject) := by
          simp [stateEndValue, isSpace]
        simp only [List.tail_cons] at hres
        rw [hpop] at hres
        subst hres
        exact Or.inl ⟨[], w, Ws_nil, rfl, lang_pop _ _ _ _ _ _ h⟩
      · rw [if_neg h125, stateBeginString, if_neg hsp] at hres
        by_cases h34 : c = 34
        · rw [if_pos h34] at hres
          subst hres
          subst h34
          obtain ⟨t, r, ⟨cs, hcs, ht⟩, hw, hr⟩ := h
          exact Or.inr ⟨[], 34 :: t, r, Ws_nil, by rw [ht]; exact JString.mk cs hcs,
            by rw [hw]; rfl, hr⟩
        · rw [if_neg h34] at hres
          subst hres
          exact absurd rfl hop
  · -- stateEndValue
    exact back_endValue _ _ _ _ _ _ hlen hop h
  · -- stateEndTop
    simp only [Scanner.next] at h hop
    generalize hres : stateEndTop
      { step := .stateEndTop, endTop := et, parseState := st, err := err } c = res at h hop
    rw [stateEndTop] at hres
    by_cases hsp : isSpace c = true
    · rw [if_neg (by simp [hsp])] at hres
      subst hres
      exact Ws_cons c w hsp h
    · rw [if_pos (by simpa using hsp)] at hres
      subst hres
      exact absurd h (by simp [Scanner.error, Lang])
  · -- stateError
    exact absurd rfl hop

/-- One step of the scanner, backwards: from what it accepts after the
step to what it accepts before it. -/
theorem back (q : Step) (et err : Bool) (st : List ParseState) (c : Nat) (w : List Nat)
    (hg : Good { step := q, endTop := et, parseState := st, err := err })
    (hop : (Scanner.next { step := q, endTop := et, parseState := st, err := err } c).2
      ≠ Op.scanError)
    (h : Lang (Scanner.next { step := q, endTop := et, parseState := st, err := err } c).1.step
      (Scanner.next { step := q, endTop := et, parseState := st, err := err } c).1.parseState w) :
    Lang q st (c :: w) := by
  cases q
  case stateBeginValueOrEmpty => exact back_structure _ _ _ _ _ _ hg (by simp) hop h
  case stateBeginValue => exact back_structure _ _ _ _ _ _ hg (by simp) hop h
  case stateBeginStringOrEmpty => exact back_structure _ _ _ _ _ _ hg (by simp) hop h
  case stateBeginString => exact back_structure _ _ _ _ _ _ hg (by simp) hop h
  case stateEndValue => exact back_structure _ _ _ _ _ _ hg (by simp) hop h
  case stateEndTop => exact back_structure _ _ _ _ _ _ hg (by simp) hop h
  case stateError => exact back_structure _ _ _ _ _ _ hg (by simp) hop h
  case stateInString => exact back_string _ _ _ _ _ _ (by simp) hop h
  case stateInStringEsc => exact back_string _ _ _ _ _ _ (by simp) hop h
  case stateInStringEscU => exact back_string _ _ _ _ _ _ (by simp) hop h
  case stateInStringEscU1 => exact back_string _ _ _ _ _ _ (by simp) hop h
  case stateInStringEscU12 => exact back_string _ _ _ _ _ _ (by simp) hop h
  case stateInStringEscU123 => exact back_string _ _ _ _ _ _ (by simp) hop h
  case stateNeg => exact back_number _ _ _ _ _ _ hg.1 (by simp) hop h
  case state1 => exact back_number _ _ _ _ _ _ hg.1 (by simp) hop h
  case state0 => exact back_number _ _ _ _ _ _ hg.1 (by simp) hop h
  case stateDot => exact back_number _ _ _ _ _ _ hg.1 (by simp) hop h
  case stateDot0 => exact back_number _ _ _ _ _ _ hg.1 (by simp) hop h
  case stateE => exact back_number _ _ _ _ _ _ hg.1 (by simp) hop h
  case stateESign => exact back_number _ _ _ _ _ _ hg.1 (by simp) hop h
  case stateE0 => exact back_number _ _ _ _ _ _ hg.1 (by simp) hop h
  case stateT => exact back_word _ _ _ _ _ _ (by simp) hop h
  case stateTr => exact back_word _ _ _ _ _ _ (by simp) hop h
  case stateTru => exact back_word _ _ _ _ _ _ (by simp) hop h
  case stateF => exact back_word _ _ _ _ _ _ (by simp) hop h
  case stateFa => exact back_word _ _ _ _ _ _ (by simp) hop h
  case stateFal => exact back_word _ _ _ _ _ _ (by simp) hop h
  case stateFals => exact back_word _ _ _ _ _ _ (by simp) hop h
  case stateN => exact back_word _ _ _ _ _ _ (by simp) hop h
  case stateNu => exact back_word _ _ _ _ _ _ (by simp) hop h
  case stateNul => exact back_word _ _ _ _ _ _ (by simp) hop h

/-- Setting the step function to one that needs nothing of the stack
keeps a state of the comparison one. -/
theorem good_set_step (X : Step) (err : Bool) (st : List ParseState)
    (hlen : st.length ≤ maxNestingDepth)
    (hX : X ≠ .stateError ∧ X ≠ .stateBeginValueOrEmpty ∧ X ≠ .stateBeginString ∧
      X ≠ .stateBeginStringOrEmpty) :
    Good { step := X, endTop := false, parseState := st, err := err } :=
  ⟨hlen, fun h => absurd h hX.1, fun h => absurd h (by simp), fun h => absurd h hX.2.1,
    fun h => by
      rcases h with h | h
      · exact absurd h hX.2.2.1
      · exact absurd h hX.2.2.2⟩

theorem good_pop (q : Step) (p : ParseState) (err : Bool) (st : List ParseState)
    (hlen : st.length ≤ maxNestingDepth) :
    Good (popParseState { step := q, endTop := false, parseState := p :: st, err := err }) := by
  unfold popParseState
  simp only [List.tail_cons]
  split
  · exact ⟨hlen, fun h => absurd h (by simp), fun _ => Or.inl rfl, fun h => absurd h (by simp),
      fun h => by simp at h⟩
  · exact good_set_step _ _ _ hlen (by simp)

/-- The state after a step of `stateEndValue` that does not fail. -/
theorem good_endValue (q : Step) (err : Bool) (st : List ParseState) (c : Nat)
    (hlen : st.length ≤ maxNestingDepth)
    (hop : (stateEndValue { step := q, endTop := false, parseState := st, err := err } c).2
      ≠ Op.scanError) :
    Good (stateEndValue { step := q, endTop := false, parseState := st, err := err } c).1 := by
  generalize hres : stateEndValue { step := q, endTop := false, parseState := st, err := err } c
    = res at hop
  cases st with
  | nil =>
    simp only [stateEndValue, stateEndTop, Scanner.error] at hres
    split_ifs at hres <;> subst hres
    · exact ⟨by simp, fun _ => rfl, fun _ => Or.inr rfl, fun h => absurd h (by simp),
        fun h => by simp at h⟩
    · exact ⟨by simp, fun h => absurd h (by simp), fun _ => Or.inl rfl,
        fun h => absurd h (by simp), fun h => by simp at h⟩
  | cons p st2 =>
    have hlen2 : st2.length ≤ maxNestingDepth := by
      simp only [List.length_cons] at hlen
      omega
    cases p <;> simp only [stateEndValue, Scanner.error] at hres <;>
      split_ifs at hres <;> subst hres
    all_goals first
      | exact absurd rfl hop
      | exact good_pop _ _ _ _ hlen2
      | (refine good_set_step _ _ _ hlen ?_
         simp
         done)
      | (refine ⟨hlen, ?_, ?_, ?_, fun _ => ⟨st2, rfl⟩⟩ <;> simp)

/-- The state after a step of `stateBeginValue` that does not fail. -/
theorem good_beginValue (q : Step) (err : Bool) (st : List ParseState) (c : Nat)
    (hlen : st.length ≤ maxNestingDepth)
    (hg : Good { step := q, endTop := false, parseState := st, err := err })
    (hop : (stateBeginValue { step := q, endTop := false, parseState := st, err := err } c).2
      ≠ Op.scanError) :
    Good (stateBeginValue { step := q, endTop := false, parseState := st, err := err } c).1 := by
  generalize hres : stateBeginValue { step := q, endTop := false, parseState := st, err := err } c
    = res at hop
  rw [stateBeginValue] at hres
  by_cases hsp : isSpace c = true
  · rw [if_pos hsp] at hres
    subst hres
    exact hg
  rw [if_neg hsp] at hres
  by_cases h1 : c = 123
  · rw [if_pos h1, pushParseState] at hres
    by_cases h2 : (ParseState.parseObjectKey :: st).length ≤ maxNestingDepth
    · rw [if_pos h2] at hres
      subst hres
      exact ⟨h2, fun h => absurd h (by simp), fun h => absurd h (by simp),
        fun h => absurd h (by simp), fun _ => ⟨st, rfl⟩⟩
    · rw [if_neg h2] at hres
      subst hres
      exact absurd rfl hop
  rw [if_neg h1] at hres
  by_cases h3 : c = 91
  · rw [if_pos h3, pushParseState] at hres
    by_cases h4 : (ParseState.parseArrayValue :: st).length ≤ maxNestingDepth
    · rw [if_pos h4] at hres
      subst hres
      exact ⟨h4, fun h => absurd h (by simp), fun h => absurd h (by simp),
        fun _ => ⟨st, rfl⟩, fun h => by simp at h⟩
    · rw [if_neg h4] at hres
      subst hres
      exact absurd rfl hop
  rw [if_neg h3] at hres
  split_ifs at hres <;> subst hres
  all_goals first
    | exact absurd rfl hop
    | (refine good_set_step _ _ _ hlen ?_
       simp)

/-- A step that does not fail leads from a state of the comparison to
another one. -/
theorem good_next (q : Step) (et err : Bool) (st : List ParseState) (c : Nat)
    (hg : Good { step := q, endTop := et, parseState := st, err := err })
    (hop : (Scanner.next { step := q, endTop := et, parseState := st, err := err } c).2
      ≠ Op.scanError) :
    Good (Scanner.next { step := q, endTop := et, parseState := st, err := err } c).1 := by
  have hlen : st.length ≤ maxNestingDepth := hg.1
  by_cases hq : q = .stateEndTop ∨ q = .stateError
  · rcases hq with hq | hq <;> subst hq
    · simp only [Scanner.next, stateEndTop, Scanner.error]
      split_ifs
      · exact ⟨hlen, fun _ => rfl, fun _ => Or.inr rfl, fun h => absurd h (by simp),
          fun h => by simp at h⟩
      · exact hg
    · exact absurd rfl hop
  · have het : et = false := by
      cases et with
      | false => rfl
      | true => exact absurd (hg.2.2.1 rfl) hq
    subst het
    rw [not_or] at hq
    generalize hres : Scanner.next
      { step := q, endTop := false, parseState := st, err := err } c = res at hop
    cases q with
    | stateEndTop => exact absurd rfl hq.1
    | stateError => exact absurd rfl hq.2
    | stateBeginValue =>
      subst hres
      exact good_beginValue _ _ _ _ hlen hg hop
    | stateEndValue =>
      subst hres
      exact good_endValue _ _ _ _ hlen hop
    | stateBeginValueOrEmpty =>
      simp only [Scanner.next, stateBeginValueOrEmpty] at hres
      split_ifs at hres with h1 h2 <;> subst hres
      · exact hg
      · exact good_endValue _ _ _ _ hlen hop
      · exact good_beginValue _ _ _ _ hlen hg hop
    | stateBeginString =>
      simp only [Scanner.next, stateBeginString, Scanner.error] at hres
      split_ifs at hres with h1 h2 <;> subst hres
      · exact hg
      · exact good_set_step _ _ _ hlen (by simp)
      · exact absurd rfl hop
    | stateBeginStringOrEmpty =>
      obtain ⟨st2, hst⟩ := hg.2.2.2.2 (Or.inr rfl)
      simp only at hst
      subst hst
      simp only [Scanner.next, stateBeginStringOrEmpty, stateBeginString, Scanner.error,
        List.tail_cons] at hres
      split_ifs at hres with h1 h2 h3 <;> subst hres
      · exact hg
      · exact good_endValue _ _ _ _ hlen hop
      · exact good_set_step _ _ _ hlen (by simp)
      · exact absurd rfl hop
    | _ =>
      simp only [Scanner.next, stateInString, stateInStringEsc, stateInStringEscHex, stateNeg,
        state1, state0, stateDot, stateDot0, stateE, stateESign, stateE0, stateWord,
        Scanner.error] at hres
      split_ifs at hres <;> subst hres
      all_goals first
        | exact absurd rfl hop
        | exact hg
        | exact good_endValue _ _ _ _ hlen hop
        | (refine good_set_step _ _ _ hlen ?_
           simp)

/-- Where the input may end, nothing is missing. -/
theorem eof_lang (q : Step) (et err : Bool) (st : List ParseState)
    (hg : Good { step := q, endTop := et, parseState := st, err := err })
    (h : Scanner.eof { step := q, endTop := et, parseState := st, err := err }
      ≠ Op.scanError) :
    Lang q st [] := by
  unfold Scanner.eof at h
  cases err with
  | true => simp at h
  | false =>
    cases et with
    | true =>
      rcases hg.2.2.1 rfl with hq | hq
      · simp only at hq
        subst hq
        exact Ws_nil
      · have := hg.2.1 hq
        simp at this
    | false =>
      have h2 : (Scanner.next { step := q, endTop := false, parseState := st, err := false }
          32).1.endTop = true := by
        by_contra hc
        simp [hc] at h
      cases st with
      | nil =>
        cases q with
        | stateEndValue => exact Ws_nil
        | state0 => exact lang_numEnd _ (Or.inl rfl) _ _ Ws_nil
        | state1 => exact lang_numEnd _ (Or.inr (Or.inl rfl)) _ _ Ws_nil
        | stateDot0 => exact lang_numEnd _ (Or.inr (Or.inr (Or.inl rfl))) _ _ Ws_nil
        | stateE0 => exact lang_numEnd _ (Or.inr (Or.inr (Or.inr rfl))) _ _ Ws_nil
        | _ =>
          simp [Scanner.next, stateBeginValueOrEmpty, stateBeginValue, stateBeginStringOrEmpty,
            stateBeginString, stateEndTop, stateInString, stateInStringEsc,
            stateInStringEscHex, stateNeg, stateDot, stateE, stateESign, stateWord,
            Scanner.error, isSpace, isHex] at h2
      | cons p st2 =>
        cases q <;>
          simp [Scanner.next, stateBeginValueOrEmpty, stateBeginValue, stateBeginStringOrEmpty,
            stateBeginString, stateEndValue, stateEndTop, stateInString, stateInStringEsc,
            stateInStringEscHex, stateNeg, state1, state0, stateDot, stateDot0, stateE,
            stateESign, stateE0, stateWord, Scanner.error, isSpace, isHex] at h2

/-- What the scanner accepts from a state, the grammar derives. -/
theorem sound : ∀ (w : List Nat) (q : Step) (et err : Bool) (st : List ParseState),
    Good { step := q, endTop := et, parseState := st, err := err } →
    ∀ sc2, scanBytes { step := q, endTop := et, parseState := st, err := err } w = some sc2 →
    sc2.eof ≠ Op.scanError → Lang q st w := by
  intro w
  induction w with
  | nil =>
    intro q et err st hg sc2 hrun heof
    simp only [scanBytes, Option.some.injEq] at hrun
    subst hrun
    exact eof_lang q et err st hg heof
  | cons c w ih =>
    intro q et err st hg sc2 hrun heof
    rw [scanBytes] at hrun
    by_cases hop : (Scanner.next { step := q, endTop := et, parseState := st, err := err } c).2
        = Op.scanError
    · rw [if_pos hop] at hrun
      exact absurd hrun (by simp)
    · rw [if_neg hop] at hrun
      have hg2 := good_next q et err st c hg hop
      exact back q et err st c w hg hop (ih _ _ _ _ hg2 sc2 hrun heof)

/-- What `checkValid` accepts is a JSON text nested at most
`maxNestingDepth` deep. -/
theorem json_of_checkValid (s : List Nat) (h : checkValid s = true) :
    JsonText (fun _ => True) maxNestingDepth s := by
  unfold checkValid at h
  cases hrun : scanBytes Scanner.reset s with
  | none => simp [hrun] at h
  | some sc2 =>
    simp only [hrun, decide_eq_true_eq] at h
    have hg : Good Scanner.reset :=
      ⟨Nat.zero_le _, fun h => absurd h (by simp [Scanner.reset]),
        fun h => absurd h (by simp [Scanner.reset]),
        fun h => absurd h (by simp [Scanner.reset]),
        fun h => by simp [Scanner.reset] at h⟩
    obtain ⟨w1, v, r, hw1, hv, hs, hr⟩ := sound s _ _ _ _ hg sc2 hrun h
    rw [hs]
    exact Derives.element _ w1 v r hw1 hv hr

/-- The scanner accepts exactly the JSON texts nested at most
`maxNestingDepth` deep. -/
theorem checkValid_iff (s : List Nat) :
    checkValid s = true ↔ JsonText (fun _ => True) maxNestingDepth s :=
  ⟨json_of_checkValid s, checkValid_of_json _ s⟩

/-- Arrays nested `n + 1` deep: that many opening brackets, then as many
closing ones. -/
theorem nested_arrays (n : Nat) :
    Derives (fun _ => True) .value (n + 1)
      (List.replicate (n + 1) 91 ++ List.replicate (n + 1) 93) := by
  induction n with
  | zero => exact Derives.emptyArray 0 [] Ws_nil
  | succ n ih =>
    have h := Derives.array (n + 1) _
      (Derives.elementsOne (n + 1) _ (Derives.element (n + 1) [] _ [] Ws_nil ih Ws_nil))
    have e : List.replicate (n + 1 + 1) 91 ++ List.replicate (n + 1 + 1) 93 =
        91 :: (([] ++ (List.replicate (n + 1) 91 ++ List.replicate (n + 1) 93) ++ []) ++ [93]) := by
      rw [List.replicate_succ (n := n + 1), List.replicate_succ' (n := n + 1)]
      simp
    rw [e]
    exact h

/-- More opening brackets than the nesting limit leaves room for make the
scanner fail. -/
theorem too_deep (rest : List Nat) : ∀ (n : Nat) (stack : List ParseState) (sc : Scanner),
    Begins stack sc → stack.length ≤ maxNestingDepth → maxNestingDepth < stack.length + n →
    scanBytes sc (List.replicate n 91 ++ rest) = none := by
  intro n
  induction n with
  | zero =>
    intro stack sc _ h1 h2
    omega
  | succ n ih =>
    intro stack sc hb h1 h2
    rw [List.replicate_succ, List.cons_append,
      begins_scan stack sc hb 91 _ (by decide) (by decide), scanBytes]
    by_cases hlen : (ParseState.parseArrayValue :: stack).length ≤ maxNestingDepth
    · have hstep : (scannerAt .stateBeginValue stack).next 91 =
          (scannerAt .stateBeginValueOrEmpty (.parseArrayValue :: stack), Op.scanBeginArray) := by
        have h91 : isSpace 91 = false := by decide
        simp only [Scanner.next, scannerAt, stateBeginValue, h91, Bool.false_eq_true, if_false,
          pushParseState]
        rw [if_pos trivial, if_pos hlen, if_neg (show ¬(91 : Nat) = 123 by decide)]
      rw [hstep]
      simp only [reduceCtorEq, if_false]
      exact ih _ _ (Or.inr rfl) hlen (by simp only [List.length_cons]; omega)
    · have hstep : ((scannerAt .stateBeginValue stack).next 91).2 = Op.scanError := by
        have h91 : isSpace 91 = false := by decide
        simp only [Scanner.next, scannerAt, stateBeginValue, h91, Bool.false_eq_true, if_false,
          pushParseState]
        rw [if_pos trivial, if_neg hlen, if_neg (show ¬(91 : Nat) = 123 by decide)]
        rfl
      rw [if_pos hstep]

/-- The loop when the first `k` requests succeed: the events of `k` rounds,
one request each, then the loop over the remaining API calls. -/
theorem testApiCalls_first_rounds (env : Env) (L : Loggers) (serverUrl : GoString) :
    ∀ (k : Nat) (calls : List GoString) (w : World), k ≤ calls.length →
      (∀ i, i < k → ∃ b, env.server ((requests w.trace).length + i)
        (serverUrl ++ ascii "/" ++ calls.getD i []) = Response.body b) →
      ∃ t, (requests t).length = k ∧
        testApiCalls env L serverUrl calls w =
          testApiCalls env L serverUrl (calls.drop k)
            { trace := w.trace ++ t, stdin := w.stdin } := by
  intro k
  induction k with
  | zero =>
    intro calls w _ _
    exact ⟨[], by simp [requests], by simp⟩
  | succ k ih =>
    intro calls w hk hs
    cases calls with
    | nil => simp at hk
    | cons c rest =>
      obtain ⟨b, hb⟩ := hs 0 (Nat.succ_pos k)
      simp only [Nat.add_zero, List.getD_cons_zero] at hb
      have hlen : (requests (w.trace ++ roundEvents L serverUrl c b)).length
          = (requests w.trace).length + 1 := by
        rw [requests_append, requests_roundEvents, List.length_append, List.length_singleton]
      have hk2 : k ≤ rest.length := by simpa using hk
      obtain ⟨t, ht, hrun⟩ := ih rest
        { trace := w.trace ++ roundEvents L serverUrl c b, stdin := w.stdin } hk2
        (by
          intro i hi
          obtain ⟨b2, hb2⟩ := hs (i + 1) (Nat.succ_lt_succ hi)
          refine ⟨b2, ?_⟩
          simp only [hlen]
          rw [List.getD_cons_succ] at hb2
          rw [← hb2]
          congr 1
          omega)
      refine ⟨roundEvents L serverUrl c b ++ t, ?_, ?_⟩
      · rw [requests_append, requests_roundEvents, List.length_append, ht,
          List.length_singleton]
        omega
      · rw [testApiCalls_cons_body env L serverUrl c _ w b hb, hrun]
        simp only [List.drop_succ_cons, List.append_assoc]

/-- The API call at place `k` of a list heads what is left after `k` calls. -/
theorem drop_eq_getD_cons (calls : List GoString) (k : Nat) (hk : k < calls.length) :
    calls.drop k = calls.getD k [] :: calls.drop (k + 1) := by
  induction calls generalizing k with
  | nil => simp at hk
  | cons c rest ih =>
    cases k with
    | zero => simp
    | succ k =>
      simp only [List.drop_succ_cons, List.getD_cons_succ]
      exact ih k (by simpa using hk)

/-- Lower-casing a byte gives a small letter `y` exactly when the byte is `y`
in either case. -/
theorem lower_eq_iff (x y : Nat) (hy : 97 ≤ y ∧ y ≤ 122) :
    (if 65 ≤ x ∧ x ≤ 90 then x + 32 else x) = y ↔ sameLetter x y = true := by
  unfold sameLetter
  simp only [Bool.or_eq_true, Bool.and_eq_true, decide_eq_true_eq]
  split <;> omega

/-- Lower-casing the bytes of a string gives a string `t` of small letters
exactly when the string equals `t` up to the case of its letters. -/
theorem map_lower_eq_iff : ∀ (s t : GoString), (∀ y ∈ t, 97 ≤ y ∧ y ≤ 122) →
    (s.map (fun c => if 65 ≤ c ∧ c ≤ 90 then c + 32 else c) = t ↔
      equalsIgnoringCase s t = true)
  | [], [], _ => by simp [equalsIgnoringCase]
  | [], _ :: _, _ => by simp [equalsIgnoringCase]
  | _ :: _, [], _ => by simp [equalsIgnoringCase]
  | x :: xs, y :: ys, h => by
    simp only [List.map_cons, List.cons.injEq, equalsIgnoringCase, Bool.and_eq_true]
    rw [lower_eq_iff x y (h y (List.mem_cons_self _ _)),
      map_lower_eq_iff xs ys (fun z hz => h z (List.mem_cons_of_mem _ hz))]

/-- A string that equals a string of small letters up to case is ASCII. -/
theorem equalsIgnoringCase_ascii : ∀ (s t : GoString), (∀ y ∈ t, 97 ≤ y ∧ y ≤ 122) →
    equalsIgnoringCase s t = true → s.all (fun c => decide (c < 128)) = true
  | [], _, _, _ => by simp
  | _ :: _, [], _, h => by simp [equalsIgnoringCase] at h
  | x :: xs, y :: ys, ht, h => by
    simp only [equalsIgnoringCase, Bool.and_eq_true] at h
    have hy := ht y (List.mem_cons_self _ _)
    have hx : x < 128 := by
      have h1 := h.1
      unfold sameLetter at h1
      simp only [Bool.or_eq_true, Bool.and_eq_true, decide_eq_true_eq] at h1
      omega
    simp only [List.all_cons, Bool.and_eq_true, decide_eq_true_eq]
    exact ⟨hx, equalsIgnoringCase_ascii xs ys (fun z hz => ht z (List.mem_cons_of_mem _ hz)) h.2⟩

/-- The comparison `strings.ToLower(s) == "trace"` of the program holds
exactly when `s` equals `trace` up to the case of its letters, provided the
Unicode case tables give no string with a byte outside ASCII the lower-case
form `trace` (no character outside ASCII has a lower-case form among the
letters of `trace`). -/
theorem ToLower_eq_trace (u : GoString → GoString) (s : GoString)
    (hU : ∀ x : GoString, x.all (fun c => decide (c < 128)) = false → u x ≠ ascii "trace") :
    ToLower u s = ascii "trace" ↔ equalsIgnoringCase s (ascii "trace") = true := by
  have hl : ∀ y ∈ ascii "trace", 97 ≤ y ∧ y ≤ 122 := by decide
  unfold ToLower
  cases ha : s.all (fun c => decide (c < 128)) with
  | true =>
    simp only [if_true]
    exact map_lower_eq_iff s _ hl
  | false =>
    simp only [Bool.false_eq_true, if_false]
    constructor
    · intro h
      exact absurd h (hU s ha)
    · intro h
      rw [equalsIgnoringCase_ascii s _ hl h] at ha
      exact absurd ha (by simp)

/-- What the loop of a trim drops is a run of entries of its table. -/
theorem trimLeftLoop_run (table : List GoString) :
    ∀ (n : Nat) (s : GoString),
      ∃ es : List GoString, (∀ e ∈ es, e ∈ table) ∧ s = es.flatten ++ trimLeftLoop table n s := by
  intro n
  induction n with
  | zero => intro s; exact ⟨[], by simp, by simp [trimLeftLoop]⟩
  | succ n ih =>
    intro s
    rw [trimLeftLoop]
    cases hl : leadingSpace table s with
    | none => exact ⟨[], by simp, by simp⟩
    | some e =>
      simp only
      obtain ⟨hmem, hpre⟩ := leadingSpace_some table s e hl
      obtain ⟨es, hes, hs⟩ := ih (s.drop e.length)
      refine ⟨e :: es, ?_, ?_⟩
      · intro f hf
        rcases List.mem_cons.1 hf with hf | hf
        · rw [hf]; exact hmem
        · exact hes f hf
      · rw [List.isPrefixOf_iff_prefix] at hpre
        obtain ⟨r, hr⟩ := hpre
        have hd : s.drop e.length = r := by rw [← hr, List.drop_left]
        rw [List.flatten_cons, List.append_assoc, ← hs, hd, hr]

/-- The result of `TrimSpace` is its argument with leading and trailing
white space removed. -/
theorem TrimSpace_isTrimOf (s : GoString) : IsTrimOf (TrimSpace s) s := by
  constructor
  · obtain ⟨es1, h1, hs1⟩ := trimLeftLoop_run spaceEncodings s.length s
    obtain ⟨es2, h2, hs2⟩ := trimLeftLoop_run (spaceEncodings.map List.reverse)
      (TrimLeftSpace s).length (TrimLeftSpace s).reverse
    have hr : TrimLeftSpace s = TrimSpace s ++ ((es2.map List.reverse).reverse).flatten := by
      have := congrArg List.reverse hs2
      rw [List.reverse_reverse, List.reverse_append, List.reverse_flatten] at this
      exact this
    refine ⟨es1.flatten, ((es2.map List.reverse).reverse).flatten, ⟨es1, h1, rfl⟩,
      ⟨_, ?_, rfl⟩, ?_⟩
    · intro e he
      rw [List.mem_reverse, List.mem_map] at he
      obtain ⟨f, hf, hfe⟩ := he
      obtain ⟨g, hg, hgf⟩ := List.mem_map.1 (h2 f hf)
      rw [← hfe, ← hgf, List.reverse_reverse]
      exact hg
    · rw [List.append_assoc, ← hr]
      exact hs1
  · intro e he
    constructor
    · have h := TrimSpace_no_leading s
      unfold hasLeadingSpace at h
      rw [isSome_false_iff, leadingSpace_eq_none] at h
      have h2 := h e he
      rw [Bool.eq_false_iff, Ne, List.isPrefixOf_iff_prefix] at h2
      exact h2
    · have h := TrimSpace_no_trailing s
      unfold hasTrailingSpace at h
      rw [isSome_false_iff, leadingSpace_eq_none] at h
      have h2 := h e.reverse (List.mem_map.2 ⟨e, he, rfl⟩)
      rw [Bool.eq_false_iff, Ne, List.isPrefixOf_iff_prefix, List.reverse_prefix] at h2
      exact h2

theorem spaceEncodings_ne_nil : ∀ e ∈ spaceEncodings, e ≠ [] := by
  decide

/-- No reversed entry of the table of white-space encodings is the beginning
of another one. -/
theorem reversed_no_overlap :
    ∀ e ∈ spaceEncodings.map List.reverse, ∀ f ∈ spaceEncodings.map List.reverse,
      f.isPrefixOf e = true → f = e := by
  decide

/-- A byte inside the encoding of a white-space rune, behind its first
byte, is not the first byte of such an encoding. -/
theorem inner_byte_not_first :
    ∀ e ∈ spaceEncodings, ∀ f ∈ spaceEncodings, ∀ k ∈ List.range e.length,
      0 < k → (e.drop k).head? ≠ f.head? := by
  decide

/-- A string that starts with the entry `e` of a table without overlaps:
`leadingSpace` finds `e`. -/
theorem leadingSpace_entry (table : List GoString)
    (hT : ∀ e ∈ table, ∀ f ∈ table, f.isPrefixOf e = true → f = e)
    (e rest : GoString) (he : e ∈ table) : leadingSpace table (e ++ rest) = some e := by
  cases h : leadingSpace table (e ++ rest) with
  | none =>
    have := (leadingSpace_eq_none _ _).1 h e he
    rw [Bool.eq_false_iff, Ne, List.isPrefixOf_iff_prefix] at this
    exact absurd (List.prefix_append e rest) this
  | some f =>
    obtain ⟨hf, hpre⟩ := leadingSpace_some _ _ _ h
    rw [List.isPrefixOf_iff_prefix] at hpre
    have h2 : f <+: e ∨ e <+: f :=
      List.prefix_or_prefix_of_prefix hpre (List.prefix_append e rest)
    rcases h2 with h2 | h2
    · rw [hT e he f hf (List.isPrefixOf_iff_prefix.2 h2)]
    · rw [hT f hf e he (List.isPrefixOf_iff_prefix.2 h2)]

/-- The loop of a trim drops a run of entries in front of a string that
starts with none. -/
theorem trimLeftLoop_strip (table : List GoString)
    (hT : ∀ e ∈ table, ∀ f ∈ table, f.isPrefixOf e = true → f = e)
    (x : GoString) (hx : leadingSpace table x = none) :
    ∀ (es : List GoString), (∀ e ∈ es, e ∈ table) → ∀ n, es.length ≤ n →
      trimLeftLoop table n (es.flatten ++ x) = x := by
  intro es
  induction es with
  | nil =>
    intro _ n _
    simpa using trimLeftLoop_id table n x hx
  | cons e es ih =>
    intro h n hn
    cases n with
    | zero => simp at hn
    | succ m =>
      rw [List.flatten_cons, List.append_assoc, trimLeftLoop,
        leadingSpace_entry table hT e _ (h e (List.mem_cons_self _ _))]
      simp only [List.drop_left]
      exact ih (fun f hf => h f (List.mem_cons_of_mem _ hf)) m (by simpa using hn)

theorem length_le_flatten (es : List GoString) (h : ∀ e ∈ es, e ≠ []) :
    es.length ≤ es.flatten.length := by
  induction es with
  | nil => simp
  | cons e es ih =>
    have h1 : 0 < e.length := List.length_pos.2 (h e (List.mem_cons_self _ _))
    have h2 := ih (fun f hf => h f (List.mem_cons_of_mem _ hf))
    simp only [List.length_cons, List.flatten_cons, List.length_append]
    omega

/-- A text that starts with no white-space rune does not come to start with
one when white space follows it. -/
theorem leadingSpace_text (t r : GoString) (ht : t ≠ [])
    (hno : ∀ e ∈ spaceEncodings, ¬ e <+: t) (hr : IsWhiteSpace r) :
    leadingSpace spaceEncodings (t ++ r) = none := by
  rw [leadingSpace_eq_none]
  intro e he
  rw [Bool.eq_false_iff, Ne, List.isPrefixOf_iff_prefix]
  intro hpre
  rcases List.prefix_or_prefix_of_prefix hpre (List.prefix_append t r) with h1 | h1
  · exact hno e he h1
  · obtain ⟨u, hu⟩ := h1
    have hune : u ≠ [] := by
      intro h0
      rw [h0, List.append_nil] at hu
      exact hno e he (by rw [hu])
    have hur : u <+: r := by
      rw [← hu] at hpre
      exact (List.prefix_append_right_inj t).1 hpre
    obtain ⟨fs, hfs, hrf⟩ := hr
    cases fs with
    | nil =>
      rw [hrf] at hur
      simp at hur
      exact hune hur
    | cons f fs =>
      have hf : f ∈ spaceEncodings := hfs f (List.mem_cons_self _ _)
      have hfne : f ≠ [] := spaceEncodings_ne_nil f hf
      have hk : t.length ∈ List.range e.length := by
        rw [List.mem_range, ← hu, List.length_append]
        have := List.length_pos.2 hune
        omega
      have hkey := inner_byte_not_first e he f hf t.length hk (List.length_pos.2 ht)
      apply hkey
      rw [← hu, List.drop_left]
      obtain ⟨v, hv⟩ := hur
      cases u with
      | nil => exact absurd rfl hune
      | cons a u2 =>
        cases f with
        | nil => exact absurd rfl hfne
        | cons b f2 =>
          rw [hrf, List.flatten_cons] at hv
          simp only [List.cons_append, List.cons.injEq] at hv
          simp [hv.1]

/-- The text without its surrounding white space is what `TrimSpace`
returns: no other string lies between two runs of white space and has none
at either end. -/
theorem IsTrimOf_unique (s t : GoString) (h : IsTrimOf t s) : t = TrimSpace s := by
  obtain ⟨⟨l, r, ⟨es, hes, hl⟩, hr, hs⟩, hno⟩ := h
  by_cases ht : t = []
  · subst ht
    obtain ⟨fs, hfs, hr2⟩ := hr
    have hall : s = (es ++ fs).flatten := by
      rw [hs, hl, hr2]
      simp
    rw [hall, TrimSpace_all_space]
    intro e he
    rcases List.mem_append.1 he with he | he
    · exact hes e he
    · exact hfs e he
  · have h1 : TrimLeftSpace s = t ++ r := by
      unfold TrimLeftSpace
      have hlen : es.length ≤ s.length := by
        have := length_le_flatten es (fun e he => spaceEncodings_ne_nil e (hes e he))
        rw [hs, hl, List.length_append, List.length_append]
        omega
      have hs2 : s = es.flatten ++ (t ++ r) := by rw [hs, hl, List.append_assoc]
      rw [hs2] at hlen ⊢
      exact trimLeftLoop_strip spaceEncodings spaceEncodings_no_overlap (t ++ r)
        (leadingSpace_text t r ht (fun e he => (hno e he).1) hr) es hes _ hlen
    obtain ⟨fs, hfs, hr2⟩ := hr
    have hrev : (t ++ r).reverse = ((fs.map List.reverse).reverse).flatten ++ t.reverse := by
      rw [List.reverse_append, hr2, List.reverse_flatten]
    have hx : leadingSpace (spaceEncodings.map List.reverse) t.reverse = none := by
      rw [leadingSpace_eq_none]
      intro e he
      obtain ⟨g, hg, hge⟩ := List.mem_map.1 he
      rw [Bool.eq_false_iff, Ne, List.isPrefixOf_iff_prefix, ← hge, List.reverse_prefix]
      exact (hno g hg).2
    have hmem : ∀ e ∈ (fs.map List.reverse).reverse, e ∈ spaceEncodings.map List.reverse := by
      intro e he
      rw [List.mem_reverse, List.mem_map] at he
      obtain ⟨g, hg, hge⟩ := he
      exact List.mem_map.2 ⟨g, hfs g hg, hge⟩
    have hlen : ((fs.map List.reverse).reverse).length ≤ (t ++ r).length := by
      have := length_le_flatten fs (fun e he => spaceEncodings_ne_nil e (hfs e he))
      rw [List.length_reverse, List.length_map, List.length_append, hr2]
      omega
    unfold TrimSpace TrimRightSpace
    rw [h1, hrev, trimLeftLoop_strip _ reversed_no_overlap t.reverse hx _ hmem _ hlen,
      List.reverse_reverse]

/-! ## The claims about the run of the program -/

/-- C2: in a run of `main` whose log stream opens, when the requests before
the API call at place `k` of the list succeed and its own request succeeds
with the body `s`, the trace of the run holds, after `k` earlier requests,
the round of that call: its request, the line that announces the checks and
the two lines of the checks. The line of the first check is the error line
`failed: the response was null` exactly when `s` is the four bytes `null`,
and the info line `succeeded: response was not 'null'` exactly when it is
anything else, such as `null` followed by a line feed or preceded by a
space. -/
theorem null_check_line (env : Env) (flags : Flags) (stdin : GoString) (k : Nat)
    (s : GoString)
    (hopen : ToLower env.unicodeLower flags.logfile = ascii "stdout" ∨
      env.openFails flags.logfile = false)
    (hk : k < (Split 44 flags.apicalls).length)
    (hs : ∀ i, i < k → ∃ b, env.server i
      (ascii "http://" ++ TrimSpace (serverAddress flags stdin) ++ ascii "/" ++
        (Split 44 flags.apicalls).getD i []) = Response.body b)
    (h : env.server k
      (ascii "http://" ++ TrimSpace (serverAddress flags stdin) ++ ascii "/" ++
        (Split 44 flags.apicalls).getD k []) = Response.body s) :
    ∃ L t1 e j t2,
      initLog env flags.logfile flags.loglevel { trace := [], stdin := stdin } =
        ({ trace := [], stdin := stdin }, some L) ∧
      (requests t1).length = k ∧
      (main env flags stdin).1.trace =
        t1 ++
          [Event.println L.Info
             (ascii "Requesting following url: " ++
               (ascii "http://" ++ TrimSpace (serverAddress flags stdin) ++ ascii "/" ++
                 (Split 44 flags.apicalls).getD k [])),
           Event.get
             (ascii "http://" ++ TrimSpace (serverAddress flags stdin) ++ ascii "/" ++
               (Split 44 flags.apicalls).getD k []) 300000000000,
           Event.println L.Trace (ascii "Got following response body: \n" ++ s),
           Event.println L.Info
             (ascii "Checking API call: " ++ (Split 44 flags.apicalls).getD k []),
           e, j] ++ t2 ∧
      (e = Event.println L.Error
          (ascii "API call " ++ (Split 44 flags.apicalls).getD k [] ++
            ascii " failed: the response was null") ↔
        s = ascii "null") ∧
      (e = Event.println L.Info
          (ascii "API call " ++ (Split 44 flags.apicalls).getD k [] ++
            ascii " succeeded: response was not 'null'") ↔
        s ≠ ascii "null") ∧
      (s = ascii "null\n" ∨ s = ascii " null" →
        e = Event.println L.Info
          (ascii "API call " ++ (Split 44 flags.apicalls).getD k [] ++
            ascii " succeeded: response was not 'null'")) := by
  obtain ⟨L, w1, hi, hr, hm⟩ := main_eq env flags stdin hopen
  obtain ⟨t, ht, hrun⟩ := testApiCalls_first_rounds env L
    (ascii "http://" ++ TrimSpace (serverAddress flags stdin)) k (Split 44 flags.apicalls) w1
    (Nat.le_of_lt hk) (by simpa [hr] using hs)
  have hb : env.server (requests (w1.trace ++ t)).length
      (ascii "http://" ++ TrimSpace (serverAddress flags stdin) ++ ascii "/" ++
        (Split 44 flags.apicalls).getD k []) = Response.body s := by
    rw [requests_append, hr, List.nil_append, ht]
    exact h
  rw [drop_eq_getD_cons _ k hk,
    testApiCalls_cons_body env L _ _ _ { trace := w1.trace ++ t, stdin := w1.stdin } s hb] at hrun
  obtain ⟨t2, ht2, _⟩ := testApiCalls_grows env L
    (ascii "http://" ++ TrimSpace (serverAddress flags stdin))
    ((Split 44 flags.apicalls).drop (k + 1))
    { trace := w1.trace ++ t ++
        roundEvents L (ascii "http://" ++ TrimSpace (serverAddress flags stdin))
          ((Split 44 flags.apicalls).getD k []) s,
      stdin := w1.stdin }
  refine ⟨L, w1.trace ++ t,
    Event.println (if s = ascii "null" then L.Error else L.Info)
      (ascii "API call " ++ (Split 44 flags.apicalls).getD k [] ++
        (if s = ascii "null" then ascii " failed: the response was null"
         else ascii " succeeded: response was not 'null'")),
    Event.println (if isJson s = true then L.Info else L.Error)
      (ascii "API call " ++ (Split 44 flags.apicalls).getD k [] ++
        (if isJson s = true then ascii " succeeded: response was a valid JSON"
         else ascii " failed: the response was not a valid Json")),
    t2, hi, ?_, ?_, ?_, ?_, ?_⟩
  · rw [requests_append, hr, List.nil_append, ht]
  · rw [hm, hrun, ht2]
    rfl
  · by_cases h1 : s = ascii "null"
    · simp [h1]
    · simp only [if_neg h1, h1, iff_false, Event.println.injEq, not_and,
        List.append_cancel_left_eq]
      intro _
      decide
  · by_cases h1 : s = ascii "null"
    · simp only [if_pos h1, h1, ne_eq, not_true_eq_false, iff_false, Event.println.injEq,
        not_and, List.append_cancel_left_eq]
      intro _
      decide
    · simp [h1]
  · intro h1
    have h2 : s ≠ ascii "null" := by
      rcases h1 with h1 | h1 <;> rw [h1] <;> decide
    simp [h2]

/-- C2, for the one API call `a` on the server `h`, answered with `null`
followed by a line feed: the info line of the first check is in the trace of
the run, which is given in full. -/
theorem null_check_line_witness :
    Event.println traceLoggers.Info
        (ascii "API call a succeeded: response was not 'null'") ∈
      (main (constantEnv (Response.body (ascii "null\n"))) traceFlags []).1.trace ∧
    (main (constantEnv (Response.body (ascii "null\n"))) traceFlags []).1.trace =
      [Event.println traceLoggers.Info (ascii "Creating requests for http://h"),
       Event.println traceLoggers.Info (ascii "Requesting following url: http://h/a"),
       Event.get (ascii "http://h/a") 300000000000,
       Event.println traceLoggers.Trace (ascii "Got following response body: \nnull\n"),
       Event.println traceLoggers.Info (ascii "Checking API call: a"),
       Event.println traceLoggers.Info
         (ascii "API call a succeeded: response was not 'null'"),
       Event.println traceLoggers.Info
         (ascii "API call a succeeded: response was a valid JSON")] := by
  obtain ⟨L, t1, e, j, t2, hL, _, htr, _, _, he⟩ :=
    null_check_line (constantEnv (Response.body (ascii "null\n"))) traceFlags [] 0
      (ascii "null\n") (Or.inl (by decide)) (by decide) (fun i hi => absurd hi (Nat.not_lt_zero i))
      rfl
  have h0 : initLog (constantEnv (Response.body (ascii "null\n"))) traceFlags.logfile
      traceFlags.loglevel { trace := [], stdin := [] } =
      ({ trace := [], stdin := [] }, some traceLoggers) := by decide
  rw [h0] at hL
  have hL2 : traceLoggers = L := Option.some.inj (Prod.mk.inj hL).2
  refine ⟨?_, by decide⟩
  have hp : ascii "API call " ++ (Split 44 traceFlags.apicalls).getD 0 [] ++
      ascii " succeeded: response was not 'null'" =
      ascii "API call a succeeded: response was not 'null'" := by decide
  rw [htr, he (Or.inl rfl), hp, ← hL2]
  simp

/-- C3: when the log stream opens and every request succeeds, the URLs
`main` requests are, in order and once each, `http://` followed by the
trimmed server address, `/` and the piece, for the pieces of `-apicalls`
split at the commas; their number is the number of commas plus one, and an
empty `-apicalls` gives the one request for the server URL followed by `/`. -/
theorem requested_urls (env : Env) (flags : Flags) (stdin : GoString)
    (hopen : ToLower env.unicodeLower flags.logfile = ascii "stdout" ∨
      env.openFails flags.logfile = false)
    (hs : ∀ n url, ∃ b, env.server n url = Response.body b) :
    (requests (main env flags stdin).1.trace).map Prod.fst =
        (Split 44 flags.apicalls).map
          (fun p => ascii "http://" ++ TrimSpace (serverAddress flags stdin) ++ ascii "/" ++ p) ∧
      (requests (main env flags stdin).1.trace).length = flags.apicalls.count 44 + 1 ∧
      (flags.apicalls = [] →
        (requests (main env flags stdin).1.trace).map Prod.fst =
          [ascii "http://" ++ TrimSpace (serverAddress flags stdin) ++ ascii "/"]) := by
  obtain ⟨L, w1, _, hr, hm⟩ := main_eq env flags stdin hopen
  obtain ⟨_, hreq, _⟩ := testApiCalls_all_succeed env L
    (ascii "http://" ++ TrimSpace (serverAddress flags stdin)) hs (Split 44 flags.apicalls) w1
  rw [hr, List.nil_append] at hreq
  rw [hm, hreq]
  refine ⟨by simp [Function.comp_def], by simp [Split_length], ?_⟩
  intro h0
  rw [h0]
  simp [Split]

/-- C3, for the default API calls against a server that answers `null`. -/
theorem requested_urls_witness :
    (requests (main (constantEnv (Response.body (ascii "null"))) exampleFlags
        []).1.trace).map Prod.fst =
      [ascii "http://192.168.11.23/api/v1/wikifolios",
       ascii "http://192.168.11.23/api/v1/trades",
       ascii "http://192.168.11.23/api/v1/import/wikifolios"] := by
  rw [(requested_urls (constantEnv (Response.body (ascii "null"))) exampleFlags []
    (Or.inr rfl) (fun _ _ => ⟨_, rfl⟩)).1]
  decide

/-- C4: two runs with the same flags and the same standard input, in each
of which the log stream opens and every request succeeds, end with exit
status 0 and issue the same requests, whatever the bodies of the responses
are; in both, every API call of the list is requested and both its checks
are logged. -/
theorem checks_do_not_steer (env1 env2 : Env) (flags : Flags) (stdin : GoString)
    (hopen1 : ToLower env1.unicodeLower flags.logfile = ascii "stdout" ∨
      env1.openFails flags.logfile = false)
    (hopen2 : ToLower env2.unicodeLower flags.logfile = ascii "stdout" ∨
      env2.openFails flags.logfile = false)
    (hs1 : ∀ n url, ∃ b, env1.server n url = Response.body b)
    (hs2 : ∀ n url, ∃ b, env2.server n url = Response.body b) :
    (main env1 flags stdin).2 = 0 ∧ (main env2 flags stdin).2 = 0 ∧
      requests (main env1 flags stdin).1.trace = requests (main env2 flags stdin).1.trace ∧
      (∀ p ∈ Split 44 flags.apicalls, ∃ L b,
        ∀ e ∈ roundEvents L (ascii "http://" ++ TrimSpace (serverAddress flags stdin)) p b,
          e ∈ (main env1 flags stdin).1.trace) ∧
      (∀ p ∈ Split 44 flags.apicalls, ∃ L b,
        ∀ e ∈ roundEvents L (ascii "http://" ++ TrimSpace (serverAddress flags stdin)) p b,
          e ∈ (main env2 flags stdin).1.trace) := by
  obtain ⟨L1, w1, _, hr1, hm1⟩ := main_eq env1 flags stdin hopen1
  obtain ⟨L2, w2, _, hr2, hm2⟩ := main_eq env2 flags stdin hopen2
  obtain ⟨h10, hreq1, hchk1⟩ := testApiCalls_all_succeed env1 L1
    (ascii "http://" ++ TrimSpace (serverAddress flags stdin)) hs1 (Split 44 flags.apicalls) w1
  obtain ⟨h20, hreq2, hchk2⟩ := testApiCalls_all_succeed env2 L2
    (ascii "http://" ++ TrimSpace (serverAddress flags stdin)) hs2 (Split 44 flags.apicalls) w2
  rw [hm1, hm2]
  refine ⟨h10, h20, ?_, ?_, ?_⟩
  · rw [hreq1, hreq2, hr1, hr2]
  · intro p hp
    obtain ⟨b, hb⟩ := hchk1 p hp
    exact ⟨L1, b, hb⟩
  · intro p hp
    obtain ⟨b, hb⟩ := hchk2 p hp
    exact ⟨L2, b, hb⟩

/-- C4, for a server that answers `null` to everything and one that
answers with the invalid JSON text `{`. -/
theorem checks_do_not_steer_witness :
    (main (constantEnv (Response.body (ascii "null"))) exampleFlags []).2 = 0 ∧
      (main (constantEnv (Response.body (ascii "\x7b"))) exampleFlags []).2 = 0 ∧
      requests (main (constantEnv (Response.body (ascii "null"))) exampleFlags []).1.trace =
        requests (main (constantEnv (Response.body (ascii "\x7b"))) exampleFlags []).1.trace :=
  have h := checks_do_not_steer (constantEnv (Response.body (ascii "null")))
    (constantEnv (Response.body (ascii "\x7b"))) exampleFlags []
    (Or.inr rfl) (Or.inr rfl) (fun _ _ => ⟨_, rfl⟩) (fun _ _ => ⟨_, rfl⟩)
  ⟨h.1, h.2.1, h.2.2.1⟩

/-- C5: when the requests of the first `k` API calls succeed and the GET
of the next one, or the reading of its body, fails, `getResponseBody` logs
the error and ends the process: the loop ends with exit status 1, its events
are those of `k` full rounds (each with its request and both its checks),
then the request that failed and the error line, and nothing for the failed
call's checks or for a later API call. -/
theorem failed_request_ends_run (env : Env) (L : Loggers) (serverUrl : GoString)
    (k : Nat) (calls : List GoString) (w : World) (hk : k < calls.length)
    (hs : ∀ i, i < k → ∃ b, env.server ((requests w.trace).length + i)
      (serverUrl ++ ascii "/" ++ calls.getD i []) = Response.body b)
    (hf : env.server ((requests w.trace).length + k)
          (serverUrl ++ ascii "/" ++ calls.getD k []) = Response.getFailed ∨
        env.server ((requests w.trace).length + k)
          (serverUrl ++ ascii "/" ++ calls.getD k []) = Response.readFailed) :
    ∃ msg t,
      (msg = ascii "Error while getting response for: " ++
          (serverUrl ++ ascii "/" ++ calls.getD k []) ∨
        msg = ascii "Error while reading response body for: " ++
          (serverUrl ++ ascii "/" ++ calls.getD k [])) ∧
      testApiCalls env L serverUrl (calls.take k) w =
        ({ trace := w.trace ++ t, stdin := w.stdin }, 0) ∧
      requests t =
        (calls.take k).map (fun p => (serverUrl ++ ascii "/" ++ p, (300000000000 : Int))) ∧
      (∀ p ∈ calls.take k, ∃ b, ∀ e ∈ roundEvents L serverUrl p b, e ∈ t) ∧
      (getResponseBody env L (serverUrl ++ ascii "/" ++ calls.getD k [])
          { trace := w.trace ++ t, stdin := w.stdin }).2 = none ∧
      testApiCalls env L serverUrl calls w =
        ({ trace := w.trace ++ t ++
            [Event.println L.Info (ascii "Requesting following url: " ++
               (serverUrl ++ ascii "/" ++ calls.getD k [])),
             Event.get (serverUrl ++ ascii "/" ++ calls.getD k []) 300000000000,
             Event.println L.Error msg],
           stdin := w.stdin }, 1) := by
  obtain ⟨msg, t, hmsg, hpre, hreq, hchk, hall⟩ :=
    testApiCalls_fails_at env L serverUrl k calls w hk hs hf
  refine ⟨msg, t, hmsg, hpre, hreq, hchk, ?_, hall⟩
  have hlen : (requests (w.trace ++ t)).length = (requests w.trace).length + k := by
    rw [requests_append, hreq, List.length_append, List.length_map, List.length_take]
    omega
  obtain ⟨m2, _, hg⟩ := getResponseBody_failed env L
    (serverUrl ++ ascii "/" ++ calls.getD k []) { trace := w.trace ++ t, stdin := w.stdin }
    (by simpa only [hlen] using hf)
  rw [hg]

/-- C5, for three API calls of which the second fails. -/
theorem failed_request_ends_run_witness :
    (testApiCalls (failingEnv 1) exampleLoggers (ascii "http://h")
        [ascii "a", ascii "b", ascii "c"] { trace := [], stdin := [] }).2 = 1 ∧
      (requests (testApiCalls (failingEnv 1) exampleLoggers (ascii "http://h")
        [ascii "a", ascii "b", ascii "c"] { trace := [], stdin := [] }).1.trace).length = 2 := by
  obtain ⟨msg, t, _, _, hreq, _, _, h⟩ := failed_request_ends_run (failingEnv 1) exampleLoggers
    (ascii "http://h") 1 [ascii "a", ascii "b", ascii "c"] { trace := [], stdin := [] }
    (by decide)
    (fun i hi => ⟨ascii "null", by
      have : i = 0 := by omega
      subst this
      rfl⟩)
    (Or.inl rfl)
  rw [h]
  refine ⟨rfl, ?_⟩
  simp [requests_append, hreq, requests]

/-- C6: with the loggers `initLog` makes, the Info and Warning loggers
write to the chosen output stream and the Error logger to that stream and
to standard output, whatever the log level. The Trace logger writes to the
output stream exactly when the log level equals `trace` up to the case of
its letters, and to `ioutil.Discard` for every other log level, so that of a
successful request the line with the response body reaches the output stream
exactly in the first case. The Unicode case tables, which are not part of
the program, are taken to give no string with a character outside ASCII the
lower-case form `trace`. -/
theorem trace_logger_follows_loglevel (env : Env) (fileName loglevel : GoString)
    (w w' : World) (L : Loggers)
    (hU : ∀ x : GoString, x.all (fun c => decide (c < 128)) = false →
      env.unicodeLower x ≠ ascii "trace")
    (h : initLog env fileName loglevel w = (w', some L)) :
    L.Info.out = [logStream env fileName] ∧
      L.Warning.out = [logStream env fileName] ∧
      L.Error.out = [logStream env fileName, Writer.stdout] ∧
      (L.Trace.out = [logStream env fileName] ↔
        equalsIgnoringCase loglevel (ascii "trace") = true) ∧
      (equalsIgnoringCase loglevel (ascii "trace") = false →
        L.Trace.out = [Writer.discard]) ∧
      ∀ url w1 w2 b, getResponseBody env L url w1 = (w2, some b) →
        written (logStream env fileName) w2.trace =
          written (logStream env fileName) w1.trace ++
            (ascii "INFO:    ", ascii "Requesting following url: " ++ url) ::
              (if equalsIgnoringCase loglevel (ascii "trace") = true then
                [(ascii "TRACE:   ", ascii "Got following response body: \n" ++ b)]
               else []) := by
  have hopen : ToLower env.unicodeLower fileName = ascii "stdout" ∨
      env.openFails fileName = false := by
    by_contra hno
    rw [not_or] at hno
    have h2 : env.openFails fileName = true := by
      cases hb : env.openFails fileName with
      | true => rfl
      | false => exact absurd hb hno.2
    rw [initLog_none env _ _ _ hno.1 h2] at h
    simp at h
  rw [initLog_some env fileName loglevel w hopen] at h
  have hL := (Option.some.inj (Prod.mk.inj h).2).symm
  have hne : logStream env fileName ≠ Writer.discard := by
    unfold logStream
    split <;> simp
  have hiff := ToLower_eq_trace env.unicodeLower loglevel hU
  subst hL
  by_cases ht : ToLower env.unicodeLower loglevel = ascii "trace"
  · have he : equalsIgnoringCase loglevel (ascii "trace") = true := hiff.1 ht
    refine ⟨rfl, rfl, rfl, by simp [ht, he], by simp [he], ?_⟩
    intro url w1 w2 b hg
    rcases response_cases (env.server (requests w1.trace).length url) with ⟨b2, hb2⟩ | hf
    · rw [getResponseBody_body env _ url w1 b2 hb2] at hg
      obtain ⟨hw, hb⟩ := Prod.mk.inj hg
      have hbb : b2 = b := Option.some.inj hb
      subst hbb
      rw [← hw]
      simp [written_append, written, ht, he]
    · obtain ⟨m, _, hm⟩ := getResponseBody_failed env _ url w1 hf
      rw [hm] at hg
      simp at hg
  · have he : equalsIgnoringCase loglevel (ascii "trace") = false := by
      cases hc : equalsIgnoringCase loglevel (ascii "trace") with
      | false => rfl
      | true => exact absurd (hiff.2 hc) ht
    refine ⟨rfl, rfl, rfl, by simp [ht, he, hne.symm], by simp [ht], ?_⟩
    intro url w1 w2 b hg
    rcases response_cases (env.server (requests w1.trace).length url) with ⟨b2, hb2⟩ | hf
    · rw [getResponseBody_body env _ url w1 b2 hb2] at hg
      obtain ⟨hw, hb⟩ := Prod.mk.inj hg
      have hbb : b2 = b := Option.some.inj hb
      subst hbb
      rw [← hw]
      simp [written_append, written, ht, he, hne]
    · obtain ⟨m, _, hm⟩ := getResponseBody_failed env _ url w1 hf
      rw [hm] at hg
      simp at hg

/-- C6, for the log file `stdout`: at the log level `TRACE` the Trace logger
writes to standard output, and the lines a run writes there include the
response body; at the log level `Info` they do not. -/
theorem trace_logger_follows_loglevel_witness :
    ((initLog (constantEnv (Response.body (ascii "null"))) (ascii "stdout") (ascii "TRACE")
        { trace := [], stdin := [] }).2.map (fun L => L.Trace.out) =
      some [Writer.stdout]) ∧
    written Writer.stdout
        (main (constantEnv (Response.body (ascii "null"))) traceFlags []).1.trace =
      [(ascii "INFO:    ", ascii "Creating requests for http://h"),
       (ascii "INFO:    ", ascii "Requesting following url: http://h/a"),
       (ascii "TRACE:   ", ascii "Got following response body: \nnull"),
       (ascii "INFO:    ", ascii "Checking API call: a"),
       (ascii "ERROR:   ", ascii "API call a failed: the response was null"),
       (ascii "ERROR:   ", ascii "API call a failed: the response was null"),
       (ascii "INFO:    ", ascii "API call a succeeded: response was a valid JSON")] ∧
    written Writer.stdout
        (main (constantEnv (Response.body (ascii "null")))
          { traceFlags with loglevel := ascii "Info" } []).1.trace =
      [(ascii "INFO:    ", ascii "Creating requests for http://h"),
       (ascii "INFO:    ", ascii "Requesting following url: http://h/a"),
       (ascii "INFO:    ", ascii "Checking API call: a"),
       (ascii "ERROR:   ", ascii "API call a failed: the response was null"),
       (ascii "ERROR:   ", ascii "API call a failed: the response was null"),
       (ascii "INFO:    ", ascii "API call a succeeded: response was a valid JSON")] := by
  have h := (trace_logger_follows_loglevel (constantEnv (Response.body (ascii "null")))
    (ascii "stdout") (ascii "TRACE") { trace := [], stdin := [] } { trace := [], stdin := [] }
    traceLoggers
    (fun x hx heq => by
      have h2 : (ascii "trace").all (fun c => decide (c < 128)) = true := by decide
      have h3 : x = ascii "trace" := heq
      rw [h3, h2] at hx
      exact absurd hx (by simp))
    (by decide)).2.2.2.1.2 (by decide)
  refine ⟨?_, by decide, by decide⟩
  have h0 : initLog (constantEnv (Response.body (ascii "null"))) (ascii "stdout") (ascii "TRACE")
      { trace := [], stdin := [] } = ({ trace := [], stdin := [] }, some traceLoggers) := by
    decide
  rw [h0, Option.map_some', h]
  decide

/-- C7: `getServerUrl` prints the prompt and reads a line from standard
input exactly when the address is empty, and leaves the world as it is for
every other address. What it returns is the address, or for the empty
address the line read, with leading and trailing white space removed: the
text lies between two runs of white space and has no white space at either
end, and it is the only string of which that holds. A non-empty result is returned unchanged when `getServerUrl` is applied
to it, and an address of white space only gives the empty string without a
prompt. -/
theorem getServerUrl_asks_iff_empty (a : GoString) (w : World) :
    ((getServerUrl a w).1.trace =
        w.trace ++
          [Event.fmtPrintln (ascii
             "Please enter the web address you want to test (e.g.: 192.168.11.23): "),
           Event.readStdin (ReadString 10 w.stdin).1] ↔ a = []) ∧
      (a ≠ [] → (getServerUrl a w).1 = w) ∧
      IsTrimOf (getServerUrl a w).2 (if a = [] then (ReadString 10 w.stdin).1 else a) ∧
      (∀ t, IsTrimOf t (if a = [] then (ReadString 10 w.stdin).1 else a) →
        t = (getServerUrl a w).2) ∧
      ((getServerUrl a w).2 ≠ [] →
        ∀ w2, getServerUrl (getServerUrl a w).2 w2 = (w2, (getServerUrl a w).2)) ∧
      (a ≠ [] → IsWhiteSpace a → getServerUrl a w = (w, [])) := by
  refine ⟨?_, ?_, ?_, ?_, ?_, ?_⟩
  · by_cases h : a = []
    · subst h
      simp [getServerUrl]
    · simp only [getServerUrl, if_neg h, h, iff_false]
      intro hw
      have := congrArg List.length hw
      simp at this
  · intro h
    simp only [getServerUrl, if_neg h]
  · by_cases h : a = []
    · simp only [getServerUrl, if_pos h]
      exact TrimSpace_isTrimOf _
    · simp only [getServerUrl, if_neg h]
      exact TrimSpace_isTrimOf _
  · intro t ht
    by_cases h : a = []
    · simp only [getServerUrl, if_pos h] at ht ⊢
      exact IsTrimOf_unique _ t ht
    · simp only [getServerUrl, if_neg h] at ht ⊢
      exact IsTrimOf_unique _ t ht
  · intro hne w2
    have h1 : hasLeadingSpace (getServerUrl a w).2 = false := by
      unfold getServerUrl
      split <;> exact TrimSpace_no_leading _
    have h2 : hasTrailingSpace (getServerUrl a w).2 = false := by
      unfold getServerUrl
      split <;> exact TrimSpace_no_trailing _
    rw [getServerUrl, if_neg hne, TrimSpace_id _ h1 h2]
  · intro hne hws
    obtain ⟨es, hall, hes⟩ := hws
    rw [getServerUrl, if_neg hne, hes, TrimSpace_all_space es hall]

/-- C8: the timeout `requestTimeout * time.Second` is 300 seconds, which
is 3 * 10^11 nanoseconds, the product lies within the range of an `int64`,
and every request of every run of `main` is made with this timeout. -/
theorem request_timeout_is_300_seconds :
    wrapInt64 (requestTimeout * Second) = 300 * Second ∧
      requestTimeout * Second = 3 * 10 ^ 11 ∧
      -(2 ^ 63 : Int) ≤ requestTimeout * Second ∧
      requestTimeout * Second < 2 ^ 63 ∧
      ∀ (env : Env) (flags : Flags) (stdin : GoString),
        ∀ r ∈ requests (main env flags stdin).1.trace,
          r.2 = wrapInt64 (requestTimeout * Second) := by
  refine ⟨by decide, by decide, by decide, by decide, ?_⟩
  intro env flags stdin r hr
  rw [timeout_eq]
  exact main_timeouts env flags stdin r hr

/-- C10: the two checks are independent. `isJson` accepts the body `null`,
and a round whose request succeeds logs, after the line that announces the
checks, exactly two lines, the first for the null check and the second for
the JSON check; for the body `null` these are the error line of the null
check and the success line of the JSON check. -/
theorem checks_are_independent (env : Env) (L : Loggers) (serverUrl apiCall : GoString)
    (rest : List GoString) (w w1 : World) (s : GoString)
    (h : getResponseBody env L (serverUrl ++ ascii "/" ++ apiCall) w = (w1, some s)) :
    isJson (ascii "null") = true ∧
      ∃ e j, testApiCalls env L serverUrl (apiCall :: rest) w =
          testApiCalls env L serverUrl rest
            { trace := w1.trace ++
                [Event.println L.Info (ascii "Checking API call: " ++ apiCall), e, j],
              stdin := w1.stdin } ∧
        (e = Event.println L.Error
            (ascii "API call " ++ apiCall ++ ascii " failed: the response was null") ∨
          e = Event.println L.Info
            (ascii "API call " ++ apiCall ++ ascii " succeeded: response was not 'null'")) ∧
        (j = Event.println L.Error
            (ascii "API call " ++ apiCall ++ ascii " failed: the response was not a valid Json") ∨
          j = Event.println L.Info
            (ascii "API call " ++ apiCall ++ ascii " succeeded: response was a valid JSON")) ∧
        (s = ascii "null" →
          e = Event.println L.Error
            (ascii "API call " ++ apiCall ++ ascii " failed: the response was null") ∧
          j = Event.println L.Info
            (ascii "API call " ++ apiCall ++ ascii " succeeded: response was a valid JSON")) := by
  have hnull : isJson (ascii "null") = true := by decide
  refine ⟨hnull, _, _, testApiCalls_round env L serverUrl apiCall rest w w1 s h, ?_, ?_, ?_⟩
  · by_cases h1 : s = ascii "null"
    · exact Or.inl (by simp [h1])
    · exact Or.inr (by simp [h1])
  · cases h2 : isJson s
    · exact Or.inl (by simp)
    · exact Or.inr (by simp)
  · intro h1
    subst h1
    simp [hnull]

/-- C10, at the body `null` of the API call `a` on the server `h`. -/
theorem checks_are_independent_witness :
    isJson (ascii "null") = true ∧
      testApiCalls (constantEnv (Response.body (ascii "null"))) exampleLoggers
        (ascii "http://h") [ascii "a"] { trace := [], stdin := [] } =
      ({ trace :=
          [Event.println exampleLoggers.Info (ascii "Requesting following url: http://h/a"),
           Event.get (ascii "http://h/a") 300000000000,
           Event.println exampleLoggers.Trace (ascii "Got following response body: \nnull"),
           Event.println exampleLoggers.Info (ascii "Checking API call: a"),
           Event.println exampleLoggers.Error (ascii "API call a failed: the response was null"),
           Event.println exampleLoggers.Info
             (ascii "API call a succeeded: response was a valid JSON")],
         stdin := [] }, 0) := by
  obtain ⟨hn, e, j, hrun, _, _, hej⟩ := checks_are_independent
    (constantEnv (Response.body (ascii "null"))) exampleLoggers
    (ascii "http://h") (ascii "a") [] { trace := [], stdin := [] } _ (ascii "null") rfl
  obtain ⟨he, hj⟩ := hej rfl
  refine ⟨hn, ?_⟩
  rw [hrun, he, hj]
  rfl

/-! ## The claims about the validation of the response -/

set_option maxRecDepth 100000 in
/-- C1: the response body `1e999` is a valid JSON text, a number, and the
scanner of `encoding/json` accepts it; yet `isJson` rejects it, because
`strconv.ParseFloat` reports the number as out of range, and the run logs
that the response was not a valid Json. -/
theorem valid_json_rejected :
    ValidJson (ascii "1e999") ∧ checkValid (ascii "1e999") = true ∧
      isJson (ascii "1e999") = false ∧
      (testApiCalls (constantEnv (Response.body (ascii "1e999"))) exampleLoggers
          (ascii "http://h") [ascii "a"] { trace := [], stdin := [] }).1.trace =
        [Event.println exampleLoggers.Info (ascii "Requesting following url: http://h/a"),
         Event.get (ascii "http://h/a") 300000000000,
         Event.println exampleLoggers.Trace (ascii "Got following response body: \n1e999"),
         Event.println exampleLoggers.Info (ascii "Checking API call: a"),
         Event.println exampleLoggers.Info
           (ascii "API call a succeeded: response was not 'null'"),
         Event.println exampleLoggers.Error
           (ascii "API call a failed: the response was not a valid Json")] := by
  refine ⟨⟨0, ?_⟩, by decide, by decide, by decide⟩
  have h : Derives (fun _ => True) .value 0 (ascii "1e999") :=
    Derives.number 0 _
      (JNumber.mk [49] [] [101, 57, 57, 57] (JInteger.digit 49 (by decide)) JFraction.none
        (JExponent.some 101 [] [57, 57, 57] (Or.inr rfl) (Or.inl rfl)
          ⟨by simp, by intro c hc; simp at hc; rw [hc]; decide⟩))
      trivial
  exact Derives.element 0 [] _ [] Ws_nil h Ws_nil

/-- The validation rejects a valid JSON text that is nested deeper than the
scanner allows: 10001 opening brackets followed by 10001 closing ones. -/
theorem deep_nesting_rejected :
    ValidJson (List.replicate 10001 91 ++ List.replicate 10001 93) ∧
      isJson (List.replicate 10001 91 ++ List.replicate 10001 93) = false := by
  refine ⟨⟨10001, ?_⟩, ?_⟩
  · have h : Derives (fun _ => True) .element 10001
        ([] ++ (List.replicate 10001 91 ++ List.replicate 10001 93) ++ []) :=
      Derives.element 10001 [] _ [] Ws_nil (nested_arrays 10000) Ws_nil
    rw [List.nil_append, List.append_nil] at h
    exact h
  · have hrun : scanBytes Scanner.reset (List.replicate 10001 91 ++ List.replicate 10001 93)
        = none :=
      too_deep _ 10001 [] Scanner.reset (Or.inl rfl) (Nat.zero_le _)
        (by simp [maxNestingDepth])
    have hv : checkValid (List.replicate 10001 91 ++ List.replicate 10001 93) = false := by
      unfold checkValid
      rw [hrun]
    unfold isJson isJsonObject isJsonString unmarshalInterface unmarshalString
    rw [hv]
    rfl

/-- What `isJson` accepts: exactly the JSON texts, of any kind and with
optional white space around the value, that are nested at most 10000 deep and
in which `strconv.ParseFloat` reports no number as out of range. -/
theorem isJson_iff_json_in_range (s : GoString) :
    isJson s = true ↔
      JsonText (fun n => parseFloatErrRange n = false) maxNestingDepth s := by
  have hobj : isJson s = isJsonObject s := by
    unfold isJson
    cases h1 : isJsonObject s with
    | true => rfl
    | false =>
      cases h2 : isJsonString s with
      | false => rfl
      | true =>
        rw [show isJsonObject s = true from unmarshalString_imp s h2] at h1
        exact absurd h1 (by simp)
  rw [hobj]
  unfold isJsonObject unmarshalInterface
  rw [Bool.and_eq_true]
  constructor
  · intro h
    exact nc_derives .element maxNestingDepth s (json_of_checkValid s h.1) h.2
  · intro h
    exact ⟨checkValid_of_json _ s h, derives_nc .element maxNestingDepth s h⟩

/-- C9: whenever `isJsonString` accepts a text so does `isJsonObject`, and
therefore `isJson` gives the result of `isJsonObject`: the second decode,
into a string, never changes the result. -/
theorem isJson_eq_isJsonObject (s : GoString) :
    (isJsonString s = true → isJsonObject s = true) ∧ isJson s = isJsonObject s := by
  have h : isJsonString s = true → isJsonObject s = true := unmarshalString_imp s
  refine ⟨h, ?_⟩
  unfold isJson
  cases h1 : isJsonObject s with
  | true => rfl
  | false =>
    cases h2 : isJsonString s with
    | false => rfl
    | true => rw [h h2] at h1; exact absurd h1 (by simp)

/-- C9, at the text `"a"`, which both decodes accept. -/
theorem isJson_eq_isJsonObject_witness :
    isJsonString (ascii "\"a\"") = true ∧ isJsonObject (ascii "\"a\"") = true :=
  ⟨by decide, (isJson_eq_isJsonObject (ascii "\"a\"")).1 (by decide)⟩

end RegressionApiTest
